import Mathlib

/-!
# The evaluation core of the ISLISP interpreter (ta2gch/gazelle, later iris)

A shallow embedding of the Go sources

* `runtime/environment/environment.go` (namespace stacks of frames),
* `runtime/non-local_exits.go` (block, catch, tagbody, unwind-protect),
* `runtime/function.go` (lambda lists, lambda, apply, funcall),

followed by theorems about them.

Conventions of the embedding.

* A Go variable of interface type `ilos.Instance` is an `Instance`; the
  constructor `Instance.nil` is Go's `nil`, `Instance.null` is Lisp's `Nil`.
* A Go map is a reference: the maps live in a `World` (a heap indexed by
  addresses) and an environment holds, for each namespace, the list of the
  addresses of its frames.  A Go function that mutates a map takes the world
  and returns the new one.
* A Go run-time fault (index out of range, failed type assertion) and
  exhausted fuel are the two values of `Fault`.
-/

namespace ilos

/-- The classes the evaluator inspects (`runtime/ilos/class`). -/
inductive Class
  | Object | Null | Cons | List | Symbol | Number | Integer | Float | Character | String
  | BasicVector | GeneralVector | Function
  | Escape | BlockTag | CatchTag | TagbodyTag
  | SeriousCondition | Error | ProgramError | DomainError | ArithmeticError | ParseError
  | UndefinedEntity | UndefinedFunction | UndefinedVariable | ControlError | SimpleError
  deriving DecidableEq, Repr

/-- The classes of standard instances: the escapes and the conditions.
Instances of the built-in classes have constructors of their own. -/
inductive StandardClass
  | Escape | BlockTag | CatchTag | TagbodyTag
  | SeriousCondition | Error | ProgramError | DomainError | ArithmeticError | ParseError
  | UndefinedEntity | UndefinedFunction | UndefinedVariable | ControlError | SimpleError
  deriving DecidableEq, Repr

/-- A class of standard instances, as a class. -/
def StandardClass.toClass : StandardClass → Class
  | .Escape => .Escape
  | .BlockTag => .BlockTag
  | .CatchTag => .CatchTag
  | .TagbodyTag => .TagbodyTag
  | .SeriousCondition => .SeriousCondition
  | .Error => .Error
  | .ProgramError => .ProgramError
  | .DomainError => .DomainError
  | .ArithmeticError => .ArithmeticError
  | .ParseError => .ParseError
  | .UndefinedEntity => .UndefinedEntity
  | .UndefinedFunction => .UndefinedFunction
  | .UndefinedVariable => .UndefinedVariable
  | .ControlError => .ControlError
  | .SimpleError => .SimpleError

mutual
/-- A Go value of the interface type `ilos.Instance`: `nil` is Go's nil
interface value, `null` is the Lisp object `Nil`.  Function objects are
references (`ref`): what they do when applied is given by the `Applicable`
interface.  The slot values of a standard instance are kept in `Slots`. -/
inductive Instance
  | nil
  | null
  | cons (car cdr : Instance)
  | symbol (name : String)
  | integer (n : Int)
  | float (bits : Nat)
  | character (c : Char)
  | string (s : String)
  | generalVector (xs : Instances)
  | function (ref : Nat)
  | classObject (c : Class)
  | standard (cls : StandardClass) (slots : Slots)
/-- A Go slice of instances, as stored in a general vector. -/
inductive Instances
  | nil
  | cons (x : Instance) (xs : Instances)
/-- The slot map of a standard instance, in the order the slots are written. -/
inductive Slots
  | nil
  | cons (k : String) (v : Instance) (rest : Slots)
end

deriving instance DecidableEq for Instance

/-- A pair `(ilos.Instance, ilos.Instance)` as the evaluator returns it: the
value and the condition, `nil` standing for "none". -/
abbrev Result := Instance × Instance

/-- The elements of a slice, as a list. -/
def Instances.toList : Instances → List Instance
  | .nil => []
  | .cons x xs => x :: xs.toList

/-- The slice holding the elements of a list. -/
def Instances.ofList : List Instance → Instances
  | [] => .nil
  | x :: xs => .cons x (Instances.ofList xs)

/-- The value of the slot named `name`, `none` when there is no such slot. -/
def Slots.get : Slots → String → Option Instance
  | .nil, _ => none
  | .cons k v rest, name => if k = name then some v else rest.get name

/-- `instance.GeneralVector(xs)`: the general vector over the slice `xs`. -/
def GeneralVector (xs : List Instance) : Instance := .generalVector (Instances.ofList xs)

/-- The Lisp list whose elements are `xs`, ending in `tail`. -/
def listFrom (xs : List Instance) (tail : Instance) : Instance :=
  xs.foldr Instance.cons tail

/-- The proper Lisp list whose elements are `xs`. -/
def list (xs : List Instance) : Instance := listFrom xs .null

/-- The class an instance is a direct instance of (`nil` has none). -/
def Instance.classOf : Instance → Option Class
  | .nil => none
  | .null => some .Null
  | .cons _ _ => some .Cons
  | .symbol _ => some .Symbol
  | .integer _ => some .Integer
  | .float _ => some .Float
  | .character _ => some .Character
  | .string _ => some .String
  | .generalVector _ => some .GeneralVector
  | .function _ => some .Function
  | .classObject _ => some .Object
  | .standard cls _ => some cls.toClass

/-- Modelled from the spec: the direct superclass of a class in the fixed
lattice of built-in classes (§3, §4.1); the class declarations are not among
the source files. -/
def Class.super : Class → Option Class
  | .Object => none
  | .Null => some .List
  | .Cons => some .List
  | .Integer => some .Number
  | .Float => some .Number
  | .GeneralVector => some .BasicVector
  | .String => some .BasicVector
  | .BlockTag => some .Escape
  | .CatchTag => some .Escape
  | .TagbodyTag => some .Escape
  | .Error => some .SeriousCondition
  | .ProgramError => some .Error
  | .DomainError => some .ProgramError
  | .ArithmeticError => some .Error
  | .ParseError => some .Error
  | .UndefinedEntity => some .ProgramError
  | .UndefinedFunction => some .UndefinedEntity
  | .UndefinedVariable => some .UndefinedEntity
  | .ControlError => some .Error
  | .SimpleError => some .Error
  | _ => some .Object

/-- Whether `sub` is `p` or lies below it, climbing at most `fuel` superclass links. -/
def Class.isBelow (p : Class) : Nat → Class → Bool
  | 0, sub => decide (sub = p)
  | fuel + 1, sub =>
    if sub = p then true
    else match sub.super with
      | none => false
      | some c => Class.isBelow p fuel c

/-- Modelled from the spec: the membership predicate `instance-of?(v, C)` of
§4.1 (`ilos.InstanceOf`, `instance.Of`), whose definition is not among the
source files.  Go's `nil` is an instance of no class. -/
def InstanceOf (p : Class) (i : Instance) : Bool :=
  match i.classOf with
  | none => false
  | some c => Class.isBelow p 8 c

end ilos

open ilos

/-- A Go `map[ilos.Instance]ilos.Instance`, by the entries a lookup can find:
`none` when the key is absent, `some v` when it is bound to `v` (which may
itself be `nil`).  What the map does with a key it cannot hash, or with a
float key, is in `environment.mapIndex` and `environment.mapAssign`. -/
abbrev Frame := Instance → Option Instance

/-- The map `map[ilos.Instance]ilos.Instance{}`. -/
def Frame.empty : Frame := fun _ => none

namespace environment

/-- The struct `Environment` of `environment.go`: for each namespace the slice
of its frames (addresses of maps), index 0 first. -/
structure Environment where
  ThrowTag : List Nat
  Macro : List Nat
  Function : List Nat
  Variable : List Nat
  DynamicVariable : List Nat

end environment

namespace env

/-- Modelled from the spec: the environment of namespace stacks (§3, §4.2)
that `non-local_exits.go` and `function.go` reach through `local.BlockTag`,
`local.Function`, ...; its declaration is not among the source files.  Each
field lists the frames of one namespace (addresses of maps) from the
frontmost, innermost frame to the outermost.  (In the Go slice the frontmost
frame is the one appended last: `Flet` pushes its fresh frame by
`append(local.Function, env.Function...)`.) -/
structure Environment where
  BlockTag : List Nat
  TagbodyTag : List Nat
  CatchTag : List Nat
  Variable : List Nat
  Function : List Nat
  Special : List Nat
  Macro : List Nat
  DynamicVariable : List Nat

end env

/-- Modelled from the spec: what a function object made by `newNamedFunction`
holds (§3: lambda-list, body forms, captured lexical environment, name); the
constructor is not among the source files. -/
structure Closure where
  name : Instance
  lambdaList : Instance
  body : List Instance
  loc : env.Environment
  global : env.Environment

/-- The heap: `maps a` is the content of the map at address `a`, addresses
from `next` on being unallocated; `functions r` is the function object that
the reference `r` denotes, references from `nextFunction` on being unused. -/
structure World where
  maps : Nat → Frame
  next : Nat
  functions : Nat → Option Closure
  nextFunction : Nat

/-- The assignment `m[key] = value` on the map at address `a`. -/
def World.store (w : World) (a : Nat) (key : Instance) (value : Instance) : World :=
  { w with maps := fun b => if b = a then (fun k => if k = key then some value else w.maps a k)
                            else w.maps b }

/-- Why a Go call did not return: a run-time panic, or the model ran out of fuel. -/
inductive Fault
  | panic
  | fuel
  deriving DecidableEq, Repr

namespace environment

/-- The loop shared by the five `Get*` methods, on a key that the maps find
by plain equality, such as a symbol (`getLoop` is the loop for any key):
`for _, vars := range stack { if v, ok := vars[key]; ok { return v, true } }; return nil, false`. -/
def scanGet (w : World) : List Nat → Instance → Instance × Bool
  | [], _ => (.nil, false)
  | a :: rest, key =>
    match w.maps a key with
    | some v => (v, true)
    | none => scanGet w rest key

/-- The loop shared by the five `Set*` methods, on a key that the maps find
by plain equality, such as a symbol (`setLoop` is the loop for any key):
`for _, vars := range stack { if _, ok := vars[key]; ok { vars[key] = value; return true } }; return false`. -/
def scanSet (w : World) : List Nat → Instance → Instance → Bool × World
  | [], _, _ => (false, w)
  | a :: rest, key, value =>
    match w.maps a key with
    | some _ => (true, w.store a key value)
    | none => scanSet w rest key value

/-- The statement shared by the five `Define*` methods, `stack[0][key] = value`,
on a key that the maps find by plain equality, such as a symbol (`defineFirst`
is the statement for any key); indexing an empty slice is a run-time panic. -/
def defineFront (w : World) : List Nat → Instance → Instance → Except Fault World
  | [], _, _ => .error .panic
  | a :: _, key, value => .ok (w.store a key value)

/-- `Environment.GetThrowTag`: the innermost binding of `key` on the ThrowTag stack, and whether there is one. -/
def GetThrowTag (e : Environment) (key : Instance) (w : World) : Instance × Bool :=
  scanGet w e.ThrowTag key

/-- `Environment.SetThrowTag`: rewrites the innermost binding of `key` on the ThrowTag stack, or reports false. -/
def SetThrowTag (e : Environment) (key : Instance) (value : Instance) (w : World) : Bool × World :=
  scanSet w e.ThrowTag key value

/-- `Environment.DefineThrowTag`: binds `key` in frame 0 of the ThrowTag stack. -/
def DefineThrowTag (e : Environment) (key : Instance) (value : Instance) (w : World) :
    Except Fault World :=
  defineFront w e.ThrowTag key value

/-- `Environment.GetVariable`: the innermost binding of `key` on the Variable stack, and whether there is one. -/
def GetVariable (e : Environment) (key : Instance) (w : World) : Instance × Bool :=
  scanGet w e.Variable key

/-- `Environment.SetVariable`: rewrites the innermost binding of `key` on the Variable stack, or reports false. -/
def SetVariable (e : Environment) (key : Instance) (value : Instance) (w : World) : Bool × World :=
  scanSet w e.Variable key value

/-- `Environment.DefineVariable`: binds `key` in frame 0 of the Variable stack. -/
def DefineVariable (e : Environment) (key : Instance) (value : Instance) (w : World) :
    Except Fault World :=
  defineFront w e.Variable key value

/-- `Environment.GetFunction`: the innermost binding of `key` on the Function stack, and whether there is one. -/
def GetFunction (e : Environment) (key : Instance) (w : World) : Instance × Bool :=
  scanGet w e.Function key

/-- `Environment.SetFunction`: rewrites the innermost binding of `key` on the Function stack, or reports false. -/
def SetFunction (e : Environment) (key : Instance) (value : Instance) (w : World) : Bool × World :=
  scanSet w e.Function key value

/-- `Environment.DefineFunction`: binds `key` in frame 0 of the Function stack. -/
def DefineFunction (e : Environment) (key : Instance) (value : Instance) (w : World) :
    Except Fault World :=
  defineFront w e.Function key value

/-- `Environment.GetMacro`: the innermost binding of `key` on the Macro stack, and whether there is one. -/
def GetMacro (e : Environment) (key : Instance) (w : World) : Instance × Bool :=
  scanGet w e.Macro key

/-- `Environment.SetMacro`: rewrites the innermost binding of `key` on the Macro stack, or reports false. -/
def SetMacro (e : Environment) (key : Instance) (value : Instance) (w : World) : Bool × World :=
  scanSet w e.Macro key value

/-- `Environment.DefineMacro`: binds `key` in frame 0 of the Macro stack. -/
def DefineMacro (e : Environment) (key : Instance) (value : Instance) (w : World) :
    Except Fault World :=
  defineFront w e.Macro key value

/-- `Environment.GetDynamicVariable`: the innermost binding of `key` on the DynamicVariable stack, and whether there is one. -/
def GetDynamicVariable (e : Environment) (key : Instance) (w : World) : Instance × Bool :=
  scanGet w e.DynamicVariable key

/-- `Environment.SetDynamicVariable`: rewrites the innermost binding of `key` on the DynamicVariable stack, or reports false. -/
def SetDynamicVariable (e : Environment) (key : Instance) (value : Instance) (w : World) :
    Bool × World :=
  scanSet w e.DynamicVariable key value

/-- `Environment.DefineDynamicVariable`: binds `key` in frame 0 of the DynamicVariable stack. -/
def DefineDynamicVariable (e : Environment) (key : Instance) (value : Instance) (w : World) :
    Except Fault World :=
  defineFront w e.DynamicVariable key value

/-- The frame at index `i` of `stack` binds `key` to `v` and no frame of lower
index binds `key`. -/
def InnermostAt (w : World) (stack : List Nat) (key : Instance) (i : Nat) (v : Instance) : Prop :=
  (∃ a, stack[i]? = some a ∧ w.maps a key = some v) ∧
    ∀ j b, j < i → stack[j]? = some b → w.maps b key = none

/-- No frame of `stack` binds `key`. -/
def Unbound (w : World) (stack : List Nat) (key : Instance) : Prop :=
  ∀ a ∈ stack, w.maps a key = none

/-- An environment with one frame per namespace, two for the variables. -/
def sampleEnv : Environment :=
  { ThrowTag := [0], Macro := [1], Function := [2], Variable := [3, 4], DynamicVariable := [5] }

/-- A world in which the outer variable frame (address 4) binds `X` to 1 and
every other map is empty. -/
def sampleWorld : World :=
  { maps := fun a => if a = 4 then (fun k => if k = .symbol "X" then some (.integer 1) else none)
                     else Frame.empty
    next := 6
    functions := fun _ => none
    nextFunction := 0 }

end environment


namespace ilos

/-- The slot map written as a Go map literal, in the order of the literal. -/
def slots : List (String × Instance) → Slots
  | [] => .nil
  | (k, v) :: rest => .cons k v (slots rest)

/-- `instance.New(class, slots)`: the standard instance of a class with the given slots. -/
def New (c : StandardClass) (m : List (String × Instance)) : Instance :=
  .standard c (slots m)

/-- `GetSlotValue(name, class)` on a standard instance: the slot value and
whether the slot exists.  The sources call it only on a condition that has
passed an `InstanceOf` test of an escape class. -/
def GetSlotValue (i : Instance) (name : String) : Instance × Bool :=
  match i with
  | .standard _ m =>
    match m.get name with
    | some v => (v, true)
    | none => (.nil, false)
  | _ => (.nil, false)

/-- `error.go`: `NewArithmeticError`. -/
def NewArithmeticError (operation operands : Instance) : Instance :=
  New .ArithmeticError [("OPERATION", operation), ("OPERANDS", operands)]

/-- `error.go`: `NewParseError`. -/
def NewParseError (str expectedClass : Instance) : Instance :=
  New .ParseError [("STRING", str), ("EXPECTED-CLASSS", expectedClass)]

/-- `error.go`: `NewDomainError`. -/
def NewDomainError (object expectedClass : Instance) : Instance :=
  New .DomainError [("CAUSE", .symbol "DOMAIN-ERROR"), ("OBJECT", object),
    ("EXPECTED-CLASSS", expectedClass)]

/-- `error.go`: `NewUndefinedFunction`. -/
def NewUndefinedFunction (name : Instance) : Instance :=
  New .UndefinedFunction [("NAME", name), ("NAMESPACE", .symbol "FUNCTION")]

/-- `error.go`: `NewUndefinedVariable`. -/
def NewUndefinedVariable (name : Instance) : Instance :=
  New .UndefinedVariable [("NAME", name), ("NAMESPACE", .symbol "VARIABLE")]

/-- `error.go`: `NewArityError`. -/
def NewArityError : Instance := New .ProgramError []

/-- `error.go`: `NewIndexOutOfRange`. -/
def NewIndexOutOfRange : Instance := New .ProgramError []

/-- `error.go`: `NewImmutableBinding`. -/
def NewImmutableBinding : Instance := New .ProgramError []

/-- Modelled from the spec: the control-error condition (§4.7); its
constructor is not among the source files. -/
def NewControlError : Instance := New .ControlError []

/-- Modelled from the spec: the simple-error condition carrying a format
string and its arguments (§7); its constructor is not among the source files. -/
def NewSimpleError (formatString : Instance) (formatArguments : List Instance) : Instance :=
  New .SimpleError [("FORMAT-STRING", formatString), ("FORMAT-ARGUMENTS", list formatArguments)]

/-- Modelled from the spec: the escape of kind BlockTag carrying a tag and a
payload (§3); its constructor is not among the source files. -/
def NewBlockTag (tag object : Instance) : Instance :=
  New .BlockTag [("TAG", tag), ("OBJECT", object)]

/-- Modelled from the spec: the escape of kind CatchTag carrying a tag and a
payload (§3); its constructor is not among the source files. -/
def NewCatchTag (tag object : Instance) : Instance :=
  New .CatchTag [("TAG", tag), ("OBJECT", object)]

/-- Modelled from the spec: the escape of kind TagbodyTag carrying a tag
(§3); its constructor is not among the source files. -/
def NewTagbodyTag (tag : Instance) : Instance :=
  New .TagbodyTag [("TAG", tag)]

/-- `instance.UnsafeCar`: the car of a cons, with no check (`nil` stands for
the fault on anything else; the sources call it behind a test for `Cons`). -/
def UnsafeCar : Instance → Instance
  | .cons car _ => car
  | _ => .nil

/-- `instance.UnsafeCdr`: the cdr of a cons, with no check. -/
def UnsafeCdr : Instance → Instance
  | .cons _ cdr => cdr
  | _ => .nil

end ilos

namespace env

/-- Modelled from the spec: `Get` on a namespace stack (§4.2) scans the
frames front to back and returns the first hit. -/
def Get (stack : List Nat) (key : Instance) (w : World) : Instance × Bool :=
  environment.scanGet w stack key

/-- Modelled from the spec: `Define` on a tag namespace stack (§4.2) inserts
into the frontmost frame and fails, changing nothing, when the key is already
bound there.  A stack with no frame has no frontmost frame to index. -/
def DefineTag (stack : List Nat) (key value : Instance) (w : World) :
    Except Fault (Bool × World) :=
  match stack with
  | [] => .error .panic
  | a :: _ =>
    match w.maps a key with
    | some _ => .ok (false, w)
    | none => .ok (true, w.store a key value)

end env

namespace runtime


/-- The object `Nil`. -/
def Nil : Instance := .null

/-- The object `T`. -/
def T : Instance := .symbol "T"

/-- The type of `Eval(local, form)` as `non-local_exits.go` calls it.  `Eval`
is not among the source files: the functions that call it take it as a
parameter. -/
abbrev Evaluator := env.Environment → Instance → World → Except Fault (Result × World)

/-- The body loop that `Block` (with `kind = BlockTag`) and `Catch` (with
`kind = CatchTag`) share word for word:
`for _, cadr := range body { sucess, fail = Eval(local, cadr); if fail != nil { ... } }; return sucess, nil`. -/
def bodyLoop (kind : ilos.Class) (Eval : Evaluator) (loc : env.Environment) (tag : Instance) :
    List Instance → Instance → World → Except Fault (Result × World)
  | [], sucess, w => .ok ((sucess, .nil), w)
  | cadr :: rest, _, w =>
    match Eval loc cadr w with
    | .error f => .error f
    | .ok ((sucess, fail), w1) =>
      if fail ≠ .nil then
        if InstanceOf kind fail then
          let tag1 := (GetSlotValue fail "TAG").1
          if tag = tag1 then
            let obj := (GetSlotValue fail "OBJECT").1
            .ok ((obj, .nil), w1)
          else .ok ((.nil, fail), w1)
        else .ok ((.nil, fail), w1)
      else bodyLoop kind Eval loc tag rest sucess w1

/-- `Block(local, tag, body...)`. -/
def Block (Eval : Evaluator) (loc : env.Environment) (tag : Instance) (body : List Instance)
    (w : World) : Except Fault (Result × World) :=
  match Eval loc tag w with
  | .error f => .error f
  | .ok ((tag, err), w1) =>
    if err ≠ .nil then .ok ((.nil, err), w1)
    else if InstanceOf .Number tag || InstanceOf .Character tag then
      .ok ((.nil, NewDomainError tag (.classObject .Object)), w1)
    else
      match env.DefineTag loc.BlockTag tag .nil w1 with
      | .error f => .error f
      | .ok (false, w2) => .ok ((.nil, NewImmutableBinding), w2)
      | .ok (true, w2) => bodyLoop .BlockTag Eval loc tag body Nil w2

/-- `ReturnFrom(local, tag, object)`. -/
def ReturnFrom (Eval : Evaluator) (loc : env.Environment) (tag object : Instance) (w : World) :
    Except Fault (Result × World) :=
  match Eval loc tag w with
  | .error f => .error f
  | .ok ((tag, err), w1) =>
    if err ≠ .nil then .ok ((.nil, err), w1)
    else if InstanceOf .Number tag || InstanceOf .Character tag then
      .ok ((.nil, NewDomainError tag (.classObject .Object)), w1)
    else
      match Eval loc object w1 with
      | .error f => .error f
      | .ok ((object, err), w2) =>
        if err ≠ .nil then .ok ((.nil, err), w2)
        else if (env.Get loc.BlockTag tag w2).2 = false then
          .ok ((.nil, NewSimpleError (.string "%v is not defined as the tag") [tag]), w2)
        else .ok ((.nil, NewBlockTag tag object), w2)

/-- `Catch(local, tag, body...)`. -/
def Catch (Eval : Evaluator) (loc : env.Environment) (tag : Instance) (body : List Instance)
    (w : World) : Except Fault (Result × World) :=
  match Eval loc tag w with
  | .error f => .error f
  | .ok ((tag, err), w1) =>
    if err ≠ .nil then .ok ((.nil, err), w1)
    else if InstanceOf .Number tag || InstanceOf .Character tag then
      .ok ((.nil, NewDomainError tag (.classObject .Object)), w1)
    else
      match env.DefineTag loc.CatchTag tag .nil w1 with
      | .error f => .error f
      | .ok (false, w2) => .ok ((.nil, NewImmutableBinding), w2)
      | .ok (true, w2) => bodyLoop .CatchTag Eval loc tag body Nil w2

/-- `Throw(local, tag, object)`. -/
def Throw (Eval : Evaluator) (loc : env.Environment) (tag object : Instance) (w : World) :
    Except Fault (Result × World) :=
  match Eval loc tag w with
  | .error f => .error f
  | .ok ((tag, err), w1) =>
    if err ≠ .nil then .ok ((.nil, err), w1)
    else if InstanceOf .Number tag || InstanceOf .Character tag then
      .ok ((.nil, NewDomainError tag (.classObject .Object)), w1)
    else
      match Eval loc object w1 with
      | .error f => .error f
      | .ok ((object, err), w2) =>
        if err ≠ .nil then .ok ((.nil, err), w2)
        else if (env.Get loc.CatchTag tag w2).2 = false then
          .ok ((.nil, NewSimpleError (.string "%v is not defined as the tag") [tag]), w2)
        else .ok ((.nil, NewCatchTag tag object), w2)

/-- The first loop of `Tagbody`: each item that is not a `Cons` is defined as a
tag bound to the general vector of the items after it, `body[idx+1:]`; the
result is false as soon as a `Define` fails. -/
def defineTags (loc : env.Environment) : List Instance → World → Except Fault (Bool × World)
  | [], w => .ok (true, w)
  | cadr :: rest, w =>
    let cddr := GeneralVector rest
    if !InstanceOf .Cons cadr then
      match env.DefineTag loc.TagbodyTag cadr cddr w with
      | .error f => .error f
      | .ok (false, w1) => .ok (false, w1)
      | .ok (true, w1) => defineTags loc rest w1
    else defineTags loc rest w

/-- The loop `for _, form := range forms { if InstanceOf(Cons, form) { _, fail = Eval(local, form); if fail != nil { ... } } }`
that `Tagbody` runs over its body and, after a transfer, over the forms of a
tag: the `Cons` items are evaluated in order up to the first condition, which
is returned (`nil` when every form completed). -/
def evalForms (Eval : Evaluator) (loc : env.Environment) :
    List Instance → World → Except Fault (Instance × World)
  | [], w => .ok (.nil, w)
  | form :: rest, w =>
    if InstanceOf .Cons form then
      match Eval loc form w with
      | .error f => .error f
      | .ok ((_, fail), w1) =>
        if fail ≠ .nil then .ok (fail, w1) else evalForms Eval loc rest w1
    else evalForms Eval loc rest w

/-- The statements of `Tagbody` from the label `TAG` on, entered with a
condition `fail`; each `goto TAG` spends one unit of fuel.  When the forms of
the tag complete, the `break` leaves the loop over the body and `Tagbody`
returns `Nil, nil`. -/
def transfer (Eval : Evaluator) (loc : env.Environment) (body : List Instance) :
    Nat → Instance → World → Except Fault (Result × World)
  | 0, _, _ => .error .fuel
  | fuel + 1, fail, w =>
    if InstanceOf .TagbodyTag fail then
      let tag := (GetSlotValue fail "TAG").1
      let found := body.any (fun tag1 => decide (tag = tag1))
      if found then
        let forms := (env.Get loc.TagbodyTag tag w).1
        match forms with
        | .generalVector fs =>
          match evalForms Eval loc fs.toList w with
          | .error f => .error f
          | .ok (fail1, w1) =>
            if fail1 ≠ .nil then transfer Eval loc body fuel fail1 w1
            else .ok ((Nil, .nil), w1)
        | _ => .error .panic
      else .ok ((.nil, fail), w)
    else .ok ((.nil, fail), w)

/-- `Tagbody(local, body...)`; `fuel` bounds the number of transfers of control. -/
def Tagbody (Eval : Evaluator) (fuel : Nat) (loc : env.Environment) (body : List Instance)
    (w : World) : Except Fault (Result × World) :=
  match defineTags loc body w with
  | .error f => .error f
  | .ok (false, w1) => .ok ((.nil, NewImmutableBinding), w1)
  | .ok (true, w1) =>
    match evalForms Eval loc body w1 with
    | .error f => .error f
    | .ok (fail, w2) =>
      if fail ≠ .nil then transfer Eval loc body fuel fail w2
      else .ok ((Nil, .nil), w2)

/-- `Go(local, tag)`. -/
def Go (loc : env.Environment) (tag : Instance) (w : World) : Except Fault (Result × World) :=
  if (env.Get loc.TagbodyTag tag w).2 = false then
    .ok ((.nil, NewSimpleError (.string "%v is not defined as the tag") [tag]), w)
  else .ok ((.nil, NewTagbodyTag tag), w)

/-- The loop `ret := Nil; for _, form := range forms { ret, err = Eval(..., form); if err != nil { return nil, err } }; return ret, nil`,
written out in `Labels` and `Flet`, with `ret` the value so far. -/
def prognLoop (Eval : Evaluator) (loc : env.Environment) :
    List Instance → Instance → World → Except Fault (Result × World)
  | [], ret, w => .ok ((ret, .nil), w)
  | form :: rest, _, w =>
    match Eval loc form w with
    | .error f => .error f
    | .ok ((ret, err), w1) =>
      if err ≠ .nil then .ok ((.nil, err), w1) else prognLoop Eval loc rest ret w1

/-- Modelled from the spec: `Progn(local, forms...)` evaluates the forms in
order and returns the value of the last, `Nil` for none (§4.4, §4.6); the
function is not among the source files, the loop is the one of `Labels`. -/
def Progn (Eval : Evaluator) (loc : env.Environment) (forms : List Instance) (w : World) :
    Except Fault (Result × World) :=
  prognLoop Eval loc forms Nil w

/-- `UnwindProtect(local, form, cleanupForms...)`. -/
def UnwindProtect (Eval : Evaluator) (loc : env.Environment) (form : Instance)
    (cleanupForms : List Instance) (w : World) : Except Fault (Result × World) :=
  match Eval loc form w with
  | .error f => .error f
  | .ok ((ret1, err1), w1) =>
    match Progn Eval loc cleanupForms w1 with
    | .error f => .error f
    | .ok ((ret2, err2), w2) =>
      if InstanceOf .Escape err2 then .ok ((.nil, NewControlError), w2)
      else if err2 ≠ .nil then .ok ((ret2, err2), w2)
      else .ok ((ret1, err1), w2)

/-- The type of `Eval(local, global, form)` as `function.go` calls it. -/
abbrev Evaluator2 :=
  env.Environment → env.Environment → Instance → World → Except Fault (Result × World)

/-- The method `Apply(local, global, list)` of the interface
`instance.Applicable`, by the function object it is called on. -/
abbrev Applicable :=
  Instance → env.Environment → env.Environment → Instance → World → Except Fault (Result × World)

/-- Modelled from the spec: `proper-list?(v)` is true iff a finite chain of
`Cons` ends in `Null` (§4.1); `isProperList` is not among the source files. -/
def isProperList : Instance → Bool
  | .null => true
  | .cons _ cdr => isProperList cdr
  | _ => false

/-- The loop of `checkLambdaList`, `for instance.Of(class.Cons, cdr) { ... }`:
the values of `cdr` and `ok` when the loop is left. -/
def scanLambdaList : Instance → Instance × Bool
  | .cons cadr cddr =>
    if !InstanceOf .Symbol cadr then (.cons cadr cddr, false)
    else if cadr = .symbol ":REST" ∨ cadr = .symbol "&REST" then
      if InstanceOf .Cons cddr && InstanceOf .Symbol (UnsafeCar cddr)
          && InstanceOf .Null (UnsafeCdr cddr) then
        (.cons cadr cddr, true)
      else (.cons cadr cddr, false)
    else scanLambdaList cddr
  | cdr => (cdr, false)

/-- `checkLambdaList(lambdaList)`: `nil`, or a program error. -/
def checkLambdaList (lambdaList : Instance) : Instance :=
  let (cdr, ok) := scanLambdaList lambdaList
  let ok := if !ok && cdr = Nil then true else ok
  if !ok then New .ProgramError [] else .nil

/-- Modelled from the spec: `newNamedFunction` makes a function object that
wraps the lambda list, the body forms, the captured environments and the
name (§3); it is not among the source files.  The object is a fresh
reference, recorded in the world. -/
def newNamedFunction (loc global : env.Environment) (functionName lambdaList : Instance)
    (forms : List Instance) (w : World) : Instance × World :=
  (.function w.nextFunction,
    { w with
      functions := fun r =>
        if r = w.nextFunction then
          some { name := functionName, lambdaList := lambdaList, body := forms,
                 loc := loc, global := global }
        else w.functions r
      nextFunction := w.nextFunction + 1 })

/-- `Lambda(local, global, lambdaList, form...)`. -/
def Lambda (loc global : env.Environment) (lambdaList : Instance) (form : List Instance)
    (w : World) : Result × World :=
  let err := checkLambdaList lambdaList
  if err ≠ .nil then ((.nil, err), w)
  else
    let (f, w1) := newNamedFunction loc global (.symbol "ANONYMOUS-FUNCTION") lambdaList form w
    ((f, .nil), w1)

/-- `Apply(local, global, function, obj...)`. -/
def Apply (applicable : Applicable) (loc global : env.Environment) (function : Instance)
    (obj : List Instance) (w : World) : Except Fault (Result × World) :=
  match obj.getLast? with
  | none => .error .panic
  | some last =>
    let call := fun (list : Instance) (obj : List Instance) =>
      let list := listFrom obj list
      if !InstanceOf .Function function then
        .ok ((.nil, New .DomainError [("OBJECT", function),
          ("EXPECTED-CLASS", .classObject .Function)]), w)
      else applicable function loc global list w
    if InstanceOf .List last then
      if !isProperList last then .ok ((.nil, New .ProgramError []), w)
      else call last obj.dropLast
    else call Nil obj

/-- `Funcall(local, global, function, obj...)`. -/
def Funcall (applicable : Applicable) (loc global : env.Environment) (function : Instance)
    (obj : List Instance) (w : World) : Except Fault (Result × World) :=
  Apply applicable loc global function obj w

/-- A fresh empty map: its address, and the world that holds it. -/
def alloc (w : World) : Nat × World :=
  (w.next,
    { w with
      maps := fun b => if b = w.next then Frame.empty else w.maps b
      next := w.next + 1 })

/-- Modelled from the spec: the binding of a lambda list to an argument list
in the frame at address `frame` (§4.4): each fixed parameter is bound to the
next argument, a rest parameter to the remaining arguments; `none` is the
arity error (a fixed parameter without an argument, or arguments left over
when there is no rest parameter).  The binder is not among the source files. -/
def bindParameters (frame : Nat) : Instance → Instance → World → Option World
  | .cons p rest, arguments, w =>
    if p = .symbol ":REST" ∨ p = .symbol "&REST" then
      some (w.store frame (UnsafeCar rest) arguments)
    else
      match arguments with
      | .cons a more => bindParameters frame rest more (w.store frame p a)
      | _ => none
  | _, arguments, w => if arguments = Nil then some w else none

/-- Modelled from the spec: the `Apply` method of a function object made by
`newNamedFunction` (§4.4): a fresh Variable frame is pushed onto the captured
environment, the parameters are bound in it, and the body forms are evaluated
in order in the new environment, the value of the last being the result
(`Nil` for an empty body).  The method is not among the source files. -/
def applyClosure (Eval : Evaluator2) (c : Closure) (arguments : Instance) (w : World) :
    Except Fault (Result × World) :=
  let (a, w1) := alloc w
  let scope := { c.loc with Variable := a :: c.loc.Variable }
  match bindParameters a c.lambdaList arguments w1 with
  | none => .ok ((.nil, NewArityError), w1)
  | some w2 => prognLoop (fun l f => Eval l c.global f) scope c.body Nil w2

/-- Modelled from the spec: the `Applicable` interface over the function
objects of the world: a reference is applied as the closure it denotes. -/
def applyMethod (Eval : Evaluator2) : Applicable := fun f _ _ arguments w =>
  match f with
  | .function ref =>
    match w.functions ref with
    | some c => applyClosure Eval c arguments w
    | none => .error .panic
  | _ => .error .panic

/-- The elements of a Lisp list (up to its last `Cons`). -/
def elements : Instance → List Instance
  | .cons a b => a :: elements b
  | _ => []

end runtime

namespace env

/-- Modelled from the spec: `Define` on the stack of a namespace that is not a
tag namespace (§4.2) inserts into the frontmost frame and reports success.  A
stack with no frame has no frontmost frame to index. -/
def Define (stack : List Nat) (key value : Instance) (w : World) :
    Except Fault (Bool × World) :=
  match stack with
  | [] => .error .panic
  | a :: _ => .ok (true, w.store a key value)

/-- Modelled from the spec: `environment.New()` makes an environment with one
fresh empty frame in each namespace (§4.2); for the environment of eight
stacks it is not among the source files. -/
def New (w : World) : Environment × World :=
  let (a1, w1) := runtime.alloc w
  let (a2, w2) := runtime.alloc w1
  let (a3, w3) := runtime.alloc w2
  let (a4, w4) := runtime.alloc w3
  let (a5, w5) := runtime.alloc w4
  let (a6, w6) := runtime.alloc w5
  let (a7, w7) := runtime.alloc w6
  let (a8, w8) := runtime.alloc w7
  ({ BlockTag := [a1], TagbodyTag := [a2], CatchTag := [a3], Variable := [a4],
     Function := [a5], Special := [a6], Macro := [a7], DynamicVariable := [a8] }, w8)

end env

namespace runtime

/-- `Function(local, global, fun)`. -/
def Function (loc global : env.Environment) (f : Instance) (w : World) : Result :=
  if !InstanceOf .Symbol f then
    (.nil, New .DomainError [("OBJECT", f), ("EXPECTED-CLASS", .classObject .Symbol)])
  else
    let (v, ok) := env.Get loc.Function f w
    if ok then (v, .nil)
    else
      let (v, ok) := env.Get global.Function f w
      if ok then (v, .nil)
      else
        (.nil, New .UndefinedFunction [("NAME", f), ("NAMESPACE", .symbol "FUNCTION")])

/-- The loop over the binders that `Labels` and `Flet` share word for word,
`for instance.Of(class.Cons, cdr) { ... }`, but for the environment `target`
in which the functions are defined (`local` in `Labels`, the new `env` in
`Flet`); the function objects are made over `local` in both.  The result is
the error of `checkLambdaList`, if any.  The unchecked `UnsafeCar`/`UnsafeCdr`
on a binder that is not of the shape `(name lambda-list form...)` is a
run-time fault. -/
def bindFunctions (target loc global : env.Environment) :
    Instance → World → Except Fault (Instance × World)
  | .cons cadr cdr, w =>
    match cadr with
    | .cons functionName (.cons lambdaList cddadr) =>
      let err := checkLambdaList lambdaList
      if err ≠ .nil then .ok (err, w)
      else
        let form := elements cddadr
        let (fn, w1) := newNamedFunction loc global functionName lambdaList form w
        match env.Define target.Function functionName fn w1 with
        | .error e => .error e
        | .ok (_, w2) => bindFunctions target loc global cdr w2
    | _ => .error .panic
  | _, w => .ok (.nil, w)

/-- `Labels(local, global, functions, bodyForm...)`. -/
def Labels (Eval : Evaluator2) (loc global : env.Environment) (functions : Instance)
    (bodyForm : List Instance) (w : World) : Except Fault (Result × World) :=
  match bindFunctions loc loc global functions w with
  | .error e => .error e
  | .ok (err, w1) =>
    if err ≠ .nil then .ok ((.nil, err), w1)
    else prognLoop (fun l f => Eval l global f) loc bodyForm Nil w1

/-- The environment `env` that `Flet` builds from `environment.New()` by
`env.X = append(local.X, env.X...)` for each of the eight stacks: the frames
of `local` with the fresh frame in front. -/
def fletScope (fresh loc : env.Environment) : env.Environment :=
  { BlockTag := fresh.BlockTag ++ loc.BlockTag
    TagbodyTag := fresh.TagbodyTag ++ loc.TagbodyTag
    CatchTag := fresh.CatchTag ++ loc.CatchTag
    Variable := fresh.Variable ++ loc.Variable
    Function := fresh.Function ++ loc.Function
    Special := fresh.Special ++ loc.Special
    Macro := fresh.Macro ++ loc.Macro
    DynamicVariable := fresh.DynamicVariable ++ loc.DynamicVariable }

/-- `Flet(local, global, functions, bodyForm...)`. -/
def Flet (Eval : Evaluator2) (loc global : env.Environment) (functions : Instance)
    (bodyForm : List Instance) (w : World) : Except Fault (Result × World) :=
  let (fresh, w0) := env.New w
  let scope := fletScope fresh loc
  match bindFunctions scope loc global functions w0 with
  | .error e => .error e
  | .ok (err, w1) =>
    if err ≠ .nil then .ok ((.nil, err), w1)
    else prognLoop (fun l f => Eval l global f) scope bodyForm Nil w1

/-- Modelled from the spec: the operands of a call are evaluated left to
right; the first condition stops the evaluation and is returned (§4.3, 3c). -/
def evalArguments (Eval : Evaluator) (loc : env.Environment) :
    List Instance → World → Except Fault ((List Instance × Instance) × World)
  | [], w => .ok (([], .nil), w)
  | form :: rest, w =>
    match Eval loc form w with
    | .error f => .error f
    | .ok ((v, err), w1) =>
      if err ≠ .nil then .ok (([], err), w1)
      else
        match evalArguments Eval loc rest w1 with
        | .error f => .error f
        | .ok ((vs, err1), w2) => .ok ((v :: vs, err1), w2)

/-- Modelled from the spec: a name is looked up in a namespace lexically,
then globally (§4.3). -/
def resolve (stack : env.Environment → List Nat) (loc global : env.Environment)
    (name : Instance) (w : World) : Instance × Bool :=
  let (v, ok) := env.Get (stack loc) name w
  if ok then (v, true) else env.Get (stack global) name w

/-- Modelled from the spec: the dispatcher `Eval` of §4.3, which is not among
the source files.  A symbol is looked up as a variable; an atom evaluates to
itself; a form whose head names a macro is expanded and the expansion
evaluated; a form whose head names a special form goes to its handler (the
handlers of the source files: `Lambda`, `Function`, `Labels`, `Flet`, `Block`,
`ReturnFrom`, `Catch`, `Throw`, `Tagbody`, `Go`, `UnwindProtect`, and `Quote`,
`Progn` from the spec); any other form is a call: the head is resolved to a function, the
operands are evaluated and `Apply` is invoked.  `fuel` bounds the depth of
nested evaluation. -/
def Eval : Nat → Evaluator2
  | 0, _, _, _, _ => .error .fuel
  | fuel + 1, loc, global, form, w =>
    let ev : Evaluator := fun l f w => Eval fuel l global f w
    let arity : Except Fault (Result × World) := .ok ((.nil, NewArityError), w)
    match form with
    | .symbol _ =>
      let (v, ok) := resolve (·.Variable) loc global form w
      if ok then .ok ((v, .nil), w) else .ok ((.nil, NewUndefinedVariable form), w)
    | .cons head tail =>
      let operands := elements tail
      let (m, isMacro) :=
        if InstanceOf .Symbol head then resolve (·.Macro) loc global head w else (.nil, false)
      if isMacro then
        match applyMethod (Eval fuel) m loc global tail w with
        | .error f => .error f
        | .ok ((expansion, err), w1) =>
          if err ≠ .nil then .ok ((.nil, err), w1) else Eval fuel loc global expansion w1
      else if head = .symbol "QUOTE" then
        match operands with
        | [x] => .ok ((x, .nil), w)
        | _ => arity
      else if head = .symbol "LAMBDA" then
        match operands with
        | lambdaList :: body => .ok (Lambda loc global lambdaList body w)
        | _ => arity
      else if head = .symbol "PROGN" then Progn ev loc operands w
      else if head = .symbol "BLOCK" then
        match operands with
        | tag :: body => Block ev loc tag body w
        | _ => arity
      else if head = .symbol "RETURN-FROM" then
        match operands with
        | [tag, object] => ReturnFrom ev loc tag object w
        | _ => arity
      else if head = .symbol "CATCH" then
        match operands with
        | tag :: body => Catch ev loc tag body w
        | _ => arity
      else if head = .symbol "THROW" then
        match operands with
        | [tag, object] => Throw ev loc tag object w
        | _ => arity
      else if head = .symbol "TAGBODY" then Tagbody ev fuel loc operands w
      else if head = .symbol "GO" then
        match operands with
        | [tag] => Go loc tag w
        | _ => arity
      else if head = .symbol "UNWIND-PROTECT" then
        match operands with
        | form1 :: cleanupForms => UnwindProtect ev loc form1 cleanupForms w
        | _ => arity
      else if head = .symbol "FUNCTION" then
        match operands with
        | [name] => .ok (Function loc global name w, w)
        | _ => arity
      else if head = .symbol "LABELS" then
        match operands with
        | functions :: bodyForm => Labels (Eval fuel) loc global functions bodyForm w
        | _ => arity
      else if head = .symbol "FLET" then
        match operands with
        | functions :: bodyForm => Flet (Eval fuel) loc global functions bodyForm w
        | _ => arity
      else
        let callee : Except Fault (Result × World) :=
          if InstanceOf .Symbol head then
            let (f, ok) := resolve (·.Function) loc global head w
            if ok then .ok ((f, .nil), w) else .ok ((.nil, NewUndefinedFunction head), w)
          else Eval fuel loc global head w
        match callee with
        | .error f => .error f
        | .ok ((f, err), w1) =>
          if err ≠ .nil then .ok ((.nil, err), w1)
          else
            match evalArguments ev loc operands w1 with
            | .error e => .error e
            | .ok ((arguments, err1), w2) =>
              if err1 ≠ .nil then .ok ((.nil, err1), w2)
              else Apply (applyMethod (Eval fuel)) loc global f [list arguments] w2
    | .nil => .ok ((.nil, NewDomainError form (.classObject .Object)), w)
    | .classObject _ => .ok ((.nil, NewDomainError form (.classObject .Object)), w)
    | _ => .ok ((form, .nil), w)

/-- Evaluating the forms in order from the world `w`, each returning with no
condition, gives the values `vs` and leaves the world `w1`. -/
inductive EvalsNormally (Eval : Evaluator) (loc : env.Environment) :
    List Instance → World → List Instance → World → Prop
  | nil (w : World) : EvalsNormally Eval loc [] w [] w
  | cons {form v : Instance} {rest vs : List Instance} {w w1 w2 : World} :
      Eval loc form w = .ok ((v, .nil), w1) → EvalsNormally Eval loc rest w1 vs w2 →
      EvalsNormally Eval loc (form :: rest) w (v :: vs) w2

/-- Running the items of a tagbody in order from the world `w` (an item that is
not a `Cons` is a tag and is skipped, a `Cons` is a form and is evaluated),
every form returning with no condition, leaves the world `w1`. -/
inductive RunsForms (Eval : Evaluator) (loc : env.Environment) :
    List Instance → World → World → Prop
  | nil (w : World) : RunsForms Eval loc [] w w
  | tag {x : Instance} {rest : List Instance} {w w1 : World} :
      InstanceOf .Cons x = false → RunsForms Eval loc rest w w1 →
      RunsForms Eval loc (x :: rest) w w1
  | form {x v : Instance} {rest : List Instance} {w w1 w2 : World} :
      InstanceOf .Cons x = true → Eval loc x w = .ok ((v, .nil), w1) →
      RunsForms Eval loc rest w1 w2 → RunsForms Eval loc (x :: rest) w w2

/-- From a world `w` in which `fail`, a TagbodyTag escape naming a tag `L` of
`body`, has just been yielded by a form of the tagbody, `n` transfers of
control end in normal completion in the world `w2`: the forms that follow `L`
are run in order; either they all complete (`last`), or one of them yields a
further escape naming a tag of `body`, from which `n` more transfers complete
(`next`).  `w1` is the world in which the tags of `body` were defined; the
binding of `L` in the tagbody namespace is required to be still the one of
`w1`. -/
inductive Transfers (Eval : Evaluator) (loc : env.Environment) (body : List Instance)
    (w1 : World) : Nat → Instance → World → World → Prop
  | last {fail L : Instance} {bl after : List Instance} {w w2 : World} :
      InstanceOf .TagbodyTag fail = true → (GetSlotValue fail "TAG").1 = L →
      body = bl ++ L :: after → InstanceOf .Cons L = false →
      env.Get loc.TagbodyTag L w = env.Get loc.TagbodyTag L w1 →
      RunsForms Eval loc after w w2 →
      Transfers Eval loc body w1 1 fail w w2
  | next {n : Nat} {fail L f v fail1 : Instance} {bl after pre post : List Instance}
      {w wa wb w2 : World} :
      InstanceOf .TagbodyTag fail = true → (GetSlotValue fail "TAG").1 = L →
      body = bl ++ L :: after → InstanceOf .Cons L = false →
      env.Get loc.TagbodyTag L w = env.Get loc.TagbodyTag L w1 →
      after = pre ++ f :: post → RunsForms Eval loc pre w wa →
      InstanceOf .Cons f = true → Eval loc f wa = .ok ((v, fail1), wb) →
      Transfers Eval loc body w1 n fail1 wb w2 →
      Transfers Eval loc body w1 (n + 1) fail w w2

/-- A fixed parameter: a symbol that is neither `:REST` nor `&REST`. -/
def IsParameter (s : Instance) : Prop :=
  InstanceOf .Symbol s = true ∧ s ≠ .symbol ":REST" ∧ s ≠ .symbol "&REST"

/-- A rest marker: the symbol `:REST` or the symbol `&REST`. -/
def IsRestMarker (m : Instance) : Prop :=
  m = .symbol ":REST" ∨ m = .symbol "&REST"

/-- A well-formed lambda list: a proper list `(s1 ... sk)` of fixed
parameters, or a proper list `(s1 ... sk M r)` of fixed parameters followed
by a rest marker `M` and one symbol `r`. -/
def WellFormedLambdaList (lambdaList : Instance) : Prop :=
  (∃ ss, lambdaList = list ss ∧ ∀ s ∈ ss, IsParameter s) ∨
  (∃ ss m r, lambdaList = list (ss ++ [m, r]) ∧ (∀ s ∈ ss, IsParameter s) ∧
    IsRestMarker m ∧ InstanceOf .Symbol r = true)

/-- The world after the fixed parameters `params` have been bound, in order,
to the arguments `as` in the frame at address `frame` (as far as both go). -/
def bindFixed (frame : Nat) : List Instance → List Instance → World → World
  | p :: ps, a :: as, w => bindFixed frame ps as (w.store frame p a)
  | _, _, w => w

/-- The environment in which the body of the closure `c` is evaluated by a
call made in the world `w`: the captured environment with the fresh frame in
front of the variable frames. -/
def callScope (c : Closure) (w : World) : env.Environment :=
  { c.loc with Variable := (alloc w).1 :: c.loc.Variable }

/-- In the world `w3` the variable lookup in `scope` of the `i`-th fixed
parameter gives the `i`-th argument, for every parameter that is not written
again later in the lambda list (`later` is the rest parameter, if any). -/
def FixedBound (scope : env.Environment) (params later as : List Instance) (w3 : World) : Prop :=
  ∀ i (hp : i < params.length) (ha : i < as.length),
    (∀ j (hj : j < params.length), i < j → params[j] ≠ params[i]) → params[i] ∉ later →
    env.Get scope.Variable params[i] w3 = (as[i], true)

/-- A condition that a tagbody over `body` does not recover: it is not a
TagbodyTag escape, or it is one whose TAG is none of the tags of `body` (the
items of `body` that are not `Cons`).  The TAG of an escape is itself no
`Cons`: `Go` makes an escape only for a tag bound in the tagbody namespace,
where `Tagbody` defines only items that are not `Cons`. -/
def Foreign (body : List Instance) (fail : Instance) : Prop :=
  fail ≠ .nil ∧
  (InstanceOf .TagbodyTag fail = false ∨
    (InstanceOf .Cons (GetSlotValue fail "TAG").1 = false ∧
      ∀ x ∈ body, InstanceOf .Cons x = false → x ≠ (GetSlotValue fail "TAG").1))

/-- From a world `w` in which a form of the tagbody has just yielded the
condition `fail`, `n` transfers of control end with a form yielding the
foreign condition `c` in the world `w2`: either `fail` is itself foreign
(`out`), or it names a tag `L` of `body`, the forms that follow `L` are run in
order and one of them yields a condition from which `n` more transfers end
the same way (`next`). -/
inductive TransfersOut (Eval : Evaluator) (loc : env.Environment) (body : List Instance)
    (w1 : World) : Nat → Instance → World → Instance → World → Prop
  | out {fail : Instance} {w : World} :
      Foreign body fail → TransfersOut Eval loc body w1 0 fail w fail w
  | next {n : Nat} {fail L f v fail1 c : Instance} {bl after pre post : List Instance}
      {w wa wb w2 : World} :
      InstanceOf .TagbodyTag fail = true → (GetSlotValue fail "TAG").1 = L →
      body = bl ++ L :: after → InstanceOf .Cons L = false →
      env.Get loc.TagbodyTag L w = env.Get loc.TagbodyTag L w1 →
      after = pre ++ f :: post → RunsForms Eval loc pre w wa →
      InstanceOf .Cons f = true → Eval loc f wa = .ok ((v, fail1), wb) → fail1 ≠ .nil →
      TransfersOut Eval loc body w1 n fail1 wb c w2 →
      TransfersOut Eval loc body w1 (n + 1) fail w c w2

/-- The result of a call, without the world it leaves (`none` for a fault). -/
def outcome (r : Except Fault (Result × World)) : Option Result :=
  match r with
  | .error _ => none
  | .ok (r, _) => some r

/-- The symbol named `s`. -/
def sym (s : String) : Instance := .symbol s

/-- The form `(quote x)`. -/
def quoted (x : Instance) : Instance := list [sym "QUOTE", x]

/-- The form `(lambda lambdaList body...)`. -/
def lambdaForm (lambdaList : List Instance) (body : List Instance) : Instance :=
  list ([sym "LAMBDA", list lambdaList] ++ body)

/-- A local environment with one frame per namespace. -/
def sampleLocal : env.Environment :=
  { BlockTag := [0], TagbodyTag := [1], CatchTag := [2], Variable := [3], Function := [4],
    Special := [5], Macro := [6], DynamicVariable := [7] }

/-- A global environment with one frame per namespace. -/
def sampleGlobal : env.Environment :=
  { BlockTag := [8], TagbodyTag := [9], CatchTag := [10], Variable := [11], Function := [12],
    Special := [13], Macro := [14], DynamicVariable := [15] }

/-- The world in which every map is empty and no function object exists. -/
def emptyWorld : World :=
  { maps := fun _ => Frame.empty, next := 16, functions := fun _ => none, nextFunction := 0 }

/-- The dispatcher as `non-local_exits.go` calls it, over the sample global environment. -/
def sampleEval : Evaluator := fun l f w => Eval 8 l sampleGlobal f w

/-- The form `(catch 'foo (tagbody (go bar) (throw 'foo 1) bar))` of `TestTagbody`. -/
def tagbodyTest1 : Instance :=
  list [sym "CATCH", quoted (sym "FOO"),
    list [sym "TAGBODY", list [sym "GO", sym "BAR"],
      list [sym "THROW", quoted (sym "FOO"), .integer 1], sym "BAR"]]

/-- The form `(catch 'foo (tagbody (tagbody (go bar) (throw 'foo 1) bar (go foobar)) foobar))`
of `TestTagbody`. -/
def tagbodyTest2 : Instance :=
  list [sym "CATCH", quoted (sym "FOO"),
    list [sym "TAGBODY",
      list [sym "TAGBODY", list [sym "GO", sym "BAR"],
        list [sym "THROW", quoted (sym "FOO"), .integer 1], sym "BAR",
        list [sym "GO", sym "FOOBAR"]],
      sym "FOOBAR"]]

/-- The world after `(lambda (:rest xs) xs)` has been evaluated in the empty
world: the function object is the reference 0. -/
def restWorld : World :=
  (Lambda sampleLocal sampleGlobal (list [sym ":REST", sym "XS"]) [sym "XS"] emptyWorld).2

/-- The closure of `(lambda (x) x)` over the sample environments. -/
def sampleClosure : Closure :=
  { name := .symbol "ANONYMOUS-FUNCTION", lambdaList := list [sym "X"], body := [sym "X"],
    loc := sampleLocal, global := sampleGlobal }

/-- The inner tagbody of the second form of `TestTagbody`:
the items of `(tagbody (go bar) (throw 'foo 1) bar (go foobar))`. -/
def innerTagbody : List Instance :=
  [list [sym "GO", sym "BAR"], list [sym "THROW", quoted (sym "FOO"), .integer 1], sym "BAR",
    list [sym "GO", sym "FOOBAR"]]

/-- The world in which the outer tagbody of the second form of `TestTagbody`
has defined its tag `FOOBAR`. -/
def foobarWorld : World := emptyWorld.store 1 (sym "FOOBAR") (GeneralVector [])

/-- The world a call leaves (`w` itself when the call faults). -/
def worldAfter (r : Except Fault (Result × World)) (w : World) : World :=
  match r with
  | .error _ => w
  | .ok (_, w1) => w1

/-- The form `(block 'b body...)`. -/
def blockForm (body : List Instance) : Instance :=
  list ([sym "BLOCK", quoted (sym "B")] ++ body)

/-- The form `(catch 'b body...)`. -/
def catchForm (body : List Instance) : Instance :=
  list ([sym "CATCH", quoted (sym "B")] ++ body)

/-- The nested blocks `(block 'b 1 (block 'b 2 (return-from 'b 7) 3) 4)`. -/
def nestedBlocks : Instance :=
  blockForm [.integer 1,
    blockForm [.integer 2, list [sym "RETURN-FROM", quoted (sym "B"), .integer 7], .integer 3],
    .integer 4]

/-- The nested catches `(catch 'b 1 (catch 'b 2 (throw 'b 7) 3) 4)`. -/
def nestedCatches : Instance :=
  catchForm [.integer 1,
    catchForm [.integer 2, list [sym "THROW", quoted (sym "B"), .integer 7], .integer 3],
    .integer 4]

/-- A binder `(name lambda-list form...)` of `labels` and `flet`. -/
def binder (name : String) (lambdaList body : List Instance) : Instance :=
  list ([sym name, list lambdaList] ++ body)

/-- The form `(labels ((f (x) x)) (f 5))`. -/
def labelsForm : Instance :=
  list [sym "LABELS", list [binder "F" [sym "X"] [sym "X"]], list [sym "F", .integer 5]]

/-- The form `(flet ((f (x) x)) (f 5))`. -/
def fletForm : Instance :=
  list [sym "FLET", list [binder "F" [sym "X"] [sym "X"]], list [sym "F", .integer 5]]

/-- The form `(flet ((f () 1) (g () (f))) (g))`: the body of `g` refers to `f`. -/
def fletSiblingForm : Instance :=
  list [sym "FLET", list [binder "F" [] [.integer 1], binder "G" [] [list [sym "F"]]],
    list [sym "G"]]

/-- The form `(labels ((f (x x) x)) (f 5 6))`, whose lambda list repeats `x`. -/
def labelsRepeated : Instance :=
  list [sym "LABELS", list [binder "F" [sym "X", sym "X"] [sym "X"]],
    list [sym "F", .integer 5, .integer 6]]

/-- The form `(flet ((f (x :rest x) x)) (f 5 6))`, whose rest parameter repeats `x`. -/
def fletRepeated : Instance :=
  list [sym "FLET", list [binder "F" [sym "X", sym ":REST", sym "X"] [sym "X"]],
    list [sym "F", .integer 5, .integer 6]]

/-- The form `(catch 'foo (unwind-protect 1 (throw 'foo 2)))`: the protected
form exits normally and the cleanup form throws to the enclosing catch. -/
def cleanupThrowForm : Instance :=
  list [sym "CATCH", quoted (sym "FOO"),
    list [sym "UNWIND-PROTECT", .integer 1, list [sym "THROW", quoted (sym "FOO"), .integer 2]]]

end runtime

namespace environment

open ilos

/-- `New`: a new environment whose five stacks hold one new, empty map each;
the maps are made in the order ThrowTag, Macro, Function, Variable,
DynamicVariable. -/
def New (w : World) : Environment × World :=
  let (a0, w1) := runtime.alloc w
  let (a1, w2) := runtime.alloc w1
  let (a2, w3) := runtime.alloc w2
  let (a3, w4) := runtime.alloc w3
  let (a4, w5) := runtime.alloc w4
  ({ ThrowTag := [a0], Macro := [a1], Function := [a2], Variable := [a3],
     DynamicVariable := [a4] }, w5)

/-- `AppendDynamicVariable(e, f)`: the new value of `*e`, with the frames of
f's DynamicVariable stack appended to its own. -/
def AppendDynamicVariable (e f : Environment) : Environment :=
  { e with DynamicVariable := e.DynamicVariable ++ f.DynamicVariable }

/-- `AppendThrowTag(e, f)`: the new value of `*e`, with the frames of f's
ThrowTag stack appended to its own. -/
def AppendThrowTag (e f : Environment) : Environment :=
  { e with ThrowTag := e.ThrowTag ++ f.ThrowTag }

/-- `AppendAll(e, f)`: the new value of `*e`, with the frames of each of f's
five stacks appended to the stack of the same namespace. -/
def AppendAll (e f : Environment) : Environment :=
  { ThrowTag := e.ThrowTag ++ f.ThrowTag
    Variable := e.Variable ++ f.Variable
    Function := e.Function ++ f.Function
    Macro := e.Macro ++ f.Macro
    DynamicVariable := e.DynamicVariable ++ f.DynamicVariable }

/-- The map objects an environment refers to, over its five stacks. -/
def frames (e : Environment) : List Nat :=
  e.ThrowTag ++ e.Macro ++ e.Function ++ e.Variable ++ e.DynamicVariable

/-- No map object stands in the stacks of two namespaces of `e`. -/
def Separated (e : Environment) : Prop :=
  List.Pairwise List.Disjoint [e.ThrowTag, e.Macro, e.Function, e.Variable, e.DynamicVariable]

/-- Every lookup in `e` gives in the world `w2` what it gives in `w1`, in the
namespaces Macro, Function, DynamicVariable and ThrowTag. -/
def SameOutsideVariable (e : Environment) (w1 w2 : World) : Prop :=
  ∀ key, GetMacro e key w2 = GetMacro e key w1 ∧ GetFunction e key w2 = GetFunction e key w1 ∧
    GetDynamicVariable e key w2 = GetDynamicVariable e key w1 ∧
    GetThrowTag e key w2 = GetThrowTag e key w1

/-- Every lookup in `e` gives in the world `w2` what it gives in `w1`, in the
namespaces Macro, Variable, DynamicVariable and ThrowTag. -/
def SameOutsideFunction (e : Environment) (w1 w2 : World) : Prop :=
  ∀ key, GetMacro e key w2 = GetMacro e key w1 ∧ GetVariable e key w2 = GetVariable e key w1 ∧
    GetDynamicVariable e key w2 = GetDynamicVariable e key w1 ∧
    GetThrowTag e key w2 = GetThrowTag e key w1

/-- Every lookup in `e` gives in the world `w2` what it gives in `w1`, in the
namespaces Function, Variable, DynamicVariable and ThrowTag. -/
def SameOutsideMacro (e : Environment) (w1 w2 : World) : Prop :=
  ∀ key, GetFunction e key w2 = GetFunction e key w1 ∧
    GetVariable e key w2 = GetVariable e key w1 ∧
    GetDynamicVariable e key w2 = GetDynamicVariable e key w1 ∧
    GetThrowTag e key w2 = GetThrowTag e key w1

/-- Every lookup in `e` gives in the world `w2` what it gives in `w1`, in the
namespaces Macro, Function, Variable and ThrowTag. -/
def SameOutsideDynamicVariable (e : Environment) (w1 w2 : World) : Prop :=
  ∀ key, GetMacro e key w2 = GetMacro e key w1 ∧ GetFunction e key w2 = GetFunction e key w1 ∧
    GetVariable e key w2 = GetVariable e key w1 ∧
    GetThrowTag e key w2 = GetThrowTag e key w1

/-- Every lookup in `e` gives in the world `w2` what it gives in `w1`, in the
namespaces Macro, Function, Variable and DynamicVariable. -/
def SameOutsideThrowTag (e : Environment) (w1 w2 : World) : Prop :=
  ∀ key, GetMacro e key w2 = GetMacro e key w1 ∧ GetFunction e key w2 = GetFunction e key w1 ∧
    GetVariable e key w2 = GetVariable e key w1 ∧
    GetDynamicVariable e key w2 = GetDynamicVariable e key w1

/-- The operations of the package on one environment `e`: the five `Define*`
and the five `Set*` methods, and the three `Append*` functions with `e` as
their first argument. -/
inductive Operation
  | defineThrowTag (key value : Instance)
  | defineMacro (key value : Instance)
  | defineFunction (key value : Instance)
  | defineVariable (key value : Instance)
  | defineDynamicVariable (key value : Instance)
  | setThrowTag (key value : Instance)
  | setMacro (key value : Instance)
  | setFunction (key value : Instance)
  | setVariable (key value : Instance)
  | setDynamicVariable (key value : Instance)
  | appendAll (f : Environment)
  | appendDynamicVariable (f : Environment)
  | appendThrowTag (f : Environment)

/-- A world that differs from `w` by at most one assignment in a map of `stack`. -/
def WroteWithin (stack : List Nat) (w w1 : World) : Prop :=
  w1 = w ∨ ∃ a ∈ stack, ∃ (key value : Instance), w1 = w.store a key value

/-- Every map of `e` has the colour of the namespace whose stack it stands in:
0 for ThrowTag, 1 for Macro, 2 for Function, 3 for Variable, 4 for
DynamicVariable. -/
def Coloured (colour : Nat → Nat) (e : Environment) : Prop :=
  (∀ a ∈ e.ThrowTag, colour a = 0) ∧ (∀ a ∈ e.Macro, colour a = 1) ∧
  (∀ a ∈ e.Function, colour a = 2) ∧ (∀ a ∈ e.Variable, colour a = 3) ∧
  (∀ a ∈ e.DynamicVariable, colour a = 4)

/-- The colouring `colour` extended to the five maps that `New` makes in the world `w`. -/
def colourNew (colour : Nat → Nat) (w : World) (a : Nat) : Nat :=
  if w.next ≤ a ∧ a < w.next + 5 then a - w.next else colour a

/-- One operation on the environment `e` in the world `w`: the environment
and the world after it, or the run-time panic of a `Define*` on an empty stack. -/
def Operation.run : Operation → Environment × World → Except Fault (Environment × World)
  | .defineThrowTag key value, (e, w) => (DefineThrowTag e key value w).map (fun w1 => (e, w1))
  | .defineMacro key value, (e, w) => (DefineMacro e key value w).map (fun w1 => (e, w1))
  | .defineFunction key value, (e, w) => (DefineFunction e key value w).map (fun w1 => (e, w1))
  | .defineVariable key value, (e, w) => (DefineVariable e key value w).map (fun w1 => (e, w1))
  | .defineDynamicVariable key value, (e, w) =>
    (DefineDynamicVariable e key value w).map (fun w1 => (e, w1))
  | .setThrowTag key value, (e, w) => .ok (e, (SetThrowTag e key value w).2)
  | .setMacro key value, (e, w) => .ok (e, (SetMacro e key value w).2)
  | .setFunction key value, (e, w) => .ok (e, (SetFunction e key value w).2)
  | .setVariable key value, (e, w) => .ok (e, (SetVariable e key value w).2)
  | .setDynamicVariable key value, (e, w) => .ok (e, (SetDynamicVariable e key value w).2)
  | .appendAll f, (e, w) => .ok (AppendAll e f, w)
  | .appendDynamicVariable f, (e, w) => .ok (AppendDynamicVariable e f, w)
  | .appendThrowTag f, (e, w) => .ok (AppendThrowTag e f, w)

/-- A sequence of operations, one after the other; a panic ends the run. -/
def runAll : List Operation → Environment × World → Except Fault (Environment × World)
  | [], s => .ok s
  | op :: rest, s =>
    match op.run s with
    | .ok s1 => runAll rest s1
    | .error fault => .error fault

/-- All five stacks of `e` hold a frame. -/
def AllStacksNonEmpty (e : Environment) : Prop :=
  e.ThrowTag ≠ [] ∧ e.Macro ≠ [] ∧ e.Function ≠ [] ∧ e.Variable ≠ [] ∧ e.DynamicVariable ≠ []

/-- The float 3.14 of the test setup, by its IEEE 754 bits. -/
def pi : Instance := .float 0x40091EB851EB851F

end environment

namespace runtime

open ilos

/-- Modelled from the spec: `SignalCondition` is not in the sources; by §4.7
the evaluator signals a condition by returning `(nil, condition)` from the
current call. -/
def SignalCondition (_e : env.Environment) (condition _continuable : Instance) : Result :=
  (.nil, condition)

/-- The conversion `int(i.(instance.Integer))`; the code applies it to
instances of Integer only. -/
def intOf : Instance → Int
  | .integer n => n
  | _ => 0

/-- The greatest length for which `make([]ilos.Instance, n)` does not panic
outright: an element is an interface value of 16 bytes, and the allocator of
the 64-bit runtime refuses (`makeslice: len out of range`) what exceeds the
2^48 bytes it can address.  A shorter slice may still fail for want of
memory; that is not modelled. -/
def maxSliceLen : Nat := 2 ^ 44

/-- `CreateVector(e, i, initialElement...)` of vector.go.  The constructors it
calls take the environment as a first argument that error.go's do not have;
the condition built is error.go's.  `make` is not guarded: beyond
`maxSliceLen` it is a run-time panic. -/
def CreateVector (e : env.Environment) (i : Instance) (initialElement : List Instance) :
    Except Fault Result :=
  if !InstanceOf .Integer i || intOf i < 0 then
    .ok (SignalCondition e (NewDomainError i (.classObject .Integer)) Nil)
  else if initialElement.length > 1 then
    .ok (SignalCondition e NewArityError Nil)
  else
    let n := (intOf i).toNat
    if n > maxSliceLen then .error .panic
    else
      let v := (List.range n).map (fun _ =>
        if initialElement.length = 0 then Nil else initialElement.getD 0 .nil)
      .ok (GeneralVector v, .nil)

end runtime

namespace tokenizer

/-- `TokenReader`: the fields `ru`, `err` and `rr` taken together.  `pending`
is the rune read ahead (`ru`) followed by the runes the underlying reader `rr`
has yet to deliver; `err` is set exactly when `pending` is empty.  The size
`sz` is not used by `ReadToken`. -/
structure TokenReader where
  pending : List Char
  deriving DecidableEq, Repr

/-- `NewTokenReader(r)` on a reader that delivers the runes `r` and then an
error: the first rune is read ahead. -/
def NewTokenReader (r : List Char) : TokenReader := ⟨r⟩

/-- `PeekRune`: the rune read ahead, or `none` when `err` is set. -/
def TokenReader.PeekRune (r : TokenReader) : Option Char := r.pending.head?

/-- `ReadRune`: the rune read ahead (or `none` when `err` is set), and the
reader after the next rune has been read ahead from `rr`. -/
def TokenReader.ReadRune (r : TokenReader) : Option Char × TokenReader :=
  (r.pending.head?, ⟨r.pending.tail⟩)

/-- The loop of `ReadToken`, entered with the buffer `buf` and the pending
runes: the returned string, whether an error is returned with it, and the
reader afterwards.  `token` is the test `token.MatchString`.  Each iteration
that does not return ends with `r.ReadRune()`, which drops the head of the
pending runes. -/
def readLoop (token : List Char → Bool) :
    List Char → List Char → (List Char × Bool) × TokenReader
  | buf, [] => if buf = [] then (([], true), ⟨[]⟩) else ((buf, false), ⟨[]⟩)
  | buf, p :: rest =>
    if buf = [] then
      if token [p] then readLoop token [p] rest else readLoop token buf rest
    else if !token (buf ++ [p]) then ((buf, false), ⟨p :: rest⟩)
    else readLoop token (buf ++ [p]) rest

/-- `ReadToken`: the loop entered with the empty buffer. -/
def TokenReader.ReadToken (token : List Char → Bool) (r : TokenReader) :
    (List Char × Bool) × TokenReader :=
  readLoop token [] r.pending

/-- One pass through the body of the loop of `ReadToken`, written with
`PeekRune` and `ReadRune` as in the source: the result when the pass returns,
or the buffer and the reader with which the loop goes on. -/
def loopBody (token : List Char → Bool) (buf : List Char) (r : TokenReader) :
    ((List Char × Bool) × TokenReader) ⊕ (List Char × TokenReader) :=
  if buf = [] then
    match r.PeekRune with
    | none => .inl (([], true), r)
    | some p => .inr (if token [p] then [p] else buf, r.ReadRune.2)
  else
    match r.PeekRune with
    | none => .inl ((buf, false), r)
    | some p =>
      if !token (buf ++ [p]) then .inl ((buf, false), r)
      else .inr (buf ++ [p], r.ReadRune.2)

/-- Every non-empty initial segment of `t`, and so `t` itself, passes the test. -/
def AllSegmentsMatch (token : List Char → Bool) (t : List Char) : Prop :=
  ∀ k, 0 < k → k ≤ t.length → token (t.take k) = true

/-- A sample token test: a run of decimal digits, or one parenthesis. -/
def samplePattern (s : List Char) : Bool :=
  (s ≠ [] && s.all Char.isDigit) || s == ['('] || s == [')']

end tokenizer

namespace environment

open ilos

/-- Whether a Go map with keys of the interface type `ilos.Instance` accepts
`key`: the dynamic type of a key must be comparable.  `GeneralVector` is a
slice type (vector.go converts a `[]ilos.Instance` to it), and indexing or
assigning a map with a key of slice type is a run-time panic.  Symbols,
integers and characters are of string, int and rune types. -/
def hashable : Instance → Bool
  | .generalVector _ => false
  | _ => true

/-- Whether `key` is a float that is not a number: in the binary64 format all
eleven exponent bits are set and the fraction is not zero.  Such a value is
not equal to itself, so a map never finds it. -/
def isNaN : Instance → Bool
  | .float bits => (bits / 2 ^ 52) % 2 ^ 11 == 2047 && bits % 2 ^ 52 != 0
  | _ => false

/-- The entry of a map to which `key` belongs: Go's `==` on floats takes the
negative zero (sign bit only) for equal to zero; every other key that a map
finds is equal to itself alone. -/
def mapKey : Instance → Instance
  | .float bits => if bits = 2 ^ 63 then .float 0 else .float bits
  | key => key

/-- The Go expression `v, ok := vars[key]`. -/
def mapIndex (vars : Frame) (key : Instance) : Except Fault (Option Instance) :=
  if !hashable key then .error .panic
  else if isNaN key then .ok none
  else .ok (vars (mapKey key))

/-- The Go statement `vars[key] = value` on the map at address `a`.  Under a
key that is not a number the map gets an entry that no lookup reaches; the
frames hold the entries that can be found, so the world is as before. -/
def mapAssign (w : World) (a : Nat) (key value : Instance) : Except Fault World :=
  if !hashable key then .error .panic
  else if isNaN key then .ok w
  else .ok (w.store a (mapKey key) value)

/-- The loop of the five `Get*` methods, for any key:
`for _, vars := range stack { if v, ok := vars[key]; ok { return v, true } }; return nil, false`. -/
def getLoop (w : World) : List Nat → Instance → Except Fault (Instance × Bool)
  | [], _ => .ok (.nil, false)
  | a :: rest, key =>
    match mapIndex (w.maps a) key with
    | .error fault => .error fault
    | .ok (some v) => .ok (v, true)
    | .ok none => getLoop w rest key

/-- The loop of the five `Set*` methods, for any key:
`for _, vars := range stack { if _, ok := vars[key]; ok { vars[key] = value; return true } }; return false`. -/
def setLoop (w : World) : List Nat → Instance → Instance → Except Fault (Bool × World)
  | [], _, _ => .ok (false, w)
  | a :: rest, key, value =>
    match mapIndex (w.maps a) key with
    | .error fault => .error fault
    | .ok (some _) =>
      match mapAssign w a key value with
      | .error fault => .error fault
      | .ok w1 => .ok (true, w1)
    | .ok none => setLoop w rest key value

/-- The statement of the five `Define*` methods, for any key:
`stack[0][key] = value`; indexing an empty slice is a run-time panic. -/
def defineFirst (w : World) : List Nat → Instance → Instance → Except Fault World
  | [], _, _ => .error .panic
  | a :: _, key, value => mapAssign w a key value

/-- The method `(e *Environment) GetThrowTag(key)`, for any key. -/
def Environment.GetThrowTag (e : Environment) (key : Instance) (w : World) :
    Except Fault (Instance × Bool) :=
  getLoop w e.ThrowTag key

/-- The method `(e *Environment) SetThrowTag(key, value)`, for any key. -/
def Environment.SetThrowTag (e : Environment) (key value : Instance) (w : World) :
    Except Fault (Bool × World) :=
  setLoop w e.ThrowTag key value

/-- The method `(e *Environment) DefineThrowTag(key, value)`, for any key. -/
def Environment.DefineThrowTag (e : Environment) (key value : Instance) (w : World) :
    Except Fault World :=
  defineFirst w e.ThrowTag key value

/-- The method `(e *Environment) GetVariable(key)`, for any key. -/
def Environment.GetVariable (e : Environment) (key : Instance) (w : World) :
    Except Fault (Instance × Bool) :=
  getLoop w e.Variable key

/-- The method `(e *Environment) SetVariable(key, value)`, for any key. -/
def Environment.SetVariable (e : Environment) (key value : Instance) (w : World) :
    Except Fault (Bool × World) :=
  setLoop w e.Variable key value

/-- The method `(e *Environment) DefineVariable(key, value)`, for any key. -/
def Environment.DefineVariable (e : Environment) (key value : Instance) (w : World) :
    Except Fault World :=
  defineFirst w e.Variable key value

/-- The method `(e *Environment) GetFunction(key)`, for any key. -/
def Environment.GetFunction (e : Environment) (key : Instance) (w : World) :
    Except Fault (Instance × Bool) :=
  getLoop w e.Function key

/-- The method `(e *Environment) SetFunction(key, value)`, for any key. -/
def Environment.SetFunction (e : Environment) (key value : Instance) (w : World) :
    Except Fault (Bool × World) :=
  setLoop w e.Function key value

/-- The method `(e *Environment) DefineFunction(key, value)`, for any key. -/
def Environment.DefineFunction (e : Environment) (key value : Instance) (w : World) :
    Except Fault World :=
  defineFirst w e.Function key value

/-- The method `(e *Environment) GetMacro(key)`, for any key. -/
def Environment.GetMacro (e : Environment) (key : Instance) (w : World) :
    Except Fault (Instance × Bool) :=
  getLoop w e.Macro key

/-- The method `(e *Environment) SetMacro(key, value)`, for any key. -/
def Environment.SetMacro (e : Environment) (key value : Instance) (w : World) :
    Except Fault (Bool × World) :=
  setLoop w e.Macro key value

/-- The method `(e *Environment) DefineMacro(key, value)`, for any key. -/
def Environment.DefineMacro (e : Environment) (key value : Instance) (w : World) :
    Except Fault World :=
  defineFirst w e.Macro key value

/-- The method `(e *Environment) GetDynamicVariable(key)`, for any key. -/
def Environment.GetDynamicVariable (e : Environment) (key : Instance) (w : World) :
    Except Fault (Instance × Bool) :=
  getLoop w e.DynamicVariable key

/-- The method `(e *Environment) SetDynamicVariable(key, value)`, for any key. -/
def Environment.SetDynamicVariable (e : Environment) (key value : Instance) (w : World) :
    Except Fault (Bool × World) :=
  setLoop w e.DynamicVariable key value

/-- The method `(e *Environment) DefineDynamicVariable(key, value)`, for any key. -/
def Environment.DefineDynamicVariable (e : Environment) (key value : Instance) (w : World) :
    Except Fault World :=
  defineFirst w e.DynamicVariable key value

/-- The keys whose Go representation the sources show to be a plain comparable
value: symbols (strings), integers (int), characters (rune), and the floats
that are numbers. -/
def plainKey : Instance → Bool
  | .symbol _ => true
  | .integer _ => true
  | .character _ => true
  | .float bits => !isNaN (.float bits)
  | _ => false

/-- What a lookup `get` over the frames `stack` returns for a plain key:
`(v, true)` exactly when `v` is bound to the key in the lowest-index frame
that binds it, and `(nil, false)` exactly when no frame binds the key; it
does not panic and there is no third outcome. -/
def PlainLookupSpec (get : Instance → World → Except Fault (Instance × Bool))
    (stack : List Nat) : Prop :=
  ∀ key w, plainKey key = true →
    (∀ v, get key w = .ok (v, true) ↔ ∃ i, InnermostAt w stack (mapKey key) i v) ∧
    (get key w = .ok (.nil, false) ↔ Unbound w stack (mapKey key)) ∧
    (get key w = .ok (.nil, false) ∨ ∃ v, get key w = .ok (v, true))

/-- What `define` followed by `get` does on the frames `stack` for a plain key
`k`: the define returns, the lookup of `k` then gives the new value, in the
map `a` of frame 0 only the entry of `k` changed, every frame that is another
map than `a` is as before (all the frames 1.. when `a` does not stand in the
stack a second time), and every key that is not equal to `k` is looked up as
before. -/
def PlainDefineSpec (define : Instance → Instance → World → Except Fault World)
    (get : Instance → World → Except Fault (Instance × Bool)) (stack : List Nat) : Prop :=
  ∀ k v w, plainKey k = true → ∃ a w', stack[0]? = some a ∧ define k v w = .ok w' ∧
    get k w' = .ok (v, true) ∧
    w'.maps a (mapKey k) = some v ∧
    (∀ k', k' ≠ mapKey k → w'.maps a k' = w.maps a k') ∧
    (∀ b, b ≠ a → w'.maps b = w.maps b) ∧
    (a ∉ stack.tail → ∀ i b, 0 < i → stack[i]? = some b → w'.maps b = w.maps b) ∧
    (∀ k', mapKey k' ≠ mapKey k → get k' w' = get k' w) ∧
    w'.next = w.next

/-- Every lookup of a plain key in `e` in the world `w2` gives what the same
lookup in `f` gives in the world `w1`, in all five namespaces. -/
def SamePlainLookups (e : Environment) (w2 : World) (f : Environment) (w1 : World) : Prop :=
  ∀ key, plainKey key = true →
    e.GetThrowTag key w2 = f.GetThrowTag key w1 ∧ e.GetMacro key w2 = f.GetMacro key w1 ∧
    e.GetFunction key w2 = f.GetFunction key w1 ∧ e.GetVariable key w2 = f.GetVariable key w1 ∧
    e.GetDynamicVariable key w2 = f.GetDynamicVariable key w1

/-- Every lookup in `f`, of whatever key, gives in the world `w2` what it
gives in `w1`, in all five namespaces. -/
def LookupsKept (f : Environment) (w1 w2 : World) : Prop :=
  ∀ key, f.GetThrowTag key w2 = f.GetThrowTag key w1 ∧ f.GetMacro key w2 = f.GetMacro key w1 ∧
    f.GetFunction key w2 = f.GetFunction key w1 ∧ f.GetVariable key w2 = f.GetVariable key w1 ∧
    f.GetDynamicVariable key w2 = f.GetDynamicVariable key w1

/-- A `Define*` method, given by `define` with its lookup `get`, on a plain
key: it returns in every world, makes the new binding the result of the
lookup of its key, and leaves every lookup in the environment `f` as it was. -/
def PlainShadowsOnly (define : Instance → Instance → World → Except Fault World)
    (get : Instance → World → Except Fault (Instance × Bool)) (f : Environment) : Prop :=
  ∀ (key value : Instance) (w1 : World), plainKey key = true →
    ∃ w2, define key value w1 = .ok w2 ∧ get key w2 = .ok (value, true) ∧ LookupsKept f w1 w2

/-- A float that is not a number (the quiet NaN of binary64). -/
def nan : Instance := .float 0x7FF8000000000000

/-- The sample environment appended to itself, as `AppendAll(e, e)` leaves it:
the frames 2 and 3 of the Variable stack are the maps of the frames 0 and 1. -/
def aliasedEnv : Environment := AppendAll sampleEnv sampleEnv

end environment
/-! ## Theorems: the environment stacks -/

namespace environment

theorem scanGet_nil (w : World) (key : Instance) : scanGet w [] key = (.nil, false) := rfl

theorem scanGet_cons_none {w : World} {a : Nat} {key : Instance} (rest : List Nat)
    (h : w.maps a key = none) : scanGet w (a :: rest) key = scanGet w rest key := by
  simp [scanGet, h]

theorem scanGet_cons_some {w : World} {a : Nat} {key : Instance} {u : Instance} (rest : List Nat)
    (h : w.maps a key = some u) : scanGet w (a :: rest) key = (u, true) := by
  simp [scanGet, h]

theorem scanGet_dichotomy (w : World) (stack : List Nat) (key : Instance) :
    scanGet w stack key = (.nil, false) ∨ ∃ v, scanGet w stack key = (v, true) := by
  induction stack with
  | nil => exact Or.inl rfl
  | cons a rest ih =>
    cases h : w.maps a key with
    | none => rw [scanGet_cons_none rest h]; exact ih
    | some u => exact Or.inr ⟨u, scanGet_cons_some rest h⟩

theorem scanGet_false_iff (w : World) (stack : List Nat) (key : Instance) :
    scanGet w stack key = (.nil, false) ↔ Unbound w stack key := by
  induction stack with
  | nil => simp [scanGet, Unbound]
  | cons a rest ih =>
    cases h : w.maps a key with
    | none =>
      rw [scanGet_cons_none rest h, ih]
      simp [Unbound, h]
    | some u =>
      rw [scanGet_cons_some rest h]
      simp [Unbound, h]

theorem innermostAt_cons_none {w : World} {a : Nat} {key : Instance} (rest : List Nat)
    (h : w.maps a key = none) (v : Instance) :
    (∃ i, InnermostAt w (a :: rest) key i v) ↔ ∃ i, InnermostAt w rest key i v := by
  constructor
  · rintro ⟨i, ⟨b, hb, hv⟩, hlow⟩
    cases i with
    | zero =>
      simp at hb
      subst hb
      rw [h] at hv
      cases hv
    | succ i =>
      refine ⟨i, ⟨b, by simpa using hb, hv⟩, ?_⟩
      intro j c hj hc
      exact hlow (j + 1) c (by omega) (by simpa using hc)
  · rintro ⟨i, ⟨b, hb, hv⟩, hlow⟩
    refine ⟨i + 1, ⟨b, by simpa using hb, hv⟩, ?_⟩
    intro j c hj hc
    cases j with
    | zero =>
      simp at hc
      subst hc
      exact h
    | succ j => exact hlow j c (by omega) (by simpa using hc)

theorem innermostAt_cons_some {w : World} {a : Nat} {key : Instance} {u : Instance}
    (rest : List Nat) (h : w.maps a key = some u) (v : Instance) :
    (∃ i, InnermostAt w (a :: rest) key i v) ↔ u = v := by
  constructor
  · rintro ⟨i, ⟨b, hb, hv⟩, hlow⟩
    cases i with
    | zero =>
      simp at hb
      subst hb
      rw [h] at hv
      exact Option.some.inj hv
    | succ i =>
      have := hlow 0 a (by omega) (by simp)
      rw [h] at this
      cases this
  · rintro rfl
    exact ⟨0, ⟨a, by simp, h⟩, fun j b hj => absurd hj (by omega)⟩

theorem scanGet_true_iff (w : World) (stack : List Nat) (key : Instance) (v : Instance) :
    scanGet w stack key = (v, true) ↔ ∃ i, InnermostAt w stack key i v := by
  induction stack with
  | nil =>
    simp only [scanGet_nil]
    constructor
    · intro h; cases h
    · rintro ⟨i, ⟨b, hb, _⟩, _⟩; simp at hb
  | cons a rest ih =>
    cases h : w.maps a key with
    | none => rw [scanGet_cons_none rest h, ih, innermostAt_cons_none rest h]
    | some u =>
      rw [scanGet_cons_some rest h, innermostAt_cons_some rest h]
      simp

end environment

/-! ### What a store changes -/

theorem World.store_maps_same (w : World) (a : Nat) (key : Instance) (value : Instance) :
    (w.store a key value).maps a key = some value := by
  simp [World.store]

theorem World.store_maps_other_key (w : World) (a : Nat) {key k : Instance} (value : Instance)
    (h : k ≠ key) : (w.store a key value).maps a k = w.maps a k := by
  simp [World.store, h]

theorem World.store_maps_other_map (w : World) {a b : Nat} (key : Instance) (value : Instance)
    (h : b ≠ a) : (w.store a key value).maps b = w.maps b := by
  simp [World.store, h]

theorem World.store_maps_key_ne (w : World) (a b : Nat) {key k : Instance} (value : Instance)
    (h : k ≠ key) : (w.store a key value).maps b k = w.maps b k := by
  by_cases hb : b = a
  · subst hb; exact World.store_maps_other_key w b value h
  · rw [World.store_maps_other_map w key value hb]

theorem World.store_next (w : World) (a : Nat) (key : Instance) (value : Instance) :
    (w.store a key value).next = w.next := rfl

namespace environment

theorem scanGet_store_key_ne (w : World) (a : Nat) {key k : Instance} (value : Instance)
    (h : k ≠ key) (stack : List Nat) :
    scanGet (w.store a key value) stack k = scanGet w stack k := by
  induction stack with
  | nil => rfl
  | cons b rest ih =>
    simp only [scanGet, World.store_maps_key_ne w a b value h, ih]

theorem defineFront_cons (w : World) (a : Nat) (rest : List Nat) (key : Instance)
    (value : Instance) : defineFront w (a :: rest) key value = .ok (w.store a key value) := rfl

theorem scanGet_store_front (w : World) (a : Nat) (rest : List Nat) (key : Instance)
    (value : Instance) : scanGet (w.store a key value) (a :: rest) key = (value, true) :=
  scanGet_cons_some rest (World.store_maps_same w a key value)

theorem scanSet_unbound {w : World} {stack : List Nat} {key : Instance} (value : Instance)
    (h : Unbound w stack key) : scanSet w stack key value = (false, w) := by
  induction stack with
  | nil => rfl
  | cons a rest ih =>
    have ha : w.maps a key = none := h a (by simp)
    have hrest : Unbound w rest key := fun b hb => h b (by simp [hb])
    simp [scanSet, ha, ih hrest]

theorem scanSet_innermost {w : World} {stack : List Nat} {key : Instance} (value : Instance)
    {i : Nat} {old : Instance} (h : InnermostAt w stack key i old) :
    ∃ a, stack[i]? = some a ∧ scanSet w stack key value = (true, w.store a key value) := by
  induction stack generalizing i with
  | nil =>
    obtain ⟨⟨b, hb, _⟩, _⟩ := h
    simp at hb
  | cons a rest ih =>
    obtain ⟨⟨b, hb, hv⟩, hlow⟩ := h
    cases i with
    | zero =>
      simp at hb
      subst hb
      exact ⟨a, by simp, by simp [scanSet, hv]⟩
    | succ i =>
      have ha : w.maps a key = none := hlow 0 a (by omega) (by simp)
      have hin : InnermostAt w rest key i old :=
        ⟨⟨b, by simpa using hb, hv⟩,
          fun j c hj hc => hlow (j + 1) c (by omega) (by simpa using hc)⟩
      obtain ⟨c, hc, hset⟩ := ih hin
      exact ⟨c, by simpa using hc, by simp [scanSet, ha, hset]⟩

theorem scanGet_after_store_innermost {w : World} {stack : List Nat} {key : Instance}
    (value : Instance) {i : Nat} {old : Instance} {a : Nat} (h : InnermostAt w stack key i old)
    (ha : stack[i]? = some a) : scanGet (w.store a key value) stack key = (value, true) := by
  rw [scanGet_true_iff]
  refine ⟨i, ⟨a, ha, World.store_maps_same w a key value⟩, ?_⟩
  intro j b hj hb
  have hnone := h.2 j b hj hb
  by_cases hba : b = a
  · subst hba
    obtain ⟨⟨c, hc, hv⟩, _⟩ := h
    rw [ha] at hc
    cases hc
    rw [hnone] at hv
    cases hv
  · rw [World.store_maps_other_map w key value hba]
    exact hnone

end environment

namespace environment

theorem sample_X_bound : ¬ Unbound sampleWorld sampleEnv.Variable (.symbol "X") := by
  intro h
  have h4 := h 4 (by simp [sampleEnv])
  simp [sampleWorld] at h4

end environment

/-! ## Theorems: classes and lists -/

namespace ilos

theorem instanceOf_nil (c : Class) : InstanceOf c .nil = false := rfl

theorem instanceOf_cons_iff (x : Instance) :
    InstanceOf .Cons x = true ↔ ∃ a b, x = .cons a b := by
  cases x with
  | cons a b => exact ⟨fun _ => ⟨a, b, rfl⟩, fun _ => rfl⟩
  | standard cls m => cases cls <;> simp [InstanceOf, Instance.classOf, StandardClass.toClass, Class.isBelow, Class.super]
  | _ => simp [InstanceOf, Instance.classOf, Class.isBelow, Class.super]

theorem instanceOf_symbol_iff (x : Instance) :
    InstanceOf .Symbol x = true ↔ ∃ n, x = .symbol n := by
  cases x with
  | symbol n => exact ⟨fun _ => ⟨n, rfl⟩, fun _ => rfl⟩
  | standard cls m => cases cls <;> simp [InstanceOf, Instance.classOf, StandardClass.toClass, Class.isBelow, Class.super]
  | _ => simp [InstanceOf, Instance.classOf, Class.isBelow, Class.super]

theorem instanceOf_function_iff (x : Instance) :
    InstanceOf .Function x = true ↔ ∃ r, x = .function r := by
  cases x with
  | function r => exact ⟨fun _ => ⟨r, rfl⟩, fun _ => rfl⟩
  | standard cls m => cases cls <;> simp [InstanceOf, Instance.classOf, StandardClass.toClass, Class.isBelow, Class.super]
  | _ => simp [InstanceOf, Instance.classOf, Class.isBelow, Class.super]

theorem instanceOf_null_iff (x : Instance) :
    InstanceOf .Null x = true ↔ x = .null := by
  cases x with
  | null => exact ⟨fun _ => rfl, fun _ => rfl⟩
  | standard cls m => cases cls <;> simp [InstanceOf, Instance.classOf, StandardClass.toClass, Class.isBelow, Class.super]
  | _ => simp [InstanceOf, Instance.classOf, Class.isBelow, Class.super]

theorem instanceOf_list_iff (x : Instance) :
    InstanceOf .List x = true ↔ x = .null ∨ ∃ a b, x = .cons a b := by
  cases x with
  | null => exact ⟨fun _ => Or.inl rfl, fun _ => rfl⟩
  | cons a b => exact ⟨fun _ => Or.inr ⟨a, b, rfl⟩, fun _ => rfl⟩
  | standard cls m => cases cls <;> simp [InstanceOf, Instance.classOf, StandardClass.toClass, Class.isBelow, Class.super]
  | _ => simp [InstanceOf, Instance.classOf, Class.isBelow, Class.super]

theorem list_nil : list [] = .null := rfl

theorem list_cons (x : Instance) (xs : List Instance) : list (x :: xs) = .cons x (list xs) := rfl

theorem listFrom_nil (tail : Instance) : listFrom [] tail = tail := rfl

theorem listFrom_cons (x : Instance) (xs : List Instance) (tail : Instance) :
    listFrom (x :: xs) tail = .cons x (listFrom xs tail) := rfl

theorem listFrom_list (xs ys : List Instance) : listFrom xs (list ys) = list (xs ++ ys) := by
  induction xs with
  | nil => rfl
  | cons x xs ih => simp [listFrom_cons, list_cons, ih]

theorem toList_ofList (xs : List Instance) : (Instances.ofList xs).toList = xs := by
  induction xs with
  | nil => rfl
  | cons x xs ih => simp [Instances.ofList, Instances.toList, ih]

end ilos

/-! ## Theorems: block, catch, unwind-protect -/

namespace runtime

theorem ne_nil_of_instanceOf {c : ilos.Class} {x : Instance} (h : InstanceOf c x = true) :
    x ≠ .nil := by
  rintro rfl
  simp [instanceOf_nil] at h

theorem bodyLoop_normal (kind : ilos.Class) (Eval : Evaluator) (loc : env.Environment)
    (tag : Instance) {body vs : List Instance} {w w1 : World}
    (h : EvalsNormally Eval loc body w vs w1) (sucess : Instance) :
    bodyLoop kind Eval loc tag body sucess w = .ok ((vs.getLastD sucess, .nil), w1) := by
  induction h generalizing sucess with
  | nil w => rfl
  | @cons form v rest vs w w1 w2 hform _ ih =>
    simp only [bodyLoop, hform, ne_eq, not_true_eq_false, if_false]
    rw [ih v]
    cases vs <;> rfl

theorem bodyLoop_escape (kind : ilos.Class) (Eval : Evaluator) (loc : env.Environment)
    (tag : Instance) {pre vs : List Instance} {w w1 w2 : World} {f v fail : Instance}
    (hpre : EvalsNormally Eval loc pre w vs w1)
    (hf : Eval loc f w1 = .ok ((v, fail), w2))
    (hkind : InstanceOf kind fail = true)
    (htag : (GetSlotValue fail "TAG").1 = tag) (post : List Instance) (sucess : Instance) :
    bodyLoop kind Eval loc tag (pre ++ f :: post) sucess w =
      .ok (((GetSlotValue fail "OBJECT").1, .nil), w2) := by
  induction hpre generalizing sucess with
  | nil w =>
    have hne : fail ≠ .nil := ne_nil_of_instanceOf hkind
    simp [bodyLoop, hf, hne, hkind, htag]
  | cons hform _ ih =>
    simp only [List.cons_append, bodyLoop, hform, ne_eq, not_true_eq_false, if_false]
    exact ih hf _

theorem bodyLoop_propagates (kind : ilos.Class) (Eval : Evaluator) (loc : env.Environment)
    (tag : Instance) {pre vs : List Instance} {w w1 w2 : World} {f v fail : Instance}
    (hpre : EvalsNormally Eval loc pre w vs w1)
    (hf : Eval loc f w1 = .ok ((v, fail), w2))
    (hne : fail ≠ .nil)
    (hother : InstanceOf kind fail = false ∨ (GetSlotValue fail "TAG").1 ≠ tag)
    (post : List Instance) (sucess : Instance) :
    bodyLoop kind Eval loc tag (pre ++ f :: post) sucess w = .ok ((.nil, fail), w2) := by
  induction hpre generalizing sucess with
  | nil w =>
    rcases hother with h | h
    · simp [bodyLoop, hf, hne, h]
    · have h' : ¬ tag = (GetSlotValue fail "TAG").1 := fun e => h e.symm
      by_cases hk : InstanceOf kind fail = true
      · simp [bodyLoop, hf, hne, hk, h']
      · simp [bodyLoop, hf, hne, hk]
  | cons hform _ ih =>
    simp only [List.cons_append, bodyLoop, hform, ne_eq, not_true_eq_false, if_false]
    exact ih hf _

theorem Block_established {Eval : Evaluator} {loc : env.Environment} {tagForm tag : Instance}
    {w w1 w2 : World} (htag : Eval loc tagForm w = .ok ((tag, .nil), w1))
    (hnum : InstanceOf .Number tag = false) (hchar : InstanceOf .Character tag = false)
    (hdef : env.DefineTag loc.BlockTag tag .nil w1 = .ok (true, w2)) (body : List Instance) :
    Block Eval loc tagForm body w = bodyLoop .BlockTag Eval loc tag body Nil w2 := by
  simp [Block, htag, hnum, hchar, hdef]

theorem Catch_established {Eval : Evaluator} {loc : env.Environment} {tagForm tag : Instance}
    {w w1 w2 : World} (htag : Eval loc tagForm w = .ok ((tag, .nil), w1))
    (hnum : InstanceOf .Number tag = false) (hchar : InstanceOf .Character tag = false)
    (hdef : env.DefineTag loc.CatchTag tag .nil w1 = .ok (true, w2)) (body : List Instance) :
    Catch Eval loc tagForm body w = bodyLoop .CatchTag Eval loc tag body Nil w2 := by
  simp [Catch, htag, hnum, hchar, hdef]

/-- C1: when `Block` (resp. `Catch`) has evaluated its tag form to `tag` and
established it, then (a) if the body forms before `f` evaluate with no
condition and `f` yields a BlockTag (resp. CatchTag) escape whose TAG is
`tag`, the form returns the OBJECT of that escape with no condition, in the
world left by `f`: the forms `post` after `f` are not evaluated; (b) if every
body form evaluates with no condition, it returns the value of the last body
form, `Nil` for an empty body. -/
theorem block_catch_resume (Eval : Evaluator) (loc : env.Environment)
    (tagForm tag : Instance) (w w1 w2 : World)
    (htag : Eval loc tagForm w = .ok ((tag, .nil), w1))
    (hnum : InstanceOf .Number tag = false) (hchar : InstanceOf .Character tag = false) :
    (env.DefineTag loc.BlockTag tag .nil w1 = .ok (true, w2) →
      (∀ pre f post vs w3 v fail w4, EvalsNormally Eval loc pre w2 vs w3 →
        Eval loc f w3 = .ok ((v, fail), w4) → InstanceOf .BlockTag fail = true →
        (GetSlotValue fail "TAG").1 = tag →
        Block Eval loc tagForm (pre ++ f :: post) w =
          .ok (((GetSlotValue fail "OBJECT").1, .nil), w4)) ∧
      (∀ body vs w3, EvalsNormally Eval loc body w2 vs w3 →
        Block Eval loc tagForm body w = .ok ((vs.getLastD Nil, .nil), w3)) ∧
      Block Eval loc tagForm [] w = .ok ((Nil, .nil), w2)) ∧
    (env.DefineTag loc.CatchTag tag .nil w1 = .ok (true, w2) →
      (∀ pre f post vs w3 v fail w4, EvalsNormally Eval loc pre w2 vs w3 →
        Eval loc f w3 = .ok ((v, fail), w4) → InstanceOf .CatchTag fail = true →
        (GetSlotValue fail "TAG").1 = tag →
        Catch Eval loc tagForm (pre ++ f :: post) w =
          .ok (((GetSlotValue fail "OBJECT").1, .nil), w4)) ∧
      (∀ body vs w3, EvalsNormally Eval loc body w2 vs w3 →
        Catch Eval loc tagForm body w = .ok ((vs.getLastD Nil, .nil), w3)) ∧
      Catch Eval loc tagForm [] w = .ok ((Nil, .nil), w2)) := by
  refine ⟨fun hdef => ⟨?_, ?_, ?_⟩, fun hdef => ⟨?_, ?_, ?_⟩⟩
  · intro pre f post vs w3 v fail w4 hpre hf hk ht
    rw [Block_established htag hnum hchar hdef]
    exact bodyLoop_escape _ Eval loc tag hpre hf hk ht post Nil
  · intro body vs w3 hbody
    rw [Block_established htag hnum hchar hdef]
    exact bodyLoop_normal _ Eval loc tag hbody Nil
  · rw [Block_established htag hnum hchar hdef]; rfl
  · intro pre f post vs w3 v fail w4 hpre hf hk ht
    rw [Catch_established htag hnum hchar hdef]
    exact bodyLoop_escape _ Eval loc tag hpre hf hk ht post Nil
  · intro body vs w3 hbody
    rw [Catch_established htag hnum hchar hdef]
    exact bodyLoop_normal _ Eval loc tag hbody Nil
  · rw [Catch_established htag hnum hchar hdef]; rfl

end runtime

namespace runtime

/-- Witness of C1: `(block 'b 1 (return-from 'b 7) 2)` returns 7 and
`(catch 'b 1 (throw 'b 7) 2)` returns 7, without evaluating the form `2`. -/
theorem block_catch_resume_witness :
    Block sampleEval sampleLocal (quoted (sym "B"))
        ([.integer 1] ++ list [sym "RETURN-FROM", quoted (sym "B"), .integer 7] :: [.integer 2])
        emptyWorld
      = .ok ((.integer 7, .nil), emptyWorld.store 0 (sym "B") .nil) ∧
    Catch sampleEval sampleLocal (quoted (sym "B"))
        ([.integer 1] ++ list [sym "THROW", quoted (sym "B"), .integer 7] :: [.integer 2])
        emptyWorld
      = .ok ((.integer 7, .nil), emptyWorld.store 2 (sym "B") .nil) :=
  ⟨((block_catch_resume sampleEval sampleLocal (quoted (sym "B")) (sym "B") emptyWorld
        emptyWorld (emptyWorld.store 0 (sym "B") .nil) rfl rfl rfl).1 rfl).1
      [.integer 1] (list [sym "RETURN-FROM", quoted (sym "B"), .integer 7]) [.integer 2]
      [.integer 1] (emptyWorld.store 0 (sym "B") .nil) .nil
      (NewBlockTag (sym "B") (.integer 7)) (emptyWorld.store 0 (sym "B") .nil)
      (.cons rfl (.nil _)) rfl rfl rfl,
   ((block_catch_resume sampleEval sampleLocal (quoted (sym "B")) (sym "B") emptyWorld
        emptyWorld (emptyWorld.store 2 (sym "B") .nil) rfl rfl rfl).2 rfl).1
      [.integer 1] (list [sym "THROW", quoted (sym "B"), .integer 7]) [.integer 2]
      [.integer 1] (emptyWorld.store 2 (sym "B") .nil) .nil
      (NewCatchTag (sym "B") (.integer 7)) (emptyWorld.store 2 (sym "B") .nil)
      (.cons rfl (.nil _)) rfl rfl rfl⟩

end runtime

namespace runtime

theorem prognLoop_normal (Eval : Evaluator) (loc : env.Environment) {forms vs : List Instance}
    {w w1 : World} (h : EvalsNormally Eval loc forms w vs w1) (ret : Instance) :
    prognLoop Eval loc forms ret w = .ok ((vs.getLastD ret, .nil), w1) := by
  induction h generalizing ret with
  | nil w => rfl
  | @cons form v rest vs w w1 w2 hform _ ih =>
    simp only [prognLoop, hform, ne_eq, not_true_eq_false, if_false]
    rw [ih v]
    cases vs <;> rfl

theorem prognLoop_condition (Eval : Evaluator) (loc : env.Environment)
    {pre vs : List Instance} {w w1 w2 : World} {f v c : Instance}
    (hpre : EvalsNormally Eval loc pre w vs w1) (hf : Eval loc f w1 = .ok ((v, c), w2))
    (hc : c ≠ .nil) (post : List Instance) (ret : Instance) :
    prognLoop Eval loc (pre ++ f :: post) ret w = .ok ((.nil, c), w2) := by
  induction hpre generalizing ret with
  | nil w => simp [prognLoop, hf, hc]
  | cons hform _ ih =>
    simp only [List.cons_append, prognLoop, hform, ne_eq, not_true_eq_false, if_false]
    exact ih hf _

/-- C2: with `(v, c)` the result of evaluating `form` and `(v2, c2)` the
result of then evaluating the cleanup forms in order by `Progn` (they are
evaluated whatever `c` is), `UnwindProtect` returns `(nil, ControlError)` when
`c2` is an Escape, `(v2, c2)` when `c2` is another condition, and `(v, c)`
unchanged when the cleanup forms signal nothing.  `Progn` evaluates the forms
in order: it returns the value of the last (`Nil` for none) when all of them
return normally and `(nil, c2)` at the first form that signals `c2`. -/
theorem unwindProtect_result (Eval : Evaluator) (loc : env.Environment) (form : Instance)
    (cleanupForms : List Instance) (w w1 w2 : World) (v c v2 c2 : Instance)
    (h1 : Eval loc form w = .ok ((v, c), w1))
    (h2 : Progn Eval loc cleanupForms w1 = .ok ((v2, c2), w2)) :
    ((InstanceOf .Escape c2 = true →
        UnwindProtect Eval loc form cleanupForms w = .ok ((.nil, NewControlError), w2)) ∧
     (InstanceOf .Escape c2 = false → c2 ≠ .nil →
        UnwindProtect Eval loc form cleanupForms w = .ok ((v2, c2), w2)) ∧
     (c2 = .nil → UnwindProtect Eval loc form cleanupForms w = .ok ((v, c), w2))) ∧
    (∀ vs, EvalsNormally Eval loc cleanupForms w1 vs w2 →
        v2 = vs.getLastD Nil ∧ c2 = .nil) ∧
    (∀ pre f post vs w3 x, cleanupForms = pre ++ f :: post →
        EvalsNormally Eval loc pre w1 vs w3 → Eval loc f w3 = .ok ((x, c2), w2) → c2 ≠ .nil →
        v2 = .nil) := by
  refine ⟨⟨?_, ?_, ?_⟩, ?_, ?_⟩
  · intro hesc
    simp [UnwindProtect, h1, h2, hesc]
  · intro hesc hne
    simp [UnwindProtect, h1, h2, hesc, hne]
  · intro hnil
    subst hnil
    simp [UnwindProtect, h1, h2, instanceOf_nil]
  · intro vs hvs
    have := prognLoop_normal Eval loc hvs Nil
    rw [Progn] at h2
    rw [this] at h2
    simp only [Except.ok.injEq, Prod.mk.injEq] at h2
    exact ⟨h2.1.1.symm, h2.1.2.symm⟩
  · intro pre f post vs w3 x hcl hpre hf hne
    subst hcl
    have := prognLoop_condition Eval loc hpre hf hne post Nil
    rw [Progn] at h2
    rw [this] at h2
    simp only [Except.ok.injEq, Prod.mk.injEq] at h2
    exact h2.1.1.symm

/-- Witness of C2: in a world where the catch tag `FOO` is established,
`(unwind-protect (throw 'foo 1) 5)` evaluates the cleanup form and hands on
the pending escape. -/
theorem unwindProtect_result_witness :
    UnwindProtect sampleEval sampleLocal (list [sym "THROW", quoted (sym "FOO"), .integer 1])
        [.integer 5] (emptyWorld.store 2 (sym "FOO") .nil)
      = .ok ((.nil, NewCatchTag (sym "FOO") (.integer 1)),
          emptyWorld.store 2 (sym "FOO") .nil) :=
  (unwindProtect_result sampleEval sampleLocal
    (list [sym "THROW", quoted (sym "FOO"), .integer 1]) [.integer 5]
    (emptyWorld.store 2 (sym "FOO") .nil) (emptyWorld.store 2 (sym "FOO") .nil)
    (emptyWorld.store 2 (sym "FOO") .nil) .nil (NewCatchTag (sym "FOO") (.integer 1))
    (.integer 5) .nil rfl rfl).1.2.2 rfl

end runtime

/-! ## Theorems: tagbody -/

namespace runtime

theorem evalForms_of_runs (Eval : Evaluator) (loc : env.Environment) {forms : List Instance}
    {w w1 : World} (h : RunsForms Eval loc forms w w1) :
    evalForms Eval loc forms w = .ok (.nil, w1) := by
  induction h with
  | nil w => rfl
  | tag hx _ ih => simp [evalForms, hx, ih]
  | form hx hev _ ih => simp [evalForms, hx, hev, ih]

theorem evalForms_condition (Eval : Evaluator) (loc : env.Environment) {pre : List Instance}
    {w w1 w2 : World} {f v fail : Instance} (hpre : RunsForms Eval loc pre w w1)
    (hcons : InstanceOf .Cons f = true) (hf : Eval loc f w1 = .ok ((v, fail), w2))
    (hne : fail ≠ .nil) (post : List Instance) :
    evalForms Eval loc (pre ++ f :: post) w = .ok (fail, w2) := by
  induction hpre with
  | nil w => simp [evalForms, hcons, hf, hne]
  | tag hx _ ih => simp [evalForms, hx, ih hf]
  | form hx hev _ ih => simp [evalForms, hx, hev, ih hf]

theorem defineTag_true {stack : List Nat} {key value : Instance} {w w1 : World}
    (h : env.DefineTag stack key value w = .ok (true, w1)) :
    ∃ a rest, stack = a :: rest ∧ w.maps a key = none ∧ w1 = w.store a key value := by
  cases stack with
  | nil => simp [env.DefineTag] at h
  | cons a rest =>
    cases hk : w.maps a key with
    | none =>
      simp [env.DefineTag, hk] at h
      exact ⟨a, rest, rfl, hk, h.symm⟩
    | some u => simp [env.DefineTag, hk] at h

theorem defineTags_cons_tag {loc : env.Environment} {x : Instance} {rest : List Instance}
    {w w2 : World} (hx : InstanceOf .Cons x = false)
    (h : defineTags loc (x :: rest) w = .ok (true, w2)) :
    ∃ w1, env.DefineTag loc.TagbodyTag x (GeneralVector rest) w = .ok (true, w1) ∧
      defineTags loc rest w1 = .ok (true, w2) := by
  simp only [defineTags, hx, Bool.not_false, if_true] at h
  cases hd : env.DefineTag loc.TagbodyTag x (GeneralVector rest) w with
  | error e => rw [hd] at h; cases h
  | ok r =>
    obtain ⟨b, w1⟩ := r
    rw [hd] at h
    cases b with
    | false => simp at h
    | true => exact ⟨w1, rfl, h⟩

theorem defineTags_cons_form {loc : env.Environment} {x : Instance} {rest : List Instance}
    {w : World} (hx : InstanceOf .Cons x = true) :
    defineTags loc (x :: rest) w = defineTags loc rest w := by
  simp [defineTags, hx]

theorem defineTags_preserves {loc : env.Environment} {a : Nat} {st : List Nat}
    (hst : loc.TagbodyTag = a :: st) (xs : List Instance) :
    ∀ w w1, defineTags loc xs w = .ok (true, w1) →
      ∀ key v, w.maps a key = some v → w1.maps a key = some v := by
  induction xs with
  | nil =>
    intro w w1 h key v hk
    simp [defineTags] at h
    subst h
    exact hk
  | cons x rest ih =>
    intro w w1 h key v hk
    by_cases hx : InstanceOf .Cons x = true
    · rw [defineTags_cons_form hx] at h
      exact ih w w1 h key v hk
    · have hx' : InstanceOf .Cons x = false := by simpa using hx
      obtain ⟨wm, hd, hrest⟩ := defineTags_cons_tag hx' h
      obtain ⟨b, rest', hs, hnone, hwm⟩ := defineTag_true hd
      rw [hst] at hs
      cases hs
      have hne : key ≠ x := by
        rintro rfl
        rw [hnone] at hk
        cases hk
      refine ih wm w1 hrest key v ?_
      rw [hwm, World.store_maps_other_key w a _ hne]
      exact hk

theorem defineTags_stack {loc : env.Environment} {L : Instance} {after : List Instance}
    (hL : InstanceOf .Cons L = false) (bl : List Instance) :
    ∀ w w1, defineTags loc (bl ++ L :: after) w = .ok (true, w1) →
      ∃ a st, loc.TagbodyTag = a :: st := by
  induction bl with
  | nil =>
    intro w w1 h
    obtain ⟨wm, hd, _⟩ := defineTags_cons_tag hL h
    obtain ⟨a, st, hs, _, _⟩ := defineTag_true hd
    exact ⟨a, st, hs⟩
  | cons x rest ih =>
    intro w w1 h
    by_cases hx : InstanceOf .Cons x = true
    · rw [List.cons_append, defineTags_cons_form hx] at h
      exact ih w w1 h
    · have hx' : InstanceOf .Cons x = false := by simpa using hx
      obtain ⟨wm, hd, _⟩ := defineTags_cons_tag hx' h
      obtain ⟨a, st, hs, _, _⟩ := defineTag_true hd
      exact ⟨a, st, hs⟩

theorem defineTags_binds {loc : env.Environment} {a : Nat} {st : List Nat}
    (hst : loc.TagbodyTag = a :: st) {L : Instance} {after : List Instance}
    (hL : InstanceOf .Cons L = false) (bl : List Instance) :
    ∀ w w1, defineTags loc (bl ++ L :: after) w = .ok (true, w1) →
      w1.maps a L = some (GeneralVector after) := by
  induction bl with
  | nil =>
    intro w w1 h
    obtain ⟨wm, hd, hrest⟩ := defineTags_cons_tag hL h
    obtain ⟨b, rest', hs, _, hwm⟩ := defineTag_true hd
    rw [hst] at hs
    cases hs
    refine defineTags_preserves hst after wm w1 hrest L _ ?_
    rw [hwm]
    exact World.store_maps_same w a L _
  | cons x rest ih =>
    intro w w1 h
    by_cases hx : InstanceOf .Cons x = true
    · rw [List.cons_append, defineTags_cons_form hx] at h
      exact ih w w1 h
    · have hx' : InstanceOf .Cons x = false := by simpa using hx
      obtain ⟨wm, _, hrest⟩ := defineTags_cons_tag hx' h
      exact ih wm w1 hrest

/-- After the first loop of `Tagbody` has succeeded, each tag of the body is
bound, in the tagbody namespace, to the vector of the items that follow it. -/
theorem defineTags_get {loc : env.Environment} {L : Instance} {bl after : List Instance}
    {w w1 : World} (hL : InstanceOf .Cons L = false)
    (h : defineTags loc (bl ++ L :: after) w = .ok (true, w1)) :
    env.Get loc.TagbodyTag L w1 = (GeneralVector after, true) := by
  obtain ⟨a, st, hst⟩ := defineTags_stack hL bl w w1 h
  have hb := defineTags_binds hst hL bl w w1 h
  rw [env.Get, hst]
  exact environment.scanGet_cons_some st hb

theorem transfer_completes (Eval : Evaluator) (loc : env.Environment) (body : List Instance)
    (fuel : Nat) {fail L : Instance} {after : List Instance} {w w1 : World}
    (hkind : InstanceOf .TagbodyTag fail = true) (htag : (GetSlotValue fail "TAG").1 = L)
    (hmem : L ∈ body) (hget : env.Get loc.TagbodyTag L w = (GeneralVector after, true))
    (hrun : RunsForms Eval loc after w w1) :
    transfer Eval loc body (fuel + 1) fail w = .ok ((Nil, .nil), w1) := by
  have hfound : body.any (fun tag1 => decide (L = tag1)) = true := by
    rw [List.any_eq_true]
    exact ⟨L, hmem, by simp⟩
  simp only [transfer, hkind, htag, hfound, hget, if_true, GeneralVector, toList_ofList,
    evalForms_of_runs Eval loc hrun]
  simp

theorem transfer_again (Eval : Evaluator) (loc : env.Environment) (body : List Instance)
    (fuel : Nat) {fail L : Instance} {after pre post : List Instance} {w w1 w2 : World}
    {f v fail1 : Instance}
    (hkind : InstanceOf .TagbodyTag fail = true) (htag : (GetSlotValue fail "TAG").1 = L)
    (hmem : L ∈ body) (hget : env.Get loc.TagbodyTag L w = (GeneralVector after, true))
    (hafter : after = pre ++ f :: post) (hpre : RunsForms Eval loc pre w w1)
    (hcons : InstanceOf .Cons f = true) (hf : Eval loc f w1 = .ok ((v, fail1), w2))
    (hne : fail1 ≠ .nil) :
    transfer Eval loc body (fuel + 1) fail w = transfer Eval loc body fuel fail1 w2 := by
  have hfound : body.any (fun tag1 => decide (L = tag1)) = true := by
    rw [List.any_eq_true]
    exact ⟨L, hmem, by simp⟩
  subst hafter
  simp only [transfer, hkind, htag, hfound, hget, if_true, GeneralVector, toList_ofList,
    evalForms_condition Eval loc hpre hcons hf hne post]
  simp [hne]

end runtime

namespace runtime

theorem transfers_kind {Eval : Evaluator} {loc : env.Environment} {body : List Instance}
    {w1 : World} {n : Nat} {fail : Instance} {w w2 : World}
    (h : Transfers Eval loc body w1 n fail w w2) : InstanceOf .TagbodyTag fail = true := by
  cases h with
  | last hk => exact hk
  | next hk => exact hk

theorem transfer_of_transfers {Eval : Evaluator} {loc : env.Environment}
    {body : List Instance} {w0 w1 : World} (hdef : defineTags loc body w0 = .ok (true, w1))
    {n : Nat} {fail : Instance} {w w2 : World}
    (h : Transfers Eval loc body w1 n fail w w2) :
    ∀ fuel, n ≤ fuel → transfer Eval loc body fuel fail w = .ok ((Nil, .nil), w2) := by
  induction h with
  | @last fail L bl after w w2 hk ht hbody hL hget hrun =>
    intro fuel hfuel
    obtain ⟨k, rfl⟩ : ∃ k, fuel = k + 1 := ⟨fuel - 1, by omega⟩
    have hmem : L ∈ body := by rw [hbody]; simp
    have hbind : env.Get loc.TagbodyTag L w = (GeneralVector after, true) := by
      rw [hget]
      rw [hbody] at hdef
      exact defineTags_get hL hdef
    exact transfer_completes Eval loc body k hk ht hmem hbind hrun
  | @next n fail L f v fail1 bl after pre post w wa wb w2 hk ht hbody hL hget hafter hpre
      hcons hf hrest ih =>
    intro fuel hfuel
    obtain ⟨k, rfl⟩ : ∃ k, fuel = k + 1 := ⟨fuel - 1, by omega⟩
    have hmem : L ∈ body := by rw [hbody]; simp
    have hbind : env.Get loc.TagbodyTag L w = (GeneralVector after, true) := by
      rw [hget]
      rw [hbody] at hdef
      exact defineTags_get hL hdef
    have hne : fail1 ≠ .nil := ne_nil_of_instanceOf (transfers_kind hrest)
    rw [transfer_again Eval loc body k hk ht hmem hbind hafter hpre hcons hf hne]
    exact ih k (by omega)

/-- C3: let the tags of `body` be defined without error, the forms before
`f` complete normally, and `f` yield a TagbodyTag escape naming a tag `L` of
`body`, whose binding the evaluation has left as defined (`Transfers`).  Then
`Tagbody` evaluates nothing between `f` and `L`: it goes on in the world left
by `f` with the `Cons` forms that follow `L`, in order, the same way at every
further `go`, and returns `Nil` with no condition once they complete, in the
world they leave.  A tagbody whose forms all complete normally returns `Nil`.
The form `(catch 'foo (tagbody (go bar) (throw 'foo 1) bar))` of the test
yields `Nil`: the throw, which would make the catch return 1, is not
evaluated. -/
theorem tagbody_go_transfers :
    (∀ (Eval : Evaluator) (loc : env.Environment) (body pre post : List Instance)
        (f v fail : Instance) (w w1 w2 w3 w4 : World) (n fuel : Nat),
      defineTags loc body w = .ok (true, w1) → body = pre ++ f :: post →
      RunsForms Eval loc pre w1 w2 → InstanceOf .Cons f = true →
      Eval loc f w2 = .ok ((v, fail), w3) →
      Transfers Eval loc body w1 n fail w3 w4 → n ≤ fuel →
      Tagbody Eval fuel loc body w = .ok ((Nil, .nil), w4)) ∧
    (∀ (Eval : Evaluator) (loc : env.Environment) (body : List Instance) (w w1 w2 : World)
        (fuel : Nat),
      defineTags loc body w = .ok (true, w1) → RunsForms Eval loc body w1 w2 →
      Tagbody Eval fuel loc body w = .ok ((Nil, .nil), w2)) ∧
    outcome (Eval 8 sampleLocal sampleGlobal tagbodyTest1 emptyWorld) = some (Nil, .nil) := by
  refine ⟨?_, ?_, by rfl⟩
  · intro Eval loc body pre post f v fail w w1 w2 w3 w4 n fuel hdef hbody hpre hcons hf htr hfuel
    have hne : fail ≠ .nil := ne_nil_of_instanceOf (transfers_kind htr)
    have hev : evalForms Eval loc body w1 = .ok (fail, w3) := by
      rw [hbody]
      exact evalForms_condition Eval loc hpre hcons hf hne post
    simp only [Tagbody, hdef, hev, hne, ne_eq, not_false_eq_true, if_true]
    exact transfer_of_transfers hdef htr fuel hfuel
  · intro Eval loc body w w1 w2 fuel hdef hrun
    simp [Tagbody, hdef, evalForms_of_runs Eval loc hrun]

end runtime

namespace runtime

/-- Witness of C3: in `(tagbody (go bar) (throw 'foo 1) bar)` the `go` transfers
control past the throw and the tagbody returns `Nil`; the world it leaves
holds the tag table only. -/
theorem tagbody_go_transfers_witness :
    Tagbody sampleEval 1 sampleLocal
        [list [sym "GO", sym "BAR"], list [sym "THROW", quoted (sym "FOO"), .integer 1],
          sym "BAR"] emptyWorld
      = .ok ((Nil, .nil), emptyWorld.store 1 (sym "BAR") (GeneralVector [])) :=
  tagbody_go_transfers.1 sampleEval sampleLocal
    [list [sym "GO", sym "BAR"], list [sym "THROW", quoted (sym "FOO"), .integer 1], sym "BAR"]
    [] [list [sym "THROW", quoted (sym "FOO"), .integer 1], sym "BAR"]
    (list [sym "GO", sym "BAR"]) .nil (NewTagbodyTag (sym "BAR"))
    emptyWorld (emptyWorld.store 1 (sym "BAR") (GeneralVector []))
    (emptyWorld.store 1 (sym "BAR") (GeneralVector []))
    (emptyWorld.store 1 (sym "BAR") (GeneralVector []))
    (emptyWorld.store 1 (sym "BAR") (GeneralVector [])) 1 1
    rfl rfl (.nil _) rfl rfl
    (@Transfers.last _ _ _ _ _ (sym "BAR")
      [list [sym "GO", sym "BAR"], list [sym "THROW", quoted (sym "FOO"), .integer 1]]
      [] _ _ rfl rfl rfl rfl rfl (.nil _))
    (Nat.le_refl 1)

end runtime

/-! ## Theorems: lambda lists -/

namespace ilos

/-- Induction along the cdr chain of an instance. -/
theorem Instance.cdr_induction {P : Instance → Prop} (hcons : ∀ a b, P b → P (.cons a b))
    (hnull : P .null)
    (hatom : ∀ x, x ≠ .null → (∀ a b, x ≠ .cons a b) → P x) : ∀ x, P x
  | .cons a b => hcons a b (Instance.cdr_induction hcons hnull hatom b)
  | .null => hnull
  | .nil => hatom _ (by simp) (by simp)
  | .symbol _ => hatom _ (by simp) (by simp)
  | .integer _ => hatom _ (by simp) (by simp)
  | .float _ => hatom _ (by simp) (by simp)
  | .character _ => hatom _ (by simp) (by simp)
  | .string _ => hatom _ (by simp) (by simp)
  | .generalVector _ => hatom _ (by simp) (by simp)
  | .function _ => hatom _ (by simp) (by simp)
  | .classObject _ => hatom _ (by simp) (by simp)
  | .standard _ _ => hatom _ (by simp) (by simp)

theorem list_eq_null_iff (ss : List Instance) : list ss = .null ↔ ss = [] := by
  cases ss with
  | nil => simp [list_nil]
  | cons s ss => simp [list_cons]

theorem list_eq_cons_iff (ss : List Instance) (a b : Instance) :
    list ss = .cons a b ↔ ∃ ss1, ss = a :: ss1 ∧ b = list ss1 := by
  cases ss with
  | nil => simp [list_nil]
  | cons s ss =>
    simp only [list_cons, Instance.cons.injEq, List.cons.injEq]
    constructor
    · rintro ⟨rfl, rfl⟩; exact ⟨ss, ⟨rfl, rfl⟩, rfl⟩
    · rintro ⟨ss1, ⟨rfl, rfl⟩, rfl⟩; exact ⟨rfl, rfl⟩

theorem list_ne_atom (ss : List Instance) {x : Instance} (hn : x ≠ .null)
    (hc : ∀ a b, x ≠ .cons a b) : x ≠ list ss := by
  cases ss with
  | nil => simpa [list_nil] using hn
  | cons s ss => simpa [list_cons] using hc s (list ss)

end ilos

namespace runtime

theorem programError_ne_nil : New .ProgramError [] ≠ .nil := by
  simp [New]

theorem restMarker_symbol {m : Instance} (h : IsRestMarker m) : InstanceOf .Symbol m = true := by
  rcases h with rfl | rfl <;> rfl

theorem not_parameter_of_marker {m : Instance} (h : IsRestMarker m) : ¬ IsParameter m := by
  rintro ⟨_, h1, h2⟩
  rcases h with rfl | rfl
  · exact h1 rfl
  · exact h2 rfl

theorem scanLambdaList_atom {x : Instance} (hc : ∀ a b, x ≠ .cons a b) :
    scanLambdaList x = (x, false) := by
  cases x with
  | cons a b => exact absurd rfl (hc a b)
  | _ => rfl

theorem checkLambdaList_null : checkLambdaList .null = .nil := by
  simp [checkLambdaList, scanLambdaList, Nil]

theorem checkLambdaList_atom {x : Instance} (hn : x ≠ .null) (hc : ∀ a b, x ≠ .cons a b) :
    checkLambdaList x = New .ProgramError [] := by
  simp [checkLambdaList, scanLambdaList_atom hc, Nil, hn]

theorem checkLambdaList_nonsymbol {a : Instance} (b : Instance)
    (ha : InstanceOf .Symbol a = false) :
    checkLambdaList (.cons a b) = New .ProgramError [] := by
  simp [checkLambdaList, scanLambdaList, ha, Nil]

theorem checkLambdaList_parameter {a : Instance} (b : Instance) (ha : IsParameter a) :
    checkLambdaList (.cons a b) = checkLambdaList b := by
  obtain ⟨hs, h1, h2⟩ := ha
  simp [checkLambdaList, scanLambdaList, hs, h1, h2]

theorem checkLambdaList_marker {a : Instance} (b : Instance) (ha : IsRestMarker a) :
    checkLambdaList (.cons a b) = .nil ↔ ∃ r, b = .cons r .null ∧ InstanceOf .Symbol r = true := by
  have hs := restMarker_symbol ha
  have hm : a = .symbol ":REST" ∨ a = .symbol "&REST" := ha
  constructor
  · intro h
    by_cases hb : InstanceOf .Cons b = true
    · obtain ⟨r, t, rfl⟩ := (instanceOf_cons_iff b).1 hb
      by_cases hr : InstanceOf .Symbol r = true
      · by_cases ht : InstanceOf .Null t = true
        · have := (instanceOf_null_iff t).1 ht
          subst this
          exact ⟨r, rfl, hr⟩
        · simp [checkLambdaList, scanLambdaList, hs, hm, hb, hr, ht, UnsafeCar, UnsafeCdr, Nil,
            programError_ne_nil] at h
      · simp [checkLambdaList, scanLambdaList, hs, hm, hb, hr, UnsafeCar, UnsafeCdr, Nil,
          programError_ne_nil] at h
    · simp [checkLambdaList, scanLambdaList, hs, hm, hb, Nil, programError_ne_nil] at h
  · rintro ⟨r, rfl, hr⟩
    have hb : InstanceOf .Cons (.cons r .null) = true := rfl
    have hn : InstanceOf .Null .null = true := rfl
    simp [checkLambdaList, scanLambdaList, hs, hm, hb, hr, hn, UnsafeCar, UnsafeCdr]

theorem checkLambdaList_nil_or_error (ll : Instance) :
    checkLambdaList ll = .nil ∨ checkLambdaList ll = New .ProgramError [] := by
  unfold checkLambdaList
  generalize scanLambdaList ll = p
  obtain ⟨cdr, ok⟩ := p
  cases ok <;> by_cases h : cdr = Nil <;> simp [h]

theorem wellFormed_null : WellFormedLambdaList .null :=
  Or.inl ⟨[], rfl, by simp⟩

theorem wellFormed_atom {x : Instance} (hn : x ≠ .null) (hc : ∀ a b, x ≠ .cons a b) :
    ¬ WellFormedLambdaList x := by
  rintro (⟨ss, h, _⟩ | ⟨ss, m, r, h, _⟩)
  · exact list_ne_atom ss hn hc h
  · exact list_ne_atom _ hn hc h

theorem wellFormed_cons_parameter {a : Instance} (b : Instance) (ha : IsParameter a) :
    WellFormedLambdaList (.cons a b) ↔ WellFormedLambdaList b := by
  constructor
  · rintro (⟨ss, h, hall⟩ | ⟨ss, m, r, h, hall, hm, hr⟩)
    · obtain ⟨ss1, rfl, rfl⟩ := (list_eq_cons_iff ss a b).1 h.symm
      exact Or.inl ⟨ss1, rfl, fun s hs => hall s (by simp [hs])⟩
    · cases ss with
      | nil =>
        obtain ⟨ss1, h1, _⟩ := (list_eq_cons_iff _ a b).1 h.symm
        simp at h1
        obtain ⟨rfl, _⟩ := h1
        exact absurd ha (not_parameter_of_marker hm)
      | cons s ss1 =>
        obtain ⟨ss2, h1, rfl⟩ := (list_eq_cons_iff _ a b).1 h.symm
        simp at h1
        obtain ⟨rfl, rfl⟩ := h1
        exact Or.inr ⟨ss1, m, r, rfl, fun s hs => hall s (by simp [hs]), hm, hr⟩
  · rintro (⟨ss, rfl, hall⟩ | ⟨ss, m, r, rfl, hall, hm, hr⟩)
    · refine Or.inl ⟨a :: ss, rfl, ?_⟩
      intro s hs
      rcases List.mem_cons.1 hs with rfl | hs
      · exact ha
      · exact hall s hs
    · refine Or.inr ⟨a :: ss, m, r, rfl, ?_, hm, hr⟩
      intro s hs
      rcases List.mem_cons.1 hs with rfl | hs
      · exact ha
      · exact hall s hs

theorem wellFormed_cons_marker {a : Instance} (b : Instance) (ha : IsRestMarker a) :
    WellFormedLambdaList (.cons a b) ↔
      ∃ r, b = .cons r .null ∧ InstanceOf .Symbol r = true := by
  constructor
  · rintro (⟨ss, h, hall⟩ | ⟨ss, m, r, h, hall, hm, hr⟩)
    · obtain ⟨ss1, rfl, rfl⟩ := (list_eq_cons_iff ss a b).1 h.symm
      exact absurd (hall _ (List.mem_cons_self _ _)) (not_parameter_of_marker ha)
    · cases ss with
      | nil =>
        obtain ⟨ss1, h1, rfl⟩ := (list_eq_cons_iff _ a b).1 h.symm
        simp at h1
        obtain ⟨rfl, rfl⟩ := h1
        exact ⟨r, rfl, hr⟩
      | cons s ss1 =>
        obtain ⟨ss2, h1, rfl⟩ := (list_eq_cons_iff _ a b).1 h.symm
        simp at h1
        obtain ⟨rfl, rfl⟩ := h1
        exact absurd (hall _ (List.mem_cons_self _ _)) (not_parameter_of_marker ha)
  · rintro ⟨r, rfl, hr⟩
    exact Or.inr ⟨[], a, r, rfl, by simp, ha, hr⟩

theorem wellFormed_cons_nonsymbol {a : Instance} (b : Instance)
    (ha : InstanceOf .Symbol a = false) : ¬ WellFormedLambdaList (.cons a b) := by
  rintro (⟨ss, h, hall⟩ | ⟨ss, m, r, h, hall, hm, hr⟩)
  · obtain ⟨ss1, rfl, rfl⟩ := (list_eq_cons_iff ss a b).1 h.symm
    have := (hall _ (List.mem_cons_self _ _)).1
    rw [ha] at this
    cases this
  · cases ss with
    | nil =>
      obtain ⟨ss1, h1, _⟩ := (list_eq_cons_iff _ a b).1 h.symm
      simp at h1
      obtain ⟨rfl, _⟩ := h1
      have := restMarker_symbol hm
      rw [ha] at this
      cases this
    | cons s ss1 =>
      obtain ⟨ss2, h1, _⟩ := (list_eq_cons_iff _ a b).1 h.symm
      simp at h1
      obtain ⟨rfl, _⟩ := h1
      have := (hall _ (List.mem_cons_self _ _)).1
      rw [ha] at this
      cases this

theorem checkLambdaList_iff (ll : Instance) :
    checkLambdaList ll = .nil ↔ WellFormedLambdaList ll := by
  induction ll using Instance.cdr_induction with
  | hnull => exact ⟨fun _ => wellFormed_null, fun _ => checkLambdaList_null⟩
  | hatom x hn hc =>
    rw [checkLambdaList_atom hn hc]
    exact ⟨fun h => absurd h programError_ne_nil, fun h => absurd h (wellFormed_atom hn hc)⟩
  | hcons a b ih =>
    by_cases hs : InstanceOf .Symbol a = true
    · by_cases hm : IsRestMarker a
      · rw [checkLambdaList_marker b hm, wellFormed_cons_marker b hm]
      · have hp : IsParameter a :=
          ⟨hs, fun h => hm (Or.inl h), fun h => hm (Or.inr h)⟩
        rw [checkLambdaList_parameter b hp, wellFormed_cons_parameter b hp]
        exact ih
    · have hs' : InstanceOf .Symbol a = false := by simpa using hs
      rw [checkLambdaList_nonsymbol b hs']
      exact ⟨fun h => absurd h programError_ne_nil,
        fun h => absurd h (wellFormed_cons_nonsymbol b hs')⟩

end runtime

namespace runtime

theorem Lambda_error (loc global : env.Environment) (ll : Instance) (form : List Instance)
    (w : World) (h : checkLambdaList ll ≠ .nil) :
    Lambda loc global ll form w = ((.nil, checkLambdaList ll), w) := by
  simp [Lambda, h]

theorem Lambda_ok (loc global : env.Environment) (ll : Instance) (form : List Instance)
    (w : World) (h : checkLambdaList ll = .nil) :
    Lambda loc global ll form w =
      ((.function w.nextFunction, .nil),
        (newNamedFunction loc global (.symbol "ANONYMOUS-FUNCTION") ll form w).2) := by
  simp [Lambda, h, newNamedFunction]

theorem newNamedFunction_functions (loc global : env.Environment) (name ll : Instance)
    (form : List Instance) (w : World) :
    (newNamedFunction loc global name ll form w).2.functions w.nextFunction =
      some { name := name, lambdaList := ll, body := form, loc := loc, global := global } := by
  simp [newNamedFunction]

/-- C5: `checkLambdaList` returns no error exactly on the well-formed lambda
lists (a proper list of symbols other than the rest markers, optionally ended
by a rest marker and one symbol); on every other value it returns a program
error, and `Lambda` then returns that error with no value and leaves the
world, hence the function objects, as they were; on a well-formed list
`Lambda` returns a new function object holding the list and the body.  The
six ill-formed shapes named by the claim are rejected: a non-list, a dotted
tail, a non-symbol element, a rest marker followed by nothing, by a
non-symbol, and by two elements. -/
theorem checkLambdaList_accepts_exactly_wellFormed :
    (∀ ll, checkLambdaList ll = .nil ↔ WellFormedLambdaList ll) ∧
    (∀ ll, ¬ WellFormedLambdaList ll → checkLambdaList ll = New .ProgramError []) ∧
    InstanceOf .ProgramError (New .ProgramError []) = true ∧
    (∀ loc global ll form w, ¬ WellFormedLambdaList ll →
      Lambda loc global ll form w = ((.nil, New .ProgramError []), w)) ∧
    (∀ loc global ll form w, WellFormedLambdaList ll →
      ∃ r w1, Lambda loc global ll form w = ((.function r, .nil), w1) ∧
        w1.functions r = some { name := .symbol "ANONYMOUS-FUNCTION", lambdaList := ll,
                                body := form, loc := loc, global := global }) ∧
    (checkLambdaList (.integer 1) = New .ProgramError [] ∧
     checkLambdaList (.cons (sym "X") (sym "Y")) = New .ProgramError [] ∧
     checkLambdaList (list [sym "X", .integer 1]) = New .ProgramError [] ∧
     checkLambdaList (list [sym "X", sym ":REST"]) = New .ProgramError [] ∧
     checkLambdaList (list [sym "&REST", .integer 1]) = New .ProgramError [] ∧
     checkLambdaList (list [sym ":REST", sym "A", sym "B"]) = New .ProgramError []) := by
  have herr : ∀ ll, ¬ WellFormedLambdaList ll → checkLambdaList ll = New .ProgramError [] := by
    intro ll hwf
    rcases checkLambdaList_nil_or_error ll with h | h
    · exact absurd ((checkLambdaList_iff ll).1 h) hwf
    · exact h
  refine ⟨checkLambdaList_iff, herr, rfl, ?_, ?_, by decide⟩
  · intro loc global ll form w hwf
    have h := herr ll hwf
    rw [Lambda_error loc global ll form w (by rw [h]; exact programError_ne_nil), h]
  · intro loc global ll form w hwf
    have h := (checkLambdaList_iff ll).2 hwf
    exact ⟨w.nextFunction, _, Lambda_ok loc global ll form w h,
      newNamedFunction_functions loc global _ ll form w⟩

theorem sample_lambdaList_wellFormed :
    WellFormedLambdaList (list [sym "X", sym ":REST", sym "XS"]) := by
  refine Or.inr ⟨[sym "X"], sym ":REST", sym "XS", rfl, ?_, Or.inl rfl, rfl⟩
  intro s hs
  rw [List.mem_singleton] at hs
  subst hs
  exact ⟨rfl, by decide, by decide⟩

theorem sample_lambdaList_illFormed :
    ¬ WellFormedLambdaList (list [sym ":REST", sym "A", sym "B"]) := by
  intro h
  have := (checkLambdaList_iff _).2 h
  revert this
  decide

/-- Witness of C5: `(x :rest xs)` is accepted and `Lambda` makes a function
object of it; `(:rest a b)` is rejected and `Lambda` makes none. -/
theorem checkLambdaList_accepts_exactly_wellFormed_witness :
    (∃ r w1, Lambda sampleLocal sampleGlobal (list [sym "X", sym ":REST", sym "XS"])
        [sym "X"] emptyWorld = ((.function r, .nil), w1) ∧
      w1.functions r = some { name := .symbol "ANONYMOUS-FUNCTION",
                              lambdaList := list [sym "X", sym ":REST", sym "XS"],
                              body := [sym "X"], loc := sampleLocal, global := sampleGlobal }) ∧
    Lambda sampleLocal sampleGlobal (list [sym ":REST", sym "A", sym "B"]) [sym "A"] emptyWorld
      = ((.nil, New .ProgramError []), emptyWorld) :=
  ⟨checkLambdaList_accepts_exactly_wellFormed.2.2.2.2.1 sampleLocal sampleGlobal _ [sym "X"]
      emptyWorld sample_lambdaList_wellFormed,
   checkLambdaList_accepts_exactly_wellFormed.2.2.2.1 sampleLocal sampleGlobal _ [sym "A"]
      emptyWorld sample_lambdaList_illFormed⟩

end runtime

/-! ## Theorems: apply and funcall -/

namespace runtime

theorem isProperList_list (ls : List Instance) : isProperList (list ls) = true := by
  induction ls with
  | nil => rfl
  | cons x xs ih => simpa [list_cons, isProperList] using ih

theorem instanceOf_list_list (ls : List Instance) : InstanceOf .List (list ls) = true := by
  cases ls <;> rfl

theorem Apply_final_list (applicable : Applicable) (loc global : env.Environment)
    (f : Instance) (os ls : List Instance) (w : World) (hf : InstanceOf .Function f = true) :
    Apply applicable loc global f (os ++ [list ls]) w =
      applicable f loc global (list (os ++ ls)) w := by
  simp [Apply, instanceOf_list_list, isProperList_list, hf, listFrom_list]

/-- C6: for a function `f`, objects `os` and a proper list `list ls` passed as
the final argument, `Apply` is one call of the `Apply` method of `f` on the
list of the elements of `os`, in order, followed by the elements of `ls`, in
order; what `Apply` returns (value, condition and world) is what that call
returns. -/
theorem apply_prepends_objects (applicable : Applicable) (loc global : env.Environment)
    (f : Instance) (os ls : List Instance) (w : World) (hf : InstanceOf .Function f = true) :
    Apply applicable loc global f (os ++ [list ls]) w =
      applicable f loc global (list (os ++ ls)) w :=
  Apply_final_list applicable loc global f os ls w hf

/-- Witness of C6: applying the function object of `(lambda (:rest xs) xs)` to
the object 1 and the final list `(2 3)` is one call of its method on `(1 2 3)`. -/
theorem apply_prepends_objects_witness :
    Apply (applyMethod (Eval 8)) sampleLocal sampleGlobal (.function 0)
        ([.integer 1] ++ [list [.integer 2, .integer 3]]) restWorld =
      applyMethod (Eval 8) (.function 0) sampleLocal sampleGlobal
        (list ([.integer 1] ++ [.integer 2, .integer 3])) restWorld :=
  apply_prepends_objects (applyMethod (Eval 8)) sampleLocal sampleGlobal (.function 0)
    [.integer 1] [.integer 2, .integer 3] restWorld rfl

/-- C7 fails on the code: `Funcall` hands its objects to `Apply` as they are,
so with no object the index `obj[len(obj)-1]` is out of range, and a last
object that is a list is taken for the final list of `Apply` and spread: the
function of `(lambda (:rest xs) xs)` called by `Funcall` on the two objects
`1` and `(2 3)` receives the three arguments `(1 2 3)`, not `(1 (2 3))`. -/
theorem funcall_spreads_last_list :
    (∀ (applicable : Applicable) (loc global : env.Environment) (f : Instance) (w : World),
      Funcall applicable loc global f [] w = .error .panic) ∧
    outcome (Funcall (applyMethod (Eval 8)) sampleLocal sampleGlobal (.function 0)
        [.integer 1, list [.integer 2, .integer 3]] restWorld) =
      some (list [.integer 1, .integer 2, .integer 3], .nil) ∧
    list [.integer 1, .integer 2, .integer 3] ≠
      list [.integer 1, list [.integer 2, .integer 3]] :=
  ⟨fun _ _ _ _ _ => rfl, by rfl, by decide⟩

end runtime

/-! ## Theorems: the binding of a lambda list -/

namespace runtime

theorem bindParameters_fixed (frame : Nat) (params : List Instance)
    (hp : ∀ p ∈ params, IsParameter p) :
    ∀ (as : List Instance) (w : World),
      bindParameters frame (list params) (list as) w =
        if as.length = params.length then some (bindFixed frame params as w) else none := by
  induction params with
  | nil =>
    intro as w
    cases as with
    | nil => simp [bindParameters, list_nil, Nil, bindFixed]
    | cons a as => simp [bindParameters, list_nil, list_cons, Nil]
  | cons p ps ih =>
    intro as w
    obtain ⟨_, h1, h2⟩ := hp p (by simp)
    have ihp := ih (fun q hq => hp q (by simp [hq]))
    cases as with
    | nil => simp [bindParameters, list_nil, list_cons, h1, h2]
    | cons a as =>
      simp only [list_cons, bindParameters, h1, h2, or_self, if_false, bindFixed,
        List.length_cons, add_left_inj]
      exact ihp as _

theorem bindParameters_rest (frame : Nat) (params : List Instance) (m r : Instance)
    (hp : ∀ p ∈ params, IsParameter p) (hm : IsRestMarker m) :
    ∀ (as : List Instance) (w : World),
      bindParameters frame (list (params ++ [m, r])) (list as) w =
        if params.length ≤ as.length then
          some ((bindFixed frame params as w).store frame r (list (as.drop params.length)))
        else none := by
  have hm' : m = .symbol ":REST" ∨ m = .symbol "&REST" := hm
  induction params with
  | nil =>
    intro as w
    cases as <;> simp [bindParameters, list_cons, hm', UnsafeCar, bindFixed]
  | cons p ps ih =>
    intro as w
    obtain ⟨_, h1, h2⟩ := hp p (by simp)
    have ihp := ih (fun q hq => hp q (by simp [hq]))
    cases as with
    | nil => simp [bindParameters, list_nil, list_cons, h1, h2]
    | cons a as =>
      simp only [List.cons_append, list_cons, bindParameters, h1, h2, or_self, if_false,
        bindFixed, List.length_cons, add_le_add_iff_right, List.drop_succ_cons]
      exact ihp as _

theorem bindFixed_preserves (frame : Nat) (params : List Instance) (key : Instance)
    (hk : key ∉ params) :
    ∀ (as : List Instance) (w : World),
      (bindFixed frame params as w).maps frame key = w.maps frame key := by
  induction params with
  | nil => intro as w; rfl
  | cons p ps ih =>
    intro as w
    cases as with
    | nil => rfl
    | cons a as =>
      have hne : key ≠ p := fun h => hk (by simp [h])
      have hps : key ∉ ps := fun h => hk (by simp [h])
      simp only [bindFixed]
      rw [ih hps as _, World.store_maps_other_key w frame a hne]

theorem bindFixed_get (frame : Nat) (params : List Instance) :
    ∀ (as : List Instance) (w : World) (i : Nat) (hp : i < params.length) (ha : i < as.length),
      (∀ j (hj : j < params.length), i < j → params[j] ≠ params[i]) →
      (bindFixed frame params as w).maps frame params[i] = some as[i] := by
  induction params with
  | nil => intro as w i hp; simp at hp
  | cons p ps ih =>
    intro as w i hp ha hlater
    cases as with
    | nil => simp at ha
    | cons a as =>
      cases i with
      | zero =>
        have hnot : p ∉ ps := by
          intro hmem
          obtain ⟨j, hj, hjp⟩ := List.getElem_of_mem hmem
          exact hlater (j + 1) (by simpa using hj) (by omega) (by simpa using hjp)
        simp only [bindFixed, List.getElem_cons_zero]
        rw [bindFixed_preserves frame ps p hnot as _]
        exact World.store_maps_same w frame p a
      | succ i =>
        simp only [bindFixed, List.getElem_cons_succ]
        refine ih as _ i (by simpa using hp) (by simpa using ha) ?_
        intro j hj hij
        have := hlater (j + 1) (by simpa using hj) (by omega)
        simpa using this

end runtime

namespace runtime

theorem applyMethod_function (Eval : Evaluator2) (r : Nat) (c : Closure)
    (l g : env.Environment) (args : Instance) (w : World) (h : w.functions r = some c) :
    applyMethod Eval (.function r) l g args w = applyClosure Eval c args w := by
  simp [applyMethod, h]

theorem applyClosure_arity (Eval : Evaluator2) (c : Closure) (args : Instance) (w : World)
    (h : bindParameters (alloc w).1 c.lambdaList args (alloc w).2 = none) :
    applyClosure Eval c args w = .ok ((.nil, NewArityError), (alloc w).2) := by
  simp [applyClosure, h]

theorem applyClosure_bound (Eval : Evaluator2) (c : Closure) (args : Instance) (w w3 : World)
    (h : bindParameters (alloc w).1 c.lambdaList args (alloc w).2 = some w3) :
    applyClosure Eval c args w =
      Progn (fun l f => Eval l c.global f) (callScope c w) c.body w3 := by
  simp [applyClosure, h, Progn, callScope]

theorem fixedBound_bindFixed (c : Closure) (params as : List Instance) (w : World) :
    FixedBound (callScope c w) params [] as (bindFixed (alloc w).1 params as (alloc w).2) := by
  intro i hp ha hlater _
  rw [env.Get, callScope]
  exact environment.scanGet_cons_some _ (bindFixed_get _ params as _ i hp ha hlater)

theorem fixedBound_bindFixed_rest (c : Closure) (params as : List Instance) (r v : Instance)
    (w : World) :
    FixedBound (callScope c w) params [r] as
      ((bindFixed (alloc w).1 params as (alloc w).2).store (alloc w).1 r v) := by
  intro i hp ha hlater hr
  have hne : params[i] ≠ r := fun h => hr (by simp [h])
  rw [env.Get, callScope]
  refine environment.scanGet_cons_some _ ?_
  rw [World.store_maps_other_key _ _ _ hne]
  exact bindFixed_get _ params as _ i hp ha hlater

/-- C4, for the apply method modelled from the spec: (0) `Lambda` on a
well-formed lambda list makes a function object whose application is that of
the closure over the list, the body and the environments; (i) with `k` fixed
parameters and no rest parameter, a call with `n ≠ k` arguments returns the
arity error (a ProgramError) without evaluating the body, and a call with
`n = k` arguments evaluates the body by `Progn` in the scope whose fresh frame
binds the parameters to the arguments in order; (ii) with a rest parameter, a
call with `n < k` arguments returns the arity error, and a call with `n ≥ k`
arguments evaluates the body in the scope where the fixed parameters are bound
to the first `k` arguments and the rest parameter to the list of the other
`n - k` (`Nil` when `n = k`); (iii) the body evaluated, the value of the last
form is returned, `Nil` for an empty body; (iv) the five calls of `TestLambda`
give the results the test expects. -/
theorem lambda_binds_arguments :
    (∀ (Eval : Evaluator2) (loc global : env.Environment) (ll : Instance)
        (body : List Instance) (w : World), WellFormedLambdaList ll →
      ∃ r w1, Lambda loc global ll body w = ((.function r, .nil), w1) ∧
        ∀ l g args w2, w2.functions r = w1.functions r →
          applyMethod Eval (.function r) l g args w2 =
            applyClosure Eval { name := .symbol "ANONYMOUS-FUNCTION", lambdaList := ll,
                                body := body, loc := loc, global := global } args w2) ∧
    (∀ (Eval : Evaluator2) (c : Closure) (params as : List Instance) (w : World),
      c.lambdaList = list params → (∀ p ∈ params, IsParameter p) →
      (as.length ≠ params.length →
        applyClosure Eval c (list as) w = .ok ((.nil, NewArityError), (alloc w).2)) ∧
      (as.length = params.length →
        applyClosure Eval c (list as) w =
          Progn (fun l f => Eval l c.global f) (callScope c w) c.body
            (bindFixed (alloc w).1 params as (alloc w).2) ∧
        FixedBound (callScope c w) params [] as
          (bindFixed (alloc w).1 params as (alloc w).2))) ∧
    (∀ (Eval : Evaluator2) (c : Closure) (params : List Instance) (m r : Instance)
        (as : List Instance) (w : World),
      c.lambdaList = list (params ++ [m, r]) → (∀ p ∈ params, IsParameter p) →
      IsRestMarker m →
      (as.length < params.length →
        applyClosure Eval c (list as) w = .ok ((.nil, NewArityError), (alloc w).2)) ∧
      (params.length ≤ as.length →
        applyClosure Eval c (list as) w =
          Progn (fun l f => Eval l c.global f) (callScope c w) c.body
            ((bindFixed (alloc w).1 params as (alloc w).2).store (alloc w).1 r
              (list (as.drop params.length))) ∧
        FixedBound (callScope c w) params [r] as
          ((bindFixed (alloc w).1 params as (alloc w).2).store (alloc w).1 r
            (list (as.drop params.length))) ∧
        env.Get (callScope c w).Variable r
          ((bindFixed (alloc w).1 params as (alloc w).2).store (alloc w).1 r
            (list (as.drop params.length))) = (list (as.drop params.length), true) ∧
        (as.length = params.length → list (as.drop params.length) = Nil))) ∧
    (∀ (ev : Evaluator) (scope : env.Environment) (body vs : List Instance) (w3 w4 : World),
      EvalsNormally ev scope body w3 vs w4 →
      Progn ev scope body w3 = .ok ((vs.getLastD Nil, .nil), w4)) ∧
    InstanceOf .ProgramError NewArityError = true ∧
    (outcome (Eval 8 sampleLocal sampleGlobal
        (list [lambdaForm [sym "X"] [], .integer 1]) emptyWorld) = some (Nil, .nil) ∧
     outcome (Eval 8 sampleLocal sampleGlobal
        (list [lambdaForm [sym ":REST", sym "XS"] [sym "XS"], .integer 1, .integer 2])
        emptyWorld) = some (list [.integer 1, .integer 2], .nil) ∧
     outcome (Eval 8 sampleLocal sampleGlobal
        (list [lambdaForm [sym ":REST", sym "XS"] [sym "XS"]]) emptyWorld) = some (Nil, .nil) ∧
     outcome (Eval 8 sampleLocal sampleGlobal
        (list [lambdaForm [sym "X"] [sym "X"], .integer 1, .integer 2]) emptyWorld)
        = some (.nil, NewArityError) ∧
     outcome (Eval 8 sampleLocal sampleGlobal
        (list [lambdaForm [sym "X", sym ":REST", sym "XS"] [sym "X"]]) emptyWorld)
        = some (.nil, NewArityError)) := by
  refine ⟨?_, ?_, ?_, ?_, rfl, by rfl, by rfl, by rfl, by rfl, by rfl⟩
  · intro Eval loc global ll body w hwf
    have h := (checkLambdaList_iff ll).2 hwf
    refine ⟨w.nextFunction, _, Lambda_ok loc global ll body w h, ?_⟩
    intro l g args w2 hw2
    rw [newNamedFunction_functions] at hw2
    exact applyMethod_function Eval _ _ l g args w2 hw2
  · intro Eval c params as w hll hp
    have hb := bindParameters_fixed (alloc w).1 params hp as (alloc w).2
    rw [← hll] at hb
    refine ⟨fun hne => ?_, fun heq => ⟨?_, fixedBound_bindFixed c params as w⟩⟩
    · rw [if_neg hne] at hb
      exact applyClosure_arity Eval c _ w hb
    · rw [if_pos heq] at hb
      exact applyClosure_bound Eval c _ w _ hb
  · intro Eval c params m r as w hll hp hm
    have hb := bindParameters_rest (alloc w).1 params m r hp hm as (alloc w).2
    rw [← hll] at hb
    refine ⟨fun hlt => ?_, fun hle => ⟨?_, fixedBound_bindFixed_rest c params as r _ w, ?_, ?_⟩⟩
    · rw [if_neg (by omega)] at hb
      exact applyClosure_arity Eval c _ w hb
    · rw [if_pos hle] at hb
      exact applyClosure_bound Eval c _ w _ hb
    · rw [env.Get, callScope]
      exact environment.scanGet_cons_some _ (World.store_maps_same _ _ _ _)
    · intro heq
      rw [← heq, List.drop_length]
      rfl
  · intro ev scope body vs w3 w4 h
    exact prognLoop_normal ev scope h Nil

end runtime

namespace runtime

theorem sample_parameters : ∀ p ∈ [sym "X"], IsParameter p := by
  intro p hp
  rw [List.mem_singleton] at hp
  subst hp
  exact ⟨rfl, by decide, by decide⟩

/-- Witness of C4: the closure of `(lambda (x) x)` called with the two
arguments 1 and 2 returns the arity error; called with the argument 1 it
evaluates its body with `X` bound to 1. -/
theorem lambda_binds_arguments_witness :
    applyClosure (Eval 8) sampleClosure (list [.integer 1, .integer 2]) emptyWorld
      = .ok ((.nil, NewArityError), (alloc emptyWorld).2) ∧
    (applyClosure (Eval 8) sampleClosure (list [.integer 1]) emptyWorld =
        Progn (fun l f => Eval 8 l sampleClosure.global f) (callScope sampleClosure emptyWorld)
          sampleClosure.body
          (bindFixed (alloc emptyWorld).1 [sym "X"] [.integer 1] (alloc emptyWorld).2) ∧
      FixedBound (callScope sampleClosure emptyWorld) [sym "X"] [] [.integer 1]
        (bindFixed (alloc emptyWorld).1 [sym "X"] [.integer 1] (alloc emptyWorld).2)) :=
  ⟨(lambda_binds_arguments.2.1 (Eval 8) sampleClosure [sym "X"] [.integer 1, .integer 2]
      emptyWorld rfl sample_parameters).1 (by decide),
   (lambda_binds_arguments.2.1 (Eval 8) sampleClosure [sym "X"] [.integer 1]
      emptyWorld rfl sample_parameters).2 rfl⟩

end runtime

/-! ## Theorems: the function namespace -/

namespace environment

theorem scanGet_congr {w w1 : World} (stack : List Nat) (key : Instance)
    (h : ∀ a ∈ stack, w1.maps a = w.maps a) : scanGet w1 stack key = scanGet w stack key := by
  induction stack with
  | nil => rfl
  | cons a rest ih =>
    have ha : w1.maps a = w.maps a := h a (by simp)
    have hrest : ∀ b ∈ rest, w1.maps b = w.maps b := fun b hb => h b (by simp [hb])
    simp only [scanGet, ha, ih hrest]

end environment

namespace runtime

theorem Function_nonsymbol (loc global : env.Environment) (f : Instance) (w : World)
    (h : InstanceOf .Symbol f = false) :
    Function loc global f w =
      (.nil, New .DomainError [("OBJECT", f), ("EXPECTED-CLASS", .classObject .Symbol)]) := by
  simp [Function, h]

theorem Function_local (loc global : env.Environment) (f v : Instance) (w : World)
    (h : InstanceOf .Symbol f = true) (hl : env.Get loc.Function f w = (v, true)) :
    Function loc global f w = (v, .nil) := by
  simp [Function, h, hl]

theorem Function_global (loc global : env.Environment) (f v : Instance) (w : World)
    (h : InstanceOf .Symbol f = true) (hl : (env.Get loc.Function f w).2 = false)
    (hg : env.Get global.Function f w = (v, true)) :
    Function loc global f w = (v, .nil) := by
  simp [Function, h, hl, hg]

theorem Function_undefined (loc global : env.Environment) (f : Instance) (w : World)
    (h : InstanceOf .Symbol f = true) (hl : (env.Get loc.Function f w).2 = false)
    (hg : (env.Get global.Function f w).2 = false) :
    Function loc global f w =
      (.nil, New .UndefinedFunction [("NAME", f), ("NAMESPACE", .symbol "FUNCTION")]) := by
  simp [Function, h, hl, hg]

theorem Function_congr (loc global : env.Environment) (f : Instance) (w w1 : World)
    (h : ∀ a ∈ loc.Function ++ global.Function, w1.maps a = w.maps a) :
    Function loc global f w1 = Function loc global f w := by
  have hl : env.Get loc.Function f w1 = env.Get loc.Function f w :=
    environment.scanGet_congr _ _ (fun a ha => h a (by simp [ha]))
  have hg : env.Get global.Function f w1 = env.Get global.Function f w :=
    environment.scanGet_congr _ _ (fun a ha => h a (by simp [ha]))
  simp only [Function, hl, hg]

/-- C11: `Function` returns a DomainError with OBJECT = `f` and
EXPECTED-CLASS = Symbol when `f` is not a symbol; for a symbol it returns the
binding in the local function namespace when there is one (whatever the
global one holds), else the global binding when there is one, else an
UndefinedFunction condition with NAME = `f` and NAMESPACE = the symbol
FUNCTION.  The result is the same in any two worlds that agree on the frames
of the two function stacks: no other namespace is consulted. -/
theorem function_resolves_lexically_then_globally (loc global : env.Environment)
    (f : Instance) (w : World) :
    (InstanceOf .Symbol f = false →
      Function loc global f w =
        (.nil, New .DomainError [("OBJECT", f), ("EXPECTED-CLASS", .classObject .Symbol)])) ∧
    (InstanceOf .DomainError
        (New .DomainError [("OBJECT", f), ("EXPECTED-CLASS", .classObject .Symbol)]) = true ∧
      GetSlotValue (New .DomainError [("OBJECT", f), ("EXPECTED-CLASS", .classObject .Symbol)])
        "OBJECT" = (f, true) ∧
      GetSlotValue (New .DomainError [("OBJECT", f), ("EXPECTED-CLASS", .classObject .Symbol)])
        "EXPECTED-CLASS" = (.classObject .Symbol, true)) ∧
    (InstanceOf .Symbol f = true →
      (∀ v, env.Get loc.Function f w = (v, true) → Function loc global f w = (v, .nil)) ∧
      ((env.Get loc.Function f w).2 = false →
        (∀ v, env.Get global.Function f w = (v, true) → Function loc global f w = (v, .nil)) ∧
        ((env.Get global.Function f w).2 = false →
          Function loc global f w =
            (.nil, New .UndefinedFunction [("NAME", f), ("NAMESPACE", .symbol "FUNCTION")])))) ∧
    (InstanceOf .UndefinedFunction
        (New .UndefinedFunction [("NAME", f), ("NAMESPACE", .symbol "FUNCTION")]) = true ∧
      GetSlotValue (New .UndefinedFunction [("NAME", f), ("NAMESPACE", .symbol "FUNCTION")])
        "NAME" = (f, true) ∧
      GetSlotValue (New .UndefinedFunction [("NAME", f), ("NAMESPACE", .symbol "FUNCTION")])
        "NAMESPACE" = (.symbol "FUNCTION", true)) ∧
    (∀ w1, (∀ a ∈ loc.Function ++ global.Function, w1.maps a = w.maps a) →
      Function loc global f w1 = Function loc global f w) := by
  refine ⟨Function_nonsymbol loc global f w, ⟨rfl, ?_, ?_⟩, ?_, ⟨rfl, ?_, ?_⟩,
    Function_congr loc global f w⟩
  · simp [GetSlotValue, New, slots, Slots.get]
  · simp [GetSlotValue, New, slots, Slots.get]
  · intro hs
    exact ⟨fun v hl => Function_local loc global f v w hs hl,
      fun hl => ⟨fun v hg => Function_global loc global f v w hs hl hg,
        fun hg => Function_undefined loc global f w hs hl hg⟩⟩
  · simp [GetSlotValue, New, slots, Slots.get]
  · simp [GetSlotValue, New, slots, Slots.get]

/-- Witness of C11: with `F` bound to the function object 1 in the local
function frame and to the function object 2 in the global one, `Function`
returns the local binding. -/
theorem function_resolves_lexically_then_globally_witness :
    Function sampleLocal sampleGlobal (sym "F")
        ((emptyWorld.store 4 (sym "F") (.function 1)).store 12 (sym "F") (.function 2))
      = (.function 1, .nil) :=
  ((function_resolves_lexically_then_globally sampleLocal sampleGlobal (sym "F")
      ((emptyWorld.store 4 (sym "F") (.function 1)).store 12 (sym "F") (.function 2))).2.2.1
    rfl).1 (.function 1) rfl

end runtime

/-! ## Theorems: conditions that an establisher hands on -/

namespace runtime

theorem transfer_foreign (Eval : Evaluator) (loc : env.Environment) (body : List Instance)
    (fuel : Nat) {fail : Instance} (w : World) (h : Foreign body fail) :
    transfer Eval loc body (fuel + 1) fail w = .ok ((.nil, fail), w) := by
  obtain ⟨_, hkind | ⟨htag, hall⟩⟩ := h
  · simp [transfer, hkind]
  · have hfound : body.any (fun tag1 => decide ((GetSlotValue fail "TAG").1 = tag1)) = false := by
      rw [List.any_eq_false]
      intro x hx
      simp only [decide_eq_true_eq]
      intro heq
      by_cases hc : InstanceOf .Cons x = true
      · rw [← heq, htag] at hc
        cases hc
      · exact hall x hx (by simpa using hc) heq.symm
    by_cases hkind : InstanceOf .TagbodyTag fail = true
    · simp [transfer, hkind, hfound]
    · simp [transfer, hkind]

theorem transfersOut_ne_nil {Eval : Evaluator} {loc : env.Environment} {body : List Instance}
    {w1 : World} {n : Nat} {fail c : Instance} {w w2 : World}
    (h : TransfersOut Eval loc body w1 n fail w c w2) : fail ≠ .nil := by
  cases h with
  | out hf => exact hf.1
  | next hk => exact ne_nil_of_instanceOf hk

theorem transfer_of_transfersOut {Eval : Evaluator} {loc : env.Environment}
    {body : List Instance} {w0 w1 : World} (hdef : defineTags loc body w0 = .ok (true, w1))
    {n : Nat} {fail c : Instance} {w w2 : World}
    (h : TransfersOut Eval loc body w1 n fail w c w2) :
    ∀ fuel, n < fuel → transfer Eval loc body fuel fail w = .ok ((.nil, c), w2) := by
  induction h with
  | @out fail w hf =>
    intro fuel hfuel
    obtain ⟨k, rfl⟩ : ∃ k, fuel = k + 1 := ⟨fuel - 1, by omega⟩
    exact transfer_foreign Eval loc body k w hf
  | @next n fail L f v fail1 c bl after pre post w wa wb w2 hk ht hbody hL hget hafter hpre
      hcons hf hne _ ih =>
    intro fuel hfuel
    obtain ⟨k, rfl⟩ : ∃ k, fuel = k + 1 := ⟨fuel - 1, by omega⟩
    have hmem : L ∈ body := by rw [hbody]; simp
    have hbind : env.Get loc.TagbodyTag L w = (GeneralVector after, true) := by
      rw [hget]
      rw [hbody] at hdef
      exact defineTags_get hL hdef
    rw [transfer_again Eval loc body k hk ht hmem hbind hafter hpre hcons hf hne]
    exact ih k (by omega)

/-- C12: (Block, Catch) when the form has established `tag`, the body forms
before `f` evaluate with no condition and `f` yields a condition `fail` that
is not an escape of the form's kind, or is one whose TAG is not `tag`, the
form returns `(nil, fail)` in the world left by `f`, so that no form after `f`
is evaluated.  (Tagbody) when a form of the tagbody, in the body or reached
after transfers of control, yields a condition that is not a TagbodyTag escape
or names none of the tags of the body (`TransfersOut`), `Tagbody` returns
`nil` with that very condition, in the world left by that form.  In the test
form `(tagbody (tagbody (go bar) (throw 'foo 1) bar (go foobar)) foobar)` the
inner tagbody returns the escape for `FOOBAR`, and the whole test form yields
`Nil`. -/
theorem establishers_hand_on_foreign_conditions :
    (∀ (Eval : Evaluator) (loc : env.Environment) (tagForm tag : Instance) (w w1 w2 : World),
      Eval loc tagForm w = .ok ((tag, .nil), w1) →
      InstanceOf .Number tag = false → InstanceOf .Character tag = false →
      env.DefineTag loc.BlockTag tag .nil w1 = .ok (true, w2) →
      ∀ pre f post vs w3 v fail w4, EvalsNormally Eval loc pre w2 vs w3 →
        Eval loc f w3 = .ok ((v, fail), w4) → fail ≠ .nil →
        (InstanceOf .BlockTag fail = false ∨ (GetSlotValue fail "TAG").1 ≠ tag) →
        Block Eval loc tagForm (pre ++ f :: post) w = .ok ((.nil, fail), w4)) ∧
    (∀ (Eval : Evaluator) (loc : env.Environment) (tagForm tag : Instance) (w w1 w2 : World),
      Eval loc tagForm w = .ok ((tag, .nil), w1) →
      InstanceOf .Number tag = false → InstanceOf .Character tag = false →
      env.DefineTag loc.CatchTag tag .nil w1 = .ok (true, w2) →
      ∀ pre f post vs w3 v fail w4, EvalsNormally Eval loc pre w2 vs w3 →
        Eval loc f w3 = .ok ((v, fail), w4) → fail ≠ .nil →
        (InstanceOf .CatchTag fail = false ∨ (GetSlotValue fail "TAG").1 ≠ tag) →
        Catch Eval loc tagForm (pre ++ f :: post) w = .ok ((.nil, fail), w4)) ∧
    (∀ (Eval : Evaluator) (loc : env.Environment) (body pre post : List Instance)
        (f v fail c : Instance) (w w1 w2 w3 w4 : World) (n fuel : Nat),
      defineTags loc body w = .ok (true, w1) → body = pre ++ f :: post →
      RunsForms Eval loc pre w1 w2 → InstanceOf .Cons f = true →
      Eval loc f w2 = .ok ((v, fail), w3) →
      TransfersOut Eval loc body w1 n fail w3 c w4 → n < fuel →
      Tagbody Eval fuel loc body w = .ok ((.nil, c), w4)) ∧
    outcome (Tagbody sampleEval 2 sampleLocal innerTagbody foobarWorld)
      = some (.nil, NewTagbodyTag (sym "FOOBAR")) ∧
    outcome (Eval 8 sampleLocal sampleGlobal tagbodyTest2 emptyWorld) = some (Nil, .nil) := by
  refine ⟨?_, ?_, ?_, by rfl, by rfl⟩
  · intro Eval loc tagForm tag w w1 w2 htag hnum hchar hdef pre f post vs w3 v fail w4 hpre hf
      hne hother
    rw [Block_established htag hnum hchar hdef]
    exact bodyLoop_propagates _ Eval loc tag hpre hf hne hother post Nil
  · intro Eval loc tagForm tag w w1 w2 htag hnum hchar hdef pre f post vs w3 v fail w4 hpre hf
      hne hother
    rw [Catch_established htag hnum hchar hdef]
    exact bodyLoop_propagates _ Eval loc tag hpre hf hne hother post Nil
  · intro Eval loc body pre post f v fail c w w1 w2 w3 w4 n fuel hdef hbody hpre hcons hf htr
      hfuel
    have hne : fail ≠ .nil := transfersOut_ne_nil htr
    have hev : evalForms Eval loc body w1 = .ok (fail, w3) := by
      rw [hbody]
      exact evalForms_condition Eval loc hpre hcons hf hne post
    simp only [Tagbody, hdef, hev, hne, ne_eq, not_false_eq_true, if_true]
    exact transfer_of_transfersOut hdef htr fuel hfuel

end runtime

namespace runtime

theorem foobar_foreign : Foreign innerTagbody (NewTagbodyTag (sym "FOOBAR")) := by
  refine ⟨by decide, Or.inr ⟨rfl, ?_⟩⟩
  decide

/-- Witness of C12: the inner tagbody of the test form, run in the world where
the outer one has defined `FOOBAR`, transfers control to `BAR`, evaluates
`(go foobar)` and returns the escape for `FOOBAR` unchanged. -/
theorem establishers_hand_on_foreign_conditions_witness :
    Tagbody sampleEval 2 sampleLocal innerTagbody foobarWorld
      = .ok ((.nil, NewTagbodyTag (sym "FOOBAR")),
          foobarWorld.store 1 (sym "BAR") (GeneralVector [list [sym "GO", sym "FOOBAR"]])) :=
  establishers_hand_on_foreign_conditions.2.2.1 sampleEval sampleLocal innerTagbody []
    [list [sym "THROW", quoted (sym "FOO"), .integer 1], sym "BAR",
      list [sym "GO", sym "FOOBAR"]]
    (list [sym "GO", sym "BAR"]) .nil (NewTagbodyTag (sym "BAR"))
    (NewTagbodyTag (sym "FOOBAR")) foobarWorld
    (foobarWorld.store 1 (sym "BAR") (GeneralVector [list [sym "GO", sym "FOOBAR"]]))
    (foobarWorld.store 1 (sym "BAR") (GeneralVector [list [sym "GO", sym "FOOBAR"]]))
    (foobarWorld.store 1 (sym "BAR") (GeneralVector [list [sym "GO", sym "FOOBAR"]]))
    (foobarWorld.store 1 (sym "BAR") (GeneralVector [list [sym "GO", sym "FOOBAR"]]))
    1 2 rfl rfl (.nil _) rfl rfl
    (@TransfersOut.next _ _ _ _ 0 _ (sym "BAR") (list [sym "GO", sym "FOOBAR"]) .nil
      (NewTagbodyTag (sym "FOOBAR")) _
      [list [sym "GO", sym "BAR"], list [sym "THROW", quoted (sym "FOO"), .integer 1]]
      [list [sym "GO", sym "FOOBAR"]] [] [] _ _ _ _
      rfl rfl rfl rfl rfl rfl (.nil _) rfl rfl (by decide) (.out foobar_foreign))
    (by decide)

end runtime

/-! ## Theorems: return-from, throw, go -/

namespace runtime

theorem newDomainError_ne_nil (o c : Instance) : NewDomainError o c ≠ .nil := by
  simp [NewDomainError, New]

theorem newSimpleError_ne_nil (s : Instance) (args : List Instance) :
    NewSimpleError s args ≠ .nil := by
  simp [NewSimpleError, New]

theorem newBlockTag_ne_nil (t o : Instance) : NewBlockTag t o ≠ .nil := by
  simp [NewBlockTag, New]

theorem newCatchTag_ne_nil (t o : Instance) : NewCatchTag t o ≠ .nil := by
  simp [NewCatchTag, New]

theorem newTagbodyTag_ne_nil (t : Instance) : NewTagbodyTag t ≠ .nil := by
  simp [NewTagbodyTag, New]

theorem ReturnFrom_no_value (Eval : Evaluator) (loc : env.Environment)
    (tagForm objectForm : Instance) (w w1 : World) (r : Result)
    (h : ReturnFrom Eval loc tagForm objectForm w = .ok (r, w1)) : r.1 = .nil ∧ r.2 ≠ .nil := by
  unfold ReturnFrom at h
  cases h1 : Eval loc tagForm w with
  | error e => rw [h1] at h; cases h
  | ok p =>
    obtain ⟨⟨tag, err⟩, wa⟩ := p
    rw [h1] at h
    simp only [] at h
    by_cases herr : err = .nil
    · by_cases hnc : (InstanceOf .Number tag || InstanceOf .Character tag) = true
      · simp [herr, hnc] at h
        obtain ⟨rfl, -⟩ := h
        exact ⟨rfl, newDomainError_ne_nil _ _⟩
      · cases h2 : Eval loc objectForm wa with
        | error e => simp [herr, hnc, h2] at h
        | ok q =>
          obtain ⟨⟨object, err2⟩, wb⟩ := q
          by_cases herr2 : err2 = .nil
          · by_cases hb : (env.Get loc.BlockTag tag wb).2 = false
            · simp [herr, hnc, h2, herr2, hb] at h
              obtain ⟨rfl, -⟩ := h
              exact ⟨rfl, newSimpleError_ne_nil _ _⟩
            · simp [herr, hnc, h2, herr2, hb] at h
              obtain ⟨rfl, -⟩ := h
              exact ⟨rfl, newBlockTag_ne_nil _ _⟩
          · simp [herr, hnc, h2, herr2] at h
            obtain ⟨rfl, -⟩ := h
            exact ⟨rfl, herr2⟩
    · simp [herr] at h
      obtain ⟨rfl, -⟩ := h
      exact ⟨rfl, herr⟩

theorem Throw_no_value (Eval : Evaluator) (loc : env.Environment)
    (tagForm objectForm : Instance) (w w1 : World) (r : Result)
    (h : Throw Eval loc tagForm objectForm w = .ok (r, w1)) : r.1 = .nil ∧ r.2 ≠ .nil := by
  unfold Throw at h
  cases h1 : Eval loc tagForm w with
  | error e => rw [h1] at h; cases h
  | ok p =>
    obtain ⟨⟨tag, err⟩, wa⟩ := p
    rw [h1] at h
    simp only [] at h
    by_cases herr : err = .nil
    · by_cases hnc : (InstanceOf .Number tag || InstanceOf .Character tag) = true
      · simp [herr, hnc] at h
        obtain ⟨rfl, -⟩ := h
        exact ⟨rfl, newDomainError_ne_nil _ _⟩
      · cases h2 : Eval loc objectForm wa with
        | error e => simp [herr, hnc, h2] at h
        | ok q =>
          obtain ⟨⟨object, err2⟩, wb⟩ := q
          by_cases herr2 : err2 = .nil
          · by_cases hb : (env.Get loc.CatchTag tag wb).2 = false
            · simp [herr, hnc, h2, herr2, hb] at h
              obtain ⟨rfl, -⟩ := h
              exact ⟨rfl, newSimpleError_ne_nil _ _⟩
            · simp [herr, hnc, h2, herr2, hb] at h
              obtain ⟨rfl, -⟩ := h
              exact ⟨rfl, newCatchTag_ne_nil _ _⟩
          · simp [herr, hnc, h2, herr2] at h
            obtain ⟨rfl, -⟩ := h
            exact ⟨rfl, herr2⟩
    · simp [herr] at h
      obtain ⟨rfl, -⟩ := h
      exact ⟨rfl, herr⟩

end runtime

namespace runtime

theorem ReturnFrom_domain (Eval : Evaluator) (loc : env.Environment)
    (tagForm objectForm tag : Instance) (w w1 : World)
    (htag : Eval loc tagForm w = .ok ((tag, .nil), w1))
    (h : InstanceOf .Number tag = true ∨ InstanceOf .Character tag = true) :
    ReturnFrom Eval loc tagForm objectForm w =
      .ok ((.nil, NewDomainError tag (.classObject .Object)), w1) := by
  rcases h with h | h <;> simp [ReturnFrom, htag, h]

theorem Throw_domain (Eval : Evaluator) (loc : env.Environment)
    (tagForm objectForm tag : Instance) (w w1 : World)
    (htag : Eval loc tagForm w = .ok ((tag, .nil), w1))
    (h : InstanceOf .Number tag = true ∨ InstanceOf .Character tag = true) :
    Throw Eval loc tagForm objectForm w =
      .ok ((.nil, NewDomainError tag (.classObject .Object)), w1) := by
  rcases h with h | h <;> simp [Throw, htag, h]

theorem ReturnFrom_exit (Eval : Evaluator) (loc : env.Environment)
    (tagForm objectForm tag object : Instance) (w w1 w2 : World)
    (htag : Eval loc tagForm w = .ok ((tag, .nil), w1))
    (hnum : InstanceOf .Number tag = false) (hchar : InstanceOf .Character tag = false)
    (hobj : Eval loc objectForm w1 = .ok ((object, .nil), w2)) :
    ((env.Get loc.BlockTag tag w2).2 = false →
      ReturnFrom Eval loc tagForm objectForm w =
        .ok ((.nil, NewSimpleError (.string "%v is not defined as the tag") [tag]), w2)) ∧
    ((env.Get loc.BlockTag tag w2).2 = true →
      ReturnFrom Eval loc tagForm objectForm w = .ok ((.nil, NewBlockTag tag object), w2)) := by
  constructor <;> intro hb <;> simp [ReturnFrom, htag, hnum, hchar, hobj, hb]

theorem Throw_exit (Eval : Evaluator) (loc : env.Environment)
    (tagForm objectForm tag object : Instance) (w w1 w2 : World)
    (htag : Eval loc tagForm w = .ok ((tag, .nil), w1))
    (hnum : InstanceOf .Number tag = false) (hchar : InstanceOf .Character tag = false)
    (hobj : Eval loc objectForm w1 = .ok ((object, .nil), w2)) :
    ((env.Get loc.CatchTag tag w2).2 = false →
      Throw Eval loc tagForm objectForm w =
        .ok ((.nil, NewSimpleError (.string "%v is not defined as the tag") [tag]), w2)) ∧
    ((env.Get loc.CatchTag tag w2).2 = true →
      Throw Eval loc tagForm objectForm w = .ok ((.nil, NewCatchTag tag object), w2)) := by
  constructor <;> intro hb <;> simp [Throw, htag, hnum, hchar, hobj, hb]

theorem Go_exit (loc : env.Environment) (tag : Instance) (w : World) :
    ((env.Get loc.TagbodyTag tag w).2 = false →
      Go loc tag w =
        .ok ((.nil, NewSimpleError (.string "%v is not defined as the tag") [tag]), w)) ∧
    ((env.Get loc.TagbodyTag tag w).2 = true →
      Go loc tag w = .ok ((.nil, NewTagbodyTag tag), w)) := by
  constructor <;> intro hb <;> simp [Go, hb]

/-- C13 as stated fails: in `(return-from 1 2)` and `(throw 1 2)` the tag and
the object evaluate without a condition and the tag 1 is bound in no tag
namespace, yet the result is a DomainError, which is neither a SimpleError nor
an escape. -/
theorem exit_with_number_tag_is_domain_error :
    sampleEval sampleLocal (.integer 1) emptyWorld = .ok ((.integer 1, .nil), emptyWorld) ∧
    sampleEval sampleLocal (.integer 2) emptyWorld = .ok ((.integer 2, .nil), emptyWorld) ∧
    (env.Get sampleLocal.BlockTag (.integer 1) emptyWorld).2 = false ∧
    (env.Get sampleLocal.CatchTag (.integer 1) emptyWorld).2 = false ∧
    ReturnFrom sampleEval sampleLocal (.integer 1) (.integer 2) emptyWorld
      = .ok ((.nil, NewDomainError (.integer 1) (.classObject .Object)), emptyWorld) ∧
    Throw sampleEval sampleLocal (.integer 1) (.integer 2) emptyWorld
      = .ok ((.nil, NewDomainError (.integer 1) (.classObject .Object)), emptyWorld) ∧
    InstanceOf .SimpleError (NewDomainError (.integer 1) (.classObject .Object)) = false ∧
    InstanceOf .Escape (NewDomainError (.integer 1) (.classObject .Object)) = false :=
  ⟨rfl, rfl, rfl, rfl, rfl, rfl, rfl, rfl⟩

/-- C13 amended: `ReturnFrom`, `Throw` and `Go` never return a value: whenever
they return, the value is `nil` and the condition is not.  For `ReturnFrom`
and `Throw`, a tag that evaluates with no condition to a Number or a
Character gives `(nil, DomainError)`, the object not being evaluated; a tag
that evaluates to any other object, followed by an object that evaluates with
no condition, gives `(nil, SimpleError)` when the tag is not bound in the
BlockTag (resp. CatchTag) namespace and otherwise `(nil, escape)`, the escape
being of class BlockTag (resp. CatchTag) with TAG the tag and OBJECT the
object.  `Go`, which does not evaluate its tag, gives `(nil, SimpleError)`
when the tag is not bound in the TagbodyTag namespace and otherwise the
TagbodyTag escape whose TAG is the tag. -/
theorem exits_return_escape_or_error :
    (∀ (Eval : Evaluator) (loc : env.Environment) (tagForm objectForm : Instance)
        (w w1 : World) (r : Result),
      (ReturnFrom Eval loc tagForm objectForm w = .ok (r, w1) → r.1 = .nil ∧ r.2 ≠ .nil) ∧
      (Throw Eval loc tagForm objectForm w = .ok (r, w1) → r.1 = .nil ∧ r.2 ≠ .nil)) ∧
    (∀ (Eval : Evaluator) (loc : env.Environment) (tagForm objectForm tag : Instance)
        (w w1 : World), Eval loc tagForm w = .ok ((tag, .nil), w1) →
      (InstanceOf .Number tag = true ∨ InstanceOf .Character tag = true →
        ReturnFrom Eval loc tagForm objectForm w =
          .ok ((.nil, NewDomainError tag (.classObject .Object)), w1) ∧
        Throw Eval loc tagForm objectForm w =
          .ok ((.nil, NewDomainError tag (.classObject .Object)), w1)) ∧
      (InstanceOf .Number tag = false → InstanceOf .Character tag = false →
        ∀ object w2, Eval loc objectForm w1 = .ok ((object, .nil), w2) →
          ((env.Get loc.BlockTag tag w2).2 = false →
            ReturnFrom Eval loc tagForm objectForm w =
              .ok ((.nil, NewSimpleError (.string "%v is not defined as the tag") [tag]), w2)) ∧
          ((env.Get loc.BlockTag tag w2).2 = true →
            ReturnFrom Eval loc tagForm objectForm w =
              .ok ((.nil, NewBlockTag tag object), w2)) ∧
          ((env.Get loc.CatchTag tag w2).2 = false →
            Throw Eval loc tagForm objectForm w =
              .ok ((.nil, NewSimpleError (.string "%v is not defined as the tag") [tag]), w2)) ∧
          ((env.Get loc.CatchTag tag w2).2 = true →
            Throw Eval loc tagForm objectForm w =
              .ok ((.nil, NewCatchTag tag object), w2)))) ∧
    (∀ (loc : env.Environment) (tag : Instance) (w : World),
      ((env.Get loc.TagbodyTag tag w).2 = false →
        Go loc tag w =
          .ok ((.nil, NewSimpleError (.string "%v is not defined as the tag") [tag]), w)) ∧
      ((env.Get loc.TagbodyTag tag w).2 = true →
        Go loc tag w = .ok ((.nil, NewTagbodyTag tag), w))) ∧
    (∀ tag object : Instance,
      InstanceOf .BlockTag (NewBlockTag tag object) = true ∧
      GetSlotValue (NewBlockTag tag object) "TAG" = (tag, true) ∧
      GetSlotValue (NewBlockTag tag object) "OBJECT" = (object, true) ∧
      InstanceOf .CatchTag (NewCatchTag tag object) = true ∧
      GetSlotValue (NewCatchTag tag object) "TAG" = (tag, true) ∧
      GetSlotValue (NewCatchTag tag object) "OBJECT" = (object, true) ∧
      InstanceOf .TagbodyTag (NewTagbodyTag tag) = true ∧
      GetSlotValue (NewTagbodyTag tag) "TAG" = (tag, true) ∧
      InstanceOf .SimpleError
        (NewSimpleError (.string "%v is not defined as the tag") [tag]) = true ∧
      InstanceOf .DomainError (NewDomainError tag (.classObject .Object)) = true) := by
  refine ⟨?_, ?_, Go_exit, ?_⟩
  · intro Eval loc tagForm objectForm w w1 r
    exact ⟨ReturnFrom_no_value Eval loc tagForm objectForm w w1 r,
      Throw_no_value Eval loc tagForm objectForm w w1 r⟩
  · intro Eval loc tagForm objectForm tag w w1 htag
    refine ⟨fun h => ⟨ReturnFrom_domain Eval loc tagForm objectForm tag w w1 htag h,
      Throw_domain Eval loc tagForm objectForm tag w w1 htag h⟩, ?_⟩
    intro hnum hchar object w2 hobj
    have hr := ReturnFrom_exit Eval loc tagForm objectForm tag object w w1 w2 htag hnum hchar hobj
    have ht := Throw_exit Eval loc tagForm objectForm tag object w w1 w2 htag hnum hchar hobj
    exact ⟨hr.1, hr.2, ht.1, ht.2⟩
  · intro tag object
    refine ⟨rfl, ?_, ?_, rfl, ?_, ?_, rfl, ?_, rfl, rfl⟩ <;>
      simp [GetSlotValue, NewBlockTag, NewCatchTag, NewTagbodyTag, New, slots, Slots.get]

/-- Witness of C13 amended: in the world where the block tag `B` is
established, `(return-from 'b 7)` returns the BlockTag escape for `B` carrying
7. -/
theorem exits_return_escape_or_error_witness :
    ReturnFrom sampleEval sampleLocal (quoted (sym "B")) (.integer 7)
        (emptyWorld.store 0 (sym "B") .nil)
      = .ok ((.nil, NewBlockTag (sym "B") (.integer 7)), emptyWorld.store 0 (sym "B") .nil) :=
  ((exits_return_escape_or_error.2.1 sampleEval sampleLocal (quoted (sym "B")) (.integer 7)
      (sym "B") (emptyWorld.store 0 (sym "B") .nil) (emptyWorld.store 0 (sym "B") .nil)
      rfl).2 rfl rfl (.integer 7) (emptyWorld.store 0 (sym "B") .nil) rfl).2.1 rfl

end runtime

/-! ## Theorems: a tag that is already bound -/

namespace runtime

theorem defineTag_bound {stack : List Nat} {a : Nat} {st : List Nat} {key v0 : Instance}
    {w : World} (value : Instance) (hs : stack = a :: st) (hb : w.maps a key = some v0) :
    env.DefineTag stack key value w = .ok (false, w) := by
  subst hs
  simp [env.DefineTag, hb]

theorem defineTag_unbound {stack : List Nat} {a : Nat} {st : List Nat} {key : Instance}
    {w : World} (value : Instance) (hs : stack = a :: st) (hb : w.maps a key = none) :
    env.DefineTag stack key value w = .ok (true, w.store a key value) := by
  subst hs
  simp [env.DefineTag, hb]

theorem Block_bound (Eval : Evaluator) (loc : env.Environment) (tagForm tag : Instance)
    (body : List Instance) (w w1 : World) {a : Nat} {st : List Nat} {v0 : Instance}
    (htag : Eval loc tagForm w = .ok ((tag, .nil), w1))
    (hnum : InstanceOf .Number tag = false) (hchar : InstanceOf .Character tag = false)
    (hs : loc.BlockTag = a :: st) (hb : w1.maps a tag = some v0) :
    Block Eval loc tagForm body w = .ok ((.nil, NewImmutableBinding), w1) := by
  simp [Block, htag, hnum, hchar, defineTag_bound .nil hs hb]

theorem Catch_bound (Eval : Evaluator) (loc : env.Environment) (tagForm tag : Instance)
    (body : List Instance) (w w1 : World) {a : Nat} {st : List Nat} {v0 : Instance}
    (htag : Eval loc tagForm w = .ok ((tag, .nil), w1))
    (hnum : InstanceOf .Number tag = false) (hchar : InstanceOf .Character tag = false)
    (hs : loc.CatchTag = a :: st) (hb : w1.maps a tag = some v0) :
    Catch Eval loc tagForm body w = .ok ((.nil, NewImmutableBinding), w1) := by
  simp [Catch, htag, hnum, hchar, defineTag_bound .nil hs hb]

theorem immutableBinding_not_escape :
    NewImmutableBinding ≠ .nil ∧ InstanceOf .BlockTag NewImmutableBinding = false ∧
    InstanceOf .CatchTag NewImmutableBinding = false ∧
    InstanceOf .ProgramError NewImmutableBinding = true :=
  ⟨by decide, rfl, rfl, rfl⟩

/-- The nested forms evaluated: in
`(block 'b 1 (block 'b 2 (return-from 'b 7) 3) 4)` the inner block, entered
while `B` is bound in the frontmost BlockTag frame, returns the
immutable-binding condition, and the whole form returns that condition
instead of 4, the value of the last form of the outer block; the same for the
nested catches. -/
theorem nested_same_tag_is_immutable_binding :
    Block sampleEval sampleLocal (quoted (sym "B"))
        [.integer 2, list [sym "RETURN-FROM", quoted (sym "B"), .integer 7], .integer 3]
        (emptyWorld.store 0 (sym "B") .nil)
      = .ok ((.nil, NewImmutableBinding), emptyWorld.store 0 (sym "B") .nil) ∧
    outcome (Eval 8 sampleLocal sampleGlobal nestedBlocks emptyWorld)
      = some (.nil, NewImmutableBinding) ∧
    outcome (Eval 8 sampleLocal sampleGlobal nestedBlocks emptyWorld)
      ≠ some (.integer 4, .nil) ∧
    outcome (Eval 8 sampleLocal sampleGlobal nestedCatches emptyWorld)
      = some (.nil, NewImmutableBinding) ∧
    outcome (Eval 8 sampleLocal sampleGlobal nestedCatches emptyWorld)
      ≠ some (.integer 4, .nil) :=
  ⟨rfl, by rfl, by decide, by rfl, by decide⟩

end runtime

namespace runtime

theorem defineTag_true_binds {stack : List Nat} {key value : Instance} {w w1 : World}
    (h : env.DefineTag stack key value w = .ok (true, w1)) :
    ∃ a st, stack = a :: st ∧ w1.maps a key = some value := by
  obtain ⟨a, st, hs, _, hw⟩ := defineTag_true h
  exact ⟨a, st, hs, by rw [hw]; exact World.store_maps_same w a key value⟩

/-- C14 fails on the code: the inner of two nested blocks (resp. catches)
with the same tag is not established, whatever the evaluator.  A block
establishes its tag by binding it in the frontmost BlockTag (resp. CatchTag)
frame of the environment it is given, without a frame of its own, and the tag
stays bound there while the body runs.  The nested block with the same tag,
entered in that environment, finds the tag bound: it returns the
immutable-binding condition (a ProgramError) with no value, in the world left
by the evaluation of its tag, so that none of its body forms is evaluated;
the outer block, for which that condition is no escape, returns it with no
value in the world left by the inner form, so that no later form of the outer
block is evaluated.  The nested forms
`(block 'b 1 (block 'b 2 (return-from 'b 7) 3) 4)` and
`(catch 'b 1 (catch 'b 2 (throw 'b 7) 3) 4)` return that condition, not 4. -/
theorem nested_same_tag_rejected :
    (∀ (stack : List Nat) (tag : Instance) (w1 w2 : World),
      env.DefineTag stack tag .nil w1 = .ok (true, w2) →
      ∃ a st, stack = a :: st ∧ w2.maps a tag = some .nil) ∧
    (∀ (Eval : Evaluator) (loc : env.Environment) (tagForm tag : Instance)
        (body : List Instance) (w w1 : World) (a : Nat) (st : List Nat) (v0 : Instance),
      Eval loc tagForm w = .ok ((tag, .nil), w1) →
      InstanceOf .Number tag = false → InstanceOf .Character tag = false →
      (loc.BlockTag = a :: st → w1.maps a tag = some v0 →
        Block Eval loc tagForm body w = .ok ((.nil, NewImmutableBinding), w1)) ∧
      (loc.CatchTag = a :: st → w1.maps a tag = some v0 →
        Catch Eval loc tagForm body w = .ok ((.nil, NewImmutableBinding), w1))) ∧
    (∀ (Eval : Evaluator) (loc : env.Environment) (tagForm tag : Instance) (w w1 w2 : World),
      Eval loc tagForm w = .ok ((tag, .nil), w1) →
      InstanceOf .Number tag = false → InstanceOf .Character tag = false →
      ∀ pre g post vs w3 v w4, EvalsNormally Eval loc pre w2 vs w3 →
        Eval loc g w3 = .ok ((v, NewImmutableBinding), w4) →
        (env.DefineTag loc.BlockTag tag .nil w1 = .ok (true, w2) →
          Block Eval loc tagForm (pre ++ g :: post) w
            = .ok ((.nil, NewImmutableBinding), w4)) ∧
        (env.DefineTag loc.CatchTag tag .nil w1 = .ok (true, w2) →
          Catch Eval loc tagForm (pre ++ g :: post) w
            = .ok ((.nil, NewImmutableBinding), w4))) ∧
    InstanceOf .ProgramError NewImmutableBinding = true ∧
    outcome (Eval 8 sampleLocal sampleGlobal nestedBlocks emptyWorld)
      = some (.nil, NewImmutableBinding) ∧
    outcome (Eval 8 sampleLocal sampleGlobal nestedCatches emptyWorld)
      = some (.nil, NewImmutableBinding) := by
  refine ⟨fun stack tag w1 w2 h => defineTag_true_binds h, ?_, ?_, rfl, by rfl, by rfl⟩
  · intro Eval loc tagForm tag body w w1 a st v0 htag hnum hchar
    exact ⟨fun hs hb => Block_bound Eval loc tagForm tag body w w1 htag hnum hchar hs hb,
      fun hs hb => Catch_bound Eval loc tagForm tag body w w1 htag hnum hchar hs hb⟩
  · intro Eval loc tagForm tag w w1 w2 htag hnum hchar pre g post vs w3 v w4 hpre hg
    constructor
    · intro hdef
      rw [Block_established htag hnum hchar hdef]
      exact bodyLoop_propagates _ Eval loc tag hpre hg immutableBinding_not_escape.1
        (Or.inl immutableBinding_not_escape.2.1) post Nil
    · intro hdef
      rw [Catch_established htag hnum hchar hdef]
      exact bodyLoop_propagates _ Eval loc tag hpre hg immutableBinding_not_escape.1
        (Or.inl immutableBinding_not_escape.2.2.1) post Nil

/-- Witness of C14: the outer block `(block 'b 1 (block 'b 2 ...) 4)`,
whose second form returns the immutable-binding condition, returns it without
evaluating the form `4`. -/
theorem nested_same_tag_rejected_witness :
    Block sampleEval sampleLocal (quoted (sym "B"))
        ([.integer 1] ++
          blockForm [.integer 2, list [sym "RETURN-FROM", quoted (sym "B"), .integer 7],
            .integer 3] :: [.integer 4]) emptyWorld
      = .ok ((.nil, NewImmutableBinding), emptyWorld.store 0 (sym "B") .nil) :=
  ((nested_same_tag_rejected.2.2.1 sampleEval sampleLocal (quoted (sym "B")) (sym "B")
      emptyWorld emptyWorld (emptyWorld.store 0 (sym "B") .nil) rfl rfl rfl
      [.integer 1]
      (blockForm [.integer 2, list [sym "RETURN-FROM", quoted (sym "B"), .integer 7],
        .integer 3])
      [.integer 4] [.integer 1] (emptyWorld.store 0 (sym "B") .nil) .nil
      (emptyWorld.store 0 (sym "B") .nil) (.cons rfl (.nil _)) rfl).1 rfl)

end runtime

namespace runtime

/-- C15 fails on the code: `Block`, `Catch` and `Tagbody` bind their tags in
the frontmost frame of the environment they are given and never unbind them.
In the empty world `B` is no block tag; after `(block 'b 1)` has returned 1 it
is one; evaluating the same block again returns the immutable-binding
condition instead of 1, and `(return-from 'b 2)` after the block returns the
BlockTag escape instead of a SimpleError.  The same for `(catch 'b 1)` and
for a tagbody with the tag `BAR`; and the two forms of `TestTagbody`,
evaluated one after the other in one environment as the test does, give
`Nil` and then the immutable-binding condition. -/
theorem tag_outlives_its_establisher :
    env.Get sampleLocal.BlockTag (sym "B") emptyWorld = (.nil, false) ∧
    Block sampleEval sampleLocal (quoted (sym "B")) [.integer 1] emptyWorld
      = .ok ((.integer 1, .nil), emptyWorld.store 0 (sym "B") .nil) ∧
    env.Get sampleLocal.BlockTag (sym "B") (emptyWorld.store 0 (sym "B") .nil) = (.nil, true) ∧
    Block sampleEval sampleLocal (quoted (sym "B")) [.integer 1]
        (emptyWorld.store 0 (sym "B") .nil)
      = .ok ((.nil, NewImmutableBinding), emptyWorld.store 0 (sym "B") .nil) ∧
    ReturnFrom sampleEval sampleLocal (quoted (sym "B")) (.integer 2)
        (emptyWorld.store 0 (sym "B") .nil)
      = .ok ((.nil, NewBlockTag (sym "B") (.integer 2)), emptyWorld.store 0 (sym "B") .nil) ∧
    InstanceOf .SimpleError (NewBlockTag (sym "B") (.integer 2)) = false ∧
    Catch sampleEval sampleLocal (quoted (sym "B")) [.integer 1] emptyWorld
      = .ok ((.integer 1, .nil), emptyWorld.store 2 (sym "B") .nil) ∧
    Catch sampleEval sampleLocal (quoted (sym "B")) [.integer 1]
        (emptyWorld.store 2 (sym "B") .nil)
      = .ok ((.nil, NewImmutableBinding), emptyWorld.store 2 (sym "B") .nil) ∧
    Tagbody sampleEval 1 sampleLocal [sym "BAR"] emptyWorld
      = .ok ((Nil, .nil), emptyWorld.store 1 (sym "BAR") (GeneralVector [])) ∧
    Tagbody sampleEval 1 sampleLocal [sym "BAR"]
        (emptyWorld.store 1 (sym "BAR") (GeneralVector []))
      = .ok ((.nil, NewImmutableBinding), emptyWorld.store 1 (sym "BAR") (GeneralVector [])) ∧
    outcome (Eval 8 sampleLocal sampleGlobal tagbodyTest1 emptyWorld) = some (Nil, .nil) ∧
    outcome (Eval 8 sampleLocal sampleGlobal tagbodyTest2
        (worldAfter (Eval 8 sampleLocal sampleGlobal tagbodyTest1 emptyWorld) emptyWorld))
      = some (.nil, NewImmutableBinding) :=
  ⟨rfl, rfl, rfl, rfl, rfl, rfl, rfl, rfl, rfl, rfl, by rfl, by rfl⟩

/-- C16 fails on the code for `Labels`: it defines the functions in the
caller's environment itself, where they stay.  In the empty world `F` is no
function of the local environment; `(labels ((f (x) x)) (f 5))` returns 5 and
leaves `F` bound there to the function object 0, whereas
`(flet ((f (x) x)) (f 5))`, which defines into the fresh frame of a new
environment, returns 5 and leaves `F` unbound.  The functions of a `flet` are
made over the caller's environment: in `(flet ((f () 1) (g () (f))) (g))` the
reference to `f` in the body of `g` finds no function. -/
theorem labels_bindings_outlive_the_form :
    env.Get sampleLocal.Function (sym "F") emptyWorld = (.nil, false) ∧
    outcome (Eval 8 sampleLocal sampleGlobal labelsForm emptyWorld)
      = some (.integer 5, .nil) ∧
    env.Get sampleLocal.Function (sym "F")
        (worldAfter (Eval 8 sampleLocal sampleGlobal labelsForm emptyWorld) emptyWorld)
      = (.function 0, true) ∧
    outcome (Eval 8 sampleLocal sampleGlobal fletForm emptyWorld) = some (.integer 5, .nil) ∧
    env.Get sampleLocal.Function (sym "F")
        (worldAfter (Eval 8 sampleLocal sampleGlobal fletForm emptyWorld) emptyWorld)
      = (.nil, false) ∧
    outcome (Eval 8 sampleLocal sampleGlobal fletSiblingForm emptyWorld)
      = some (.nil, NewUndefinedFunction (sym "F")) :=
  ⟨rfl, by rfl, by rfl, by rfl, by rfl, by rfl⟩

end runtime

namespace runtime

theorem defineTags_total {loc : env.Environment} {a : Nat} {st : List Nat}
    (hst : loc.TagbodyTag = a :: st) (xs : List Instance) :
    ∀ w, ∃ b w1, defineTags loc xs w = .ok (b, w1) := by
  induction xs with
  | nil => intro w; exact ⟨true, w, rfl⟩
  | cons x rest ih =>
    intro w
    by_cases hx : InstanceOf .Cons x = true
    · rw [defineTags_cons_form hx]
      exact ih w
    · have hx' : InstanceOf .Cons x = false := by simpa using hx
      cases hk : w.maps a x with
      | none =>
        obtain ⟨b, w1, h⟩ := ih (w.store a x (GeneralVector rest))
        refine ⟨b, w1, ?_⟩
        simp only [defineTags, hx', Bool.not_false, if_true,
          defineTag_unbound (GeneralVector rest) hst hk]
        cases b <;> simpa using h
      | some v =>
        refine ⟨false, w, ?_⟩
        simp only [defineTags, hx', Bool.not_false, if_true,
          defineTag_bound (GeneralVector rest) hst hk]

theorem defineTags_bound_fails {loc : env.Environment} {a : Nat} {st : List Nat}
    (hst : loc.TagbodyTag = a :: st) {L : Instance} {after : List Instance}
    (hL : InstanceOf .Cons L = false) (mid : List Instance) :
    ∀ w v w1, w.maps a L = some v → defineTags loc (mid ++ L :: after) w ≠ .ok (true, w1) := by
  induction mid with
  | nil =>
    intro w v w1 hb h
    obtain ⟨wm, hd, _⟩ := defineTags_cons_tag hL h
    obtain ⟨b, st1, hs, hnone, _⟩ := defineTag_true hd
    rw [hst] at hs
    cases hs
    rw [hnone] at hb
    cases hb
  | cons x rest ih =>
    intro w v w1 hb h
    by_cases hx : InstanceOf .Cons x = true
    · rw [List.cons_append, defineTags_cons_form hx] at h
      exact ih w v w1 hb h
    · have hx' : InstanceOf .Cons x = false := by simpa using hx
      obtain ⟨wm, hd, hrest⟩ := defineTags_cons_tag hx' h
      obtain ⟨b, st1, hs, hnone, hwm⟩ := defineTag_true hd
      rw [hst] at hs
      cases hs
      have hne : L ≠ x := by
        rintro rfl
        rw [hnone] at hb
        cases hb
      refine ih wm v w1 ?_ hrest
      rw [hwm, World.store_maps_other_key w a _ hne]
      exact hb

theorem defineTags_repeated_fails {loc : env.Environment} {a : Nat} {st : List Nat}
    (hst : loc.TagbodyTag = a :: st) {L : Instance} {mid after : List Instance}
    (hL : InstanceOf .Cons L = false) (bl : List Instance) :
    ∀ w w1, defineTags loc (bl ++ L :: (mid ++ L :: after)) w ≠ .ok (true, w1) := by
  induction bl with
  | nil =>
    intro w w1 h
    obtain ⟨wm, hd, hrest⟩ := defineTags_cons_tag hL h
    obtain ⟨b, st1, hs, v, hb⟩ : ∃ b st1, loc.TagbodyTag = b :: st1 ∧ ∃ v, wm.maps b L = some v := by
      obtain ⟨b, st1, hs, hb⟩ := defineTag_true_binds hd
      exact ⟨b, st1, hs, _, hb⟩
    rw [hst] at hs
    cases hs
    exact defineTags_bound_fails hst hL mid wm v w1 hb hrest
  | cons x rest ih =>
    intro w w1 h
    by_cases hx : InstanceOf .Cons x = true
    · rw [List.cons_append, defineTags_cons_form hx] at h
      exact ih w w1 h
    · have hx' : InstanceOf .Cons x = false := by simpa using hx
      obtain ⟨wm, _, hrest⟩ := defineTags_cons_tag hx' h
      exact ih wm w1 hrest

theorem Tagbody_immutable {loc : env.Environment} {a : Nat} {st : List Nat}
    (hst : loc.TagbodyTag = a :: st) (body : List Instance) (w : World)
    (h : ∀ w1, defineTags loc body w ≠ .ok (true, w1)) :
    ∃ w1, ∀ (Eval : Evaluator) (fuel : Nat),
      Tagbody Eval fuel loc body w = .ok ((.nil, NewImmutableBinding), w1) := by
  obtain ⟨b, w1, hd⟩ := defineTags_total hst body w
  cases b with
  | true => exact absurd hd (h w1)
  | false =>
    refine ⟨w1, fun Eval fuel => ?_⟩
    simp [Tagbody, hd]

/-- C17 as stated fails for the one Define of a tag namespace that the sources
hold, `DefineThrowTag` of `environment.go`: defining `X`, already bound to 1 in
frame 0, reports nothing and replaces the binding by 2. -/
theorem defineThrowTag_replaces_binding :
    environment.GetThrowTag environment.sampleEnv (sym "X")
        (emptyWorld.store 0 (sym "X") (.integer 1)) = (.integer 1, true) ∧
    environment.DefineThrowTag environment.sampleEnv (sym "X") (.integer 2)
        (emptyWorld.store 0 (sym "X") (.integer 1))
      = .ok ((emptyWorld.store 0 (sym "X") (.integer 1)).store 0 (sym "X") (.integer 2)) ∧
    environment.GetThrowTag environment.sampleEnv (sym "X")
        ((emptyWorld.store 0 (sym "X") (.integer 1)).store 0 (sym "X") (.integer 2))
      = (.integer 2, true) :=
  ⟨rfl, rfl, rfl⟩

/-- C17 amended: on the BlockTag, CatchTag and TagbodyTag stacks of the
environment that `Block`, `Catch` and `Tagbody` use, Define of a key already
bound in the frontmost frame reports failure and leaves the world as it was,
and Define of a key not bound there succeeds and binds it; `Block` and `Catch`
entered with their tag bound there, and `Tagbody` over a body that repeats a
tag or has a tag bound there, return the immutable-binding condition whatever
the evaluator is: no body form is evaluated.  `DefineThrowTag` of
`environment.go` reports nothing and writes the value whatever was bound. -/
theorem tag_define_fails_when_bound :
    (∀ (stack : List Nat) (a : Nat) (st : List Nat) (key value : Instance) (w : World),
      stack = a :: st →
      (∀ v0, w.maps a key = some v0 → env.DefineTag stack key value w = .ok (false, w)) ∧
      (w.maps a key = none →
        env.DefineTag stack key value w = .ok (true, w.store a key value))) ∧
    (∀ (Eval : Evaluator) (loc : env.Environment) (tagForm tag : Instance)
        (body : List Instance) (w w1 : World) (a : Nat) (st : List Nat) (v0 : Instance),
      Eval loc tagForm w = .ok ((tag, .nil), w1) →
      InstanceOf .Number tag = false → InstanceOf .Character tag = false →
      (loc.BlockTag = a :: st → w1.maps a tag = some v0 →
        Block Eval loc tagForm body w = .ok ((.nil, NewImmutableBinding), w1)) ∧
      (loc.CatchTag = a :: st → w1.maps a tag = some v0 →
        Catch Eval loc tagForm body w = .ok ((.nil, NewImmutableBinding), w1))) ∧
    (∀ (loc : env.Environment) (a : Nat) (st : List Nat) (L : Instance)
        (bl mid after : List Instance) (w : World),
      loc.TagbodyTag = a :: st → InstanceOf .Cons L = false →
      (∃ w1, ∀ (Eval : Evaluator) (fuel : Nat),
        Tagbody Eval fuel loc (bl ++ L :: (mid ++ L :: after)) w
          = .ok ((.nil, NewImmutableBinding), w1)) ∧
      (∀ v0, w.maps a L = some v0 →
        ∃ w1, ∀ (Eval : Evaluator) (fuel : Nat),
          Tagbody Eval fuel loc (bl ++ L :: after) w
            = .ok ((.nil, NewImmutableBinding), w1))) ∧
    (∀ (e : environment.Environment) (a : Nat) (st : List Nat) (key value : Instance)
        (w : World), e.ThrowTag = a :: st →
      environment.DefineThrowTag e key value w = .ok (w.store a key value) ∧
      environment.GetThrowTag e key (w.store a key value) = (value, true)) := by
  refine ⟨?_, ?_, ?_, ?_⟩
  · intro stack a st key value w hs
    exact ⟨fun v0 hb => defineTag_bound value hs hb, fun hb => defineTag_unbound value hs hb⟩
  · intro Eval loc tagForm tag body w w1 a st v0 htag hnum hchar
    exact ⟨fun hs hb => Block_bound Eval loc tagForm tag body w w1 htag hnum hchar hs hb,
      fun hs hb => Catch_bound Eval loc tagForm tag body w w1 htag hnum hchar hs hb⟩
  · intro loc a st L bl mid after w hst hL
    refine ⟨Tagbody_immutable hst _ w (defineTags_repeated_fails hst hL bl w), ?_⟩
    intro v0 hb
    exact Tagbody_immutable hst _ w (fun w1 => defineTags_bound_fails hst hL bl w v0 w1 hb)
  · intro e a st key value w hs
    refine ⟨?_, ?_⟩
    · simp [environment.DefineThrowTag, hs, environment.defineFront]
    · rw [environment.GetThrowTag, hs]
      exact environment.scanGet_store_front w a st key value

/-- Witness of C17 amended: the tagbody `(tagbody bar bar)` returns the
immutable-binding condition, whatever the evaluator. -/
theorem tag_define_fails_when_bound_witness :
    ∃ w1, ∀ (Eval : Evaluator) (fuel : Nat),
      Tagbody Eval fuel sampleLocal ([] ++ sym "BAR" :: ([] ++ sym "BAR" :: [])) emptyWorld
        = .ok ((.nil, NewImmutableBinding), w1) :=
  (tag_define_fails_when_bound.2.2.1 sampleLocal 1 [] (sym "BAR") [] [] [] emptyWorld
    rfl rfl).1

end runtime

/-! ## Theorems: what `Apply` rejects -/

namespace runtime

theorem Apply_non_function (applicable : Applicable) (loc global : env.Environment)
    (f : Instance) (os ls : List Instance) (w : World) (hf : InstanceOf .Function f = false) :
    Apply applicable loc global f (os ++ [list ls]) w =
      .ok ((.nil, New .DomainError [("OBJECT", f),
        ("EXPECTED-CLASS", .classObject .Function)]), w) := by
  simp [Apply, instanceOf_list_list, isProperList_list, hf]

theorem Apply_function_cases (applicable : Applicable) (loc global : env.Environment)
    (f : Instance) (obj : List Instance) (w : World) (hf : InstanceOf .Function f = true) :
    Apply applicable loc global f obj w = .error .panic ∨
    Apply applicable loc global f obj w = .ok ((.nil, New .ProgramError []), w) ∨
    ∃ lst, Apply applicable loc global f obj w = applicable f loc global lst w := by
  cases hlast : obj.getLast? with
  | none => exact Or.inl (by simp [Apply, hlast])
  | some last =>
    by_cases hl : InstanceOf .List last = true
    · by_cases hp : isProperList last = true
      · exact Or.inr (Or.inr ⟨listFrom obj.dropLast last, by simp [Apply, hlast, hl, hp, hf]⟩)
      · exact Or.inr (Or.inl (by simp [Apply, hlast, hl, hp]))
    · exact Or.inr (Or.inr ⟨listFrom obj Nil, by simp [Apply, hlast, hl, hf]⟩)

/-- C18: for an object `f` that is not an instance of class Function and an
argument sequence ending in a proper list, `Apply` returns no value and the
DomainError whose OBJECT is `f` and whose EXPECTED-CLASS is the class
Function, in the world it was given and whatever the `Apply` method is:
nothing is invoked.  For a function `f`, `Apply` faults on the empty argument
sequence, returns the program error of an improper final list, or returns
what one call of the method of `f` returns, never a DomainError of its own. -/
theorem apply_rejects_non_function :
    (∀ (applicable : Applicable) (loc global : env.Environment) (f : Instance)
        (os ls : List Instance) (w : World), InstanceOf .Function f = false →
      Apply applicable loc global f (os ++ [list ls]) w =
        .ok ((.nil, New .DomainError [("OBJECT", f),
          ("EXPECTED-CLASS", .classObject .Function)]), w)) ∧
    (∀ f : Instance,
      InstanceOf .DomainError
        (New .DomainError [("OBJECT", f), ("EXPECTED-CLASS", .classObject .Function)]) = true ∧
      GetSlotValue (New .DomainError [("OBJECT", f), ("EXPECTED-CLASS", .classObject .Function)])
        "OBJECT" = (f, true) ∧
      GetSlotValue (New .DomainError [("OBJECT", f), ("EXPECTED-CLASS", .classObject .Function)])
        "EXPECTED-CLASS" = (.classObject .Function, true)) ∧
    (∀ (applicable : Applicable) (loc global : env.Environment) (f : Instance)
        (obj : List Instance) (w : World), InstanceOf .Function f = true →
      Apply applicable loc global f obj w = .error .panic ∨
      Apply applicable loc global f obj w = .ok ((.nil, New .ProgramError []), w) ∨
      ∃ lst, Apply applicable loc global f obj w = applicable f loc global lst w) ∧
    InstanceOf .DomainError (New .ProgramError []) = false := by
  refine ⟨Apply_non_function, ?_, Apply_function_cases, rfl⟩
  intro f
  refine ⟨rfl, ?_, ?_⟩ <;> simp [GetSlotValue, New, slots, Slots.get]

/-- Witness of C18: applying the integer 7 to the object 1 and the final list
`(2 3)` returns the DomainError for 7. -/
theorem apply_rejects_non_function_witness :
    Apply (applyMethod (Eval 8)) sampleLocal sampleGlobal (.integer 7)
        ([.integer 1] ++ [list [.integer 2, .integer 3]]) restWorld =
      .ok ((.nil, New .DomainError [("OBJECT", .integer 7),
        ("EXPECTED-CLASS", .classObject .Function)]), restWorld) :=
  apply_rejects_non_function.1 (applyMethod (Eval 8)) sampleLocal sampleGlobal (.integer 7)
    [.integer 1] [.integer 2, .integer 3] restWorld rfl

/-- C19 fails on the code: `Apply` tests its last argument for a proper list
only when it is a list.  A last argument that is no list at all is taken for
one more object: applied to the objects 1 and 2, or 1 and the symbol `A`, the
function of `(lambda (:rest xs) xs)` is invoked, on `(1 2)` and on `(1 A)`,
and there is no program error.  A dotted last argument `(2 . 3)` is rejected
with the program error. -/
theorem apply_takes_non_list_for_object :
    isProperList (.integer 2) = false ∧ isProperList (sym "A") = false ∧
    outcome (Apply (applyMethod (Eval 8)) sampleLocal sampleGlobal (.function 0)
        [.integer 1, .integer 2] restWorld) = some (list [.integer 1, .integer 2], .nil) ∧
    outcome (Apply (applyMethod (Eval 8)) sampleLocal sampleGlobal (.function 0)
        [.integer 1, sym "A"] restWorld) = some (list [.integer 1, sym "A"], .nil) ∧
    Apply (applyMethod (Eval 8)) sampleLocal sampleGlobal (.function 0)
        [.integer 1, .cons (.integer 2) (.integer 3)] restWorld
      = .ok ((.nil, New .ProgramError []), restWorld) :=
  ⟨rfl, rfl, by rfl, by rfl, rfl⟩

/-! ## Theorems: repeated parameters -/

/-- C20 as stated fails: the lambda lists `(x x)` and `(x :rest x)`, in which
`x` occurs twice, are accepted by `checkLambdaList`. -/
theorem repeated_parameter_is_accepted :
    checkLambdaList (list [sym "X", sym "X"]) = .nil ∧
    checkLambdaList (list [sym "X", sym ":REST", sym "X"]) = .nil ∧
    New .ProgramError [] ≠ .nil :=
  ⟨by decide, by decide, by decide⟩

/-- C20 amended: `checkLambdaList` does not compare the parameters with one
another: it returns no error for every proper list of symbols other than the
rest markers, and for every such list followed by a rest marker and one
symbol, whether or not a symbol occurs more than once; so for a parameter `s`
the lists `(s s)` and `(s :rest s)` are accepted and `Lambda` makes a function
object for them.  `Labels` and `Flet` with such lambda lists signal no error:
`(labels ((f (x x) x)) (f 5 6))` and `(flet ((f (x :rest x) x)) (f 5 6))`
return a value. -/
theorem repeated_parameters_are_not_checked :
    (∀ ss : List Instance, (∀ s ∈ ss, IsParameter s) → checkLambdaList (list ss) = .nil) ∧
    (∀ (ss : List Instance) (m r : Instance), (∀ s ∈ ss, IsParameter s) → IsRestMarker m →
      InstanceOf .Symbol r = true → checkLambdaList (list (ss ++ [m, r])) = .nil) ∧
    (∀ (s : Instance) (loc global : env.Environment) (body : List Instance) (w : World),
      IsParameter s →
      checkLambdaList (list [s, s]) = .nil ∧
      checkLambdaList (list [s, .symbol ":REST", s]) = .nil ∧
      (∃ r w1, Lambda loc global (list [s, s]) body w = ((.function r, .nil), w1)) ∧
      (∃ r w1, Lambda loc global (list [s, .symbol ":REST", s]) body w
        = ((.function r, .nil), w1))) ∧
    outcome (Eval 8 sampleLocal sampleGlobal labelsRepeated emptyWorld)
      = some (.integer 6, .nil) ∧
    outcome (Eval 8 sampleLocal sampleGlobal fletRepeated emptyWorld)
      = some (list [.integer 6], .nil) := by
  have h1 : ∀ ss : List Instance, (∀ s ∈ ss, IsParameter s) → checkLambdaList (list ss) = .nil :=
    fun ss hss => (checkLambdaList_iff _).2 (Or.inl ⟨ss, rfl, hss⟩)
  have h2 : ∀ (ss : List Instance) (m r : Instance), (∀ s ∈ ss, IsParameter s) →
      IsRestMarker m → InstanceOf .Symbol r = true →
      checkLambdaList (list (ss ++ [m, r])) = .nil :=
    fun ss m r hss hm hr => (checkLambdaList_iff _).2 (Or.inr ⟨ss, m, r, rfl, hss, hm, hr⟩)
  refine ⟨h1, h2, ?_, by rfl, by rfl⟩
  intro s loc global body w hs
  have hall2 : ∀ x ∈ [s, s], IsParameter x := by
    intro x hx
    simp at hx
    subst hx
    exact hs
  have hall1 : ∀ x ∈ [s], IsParameter x := by
    intro x hx
    simp at hx
    subst hx
    exact hs
  have e1 := h1 [s, s] hall2
  have e2 := h2 [s] (.symbol ":REST") s hall1 (Or.inl rfl) hs.1
  exact ⟨e1, e2, ⟨_, _, Lambda_ok loc global _ body w e1⟩, ⟨_, _, Lambda_ok loc global _ body w e2⟩⟩

/-- Witness of C20 amended: `(x x)` is a list of parameters and is accepted. -/
theorem repeated_parameters_are_not_checked_witness :
    checkLambdaList (list [sym "X", sym "X"]) = .nil :=
  repeated_parameters_are_not_checked.1 [sym "X", sym "X"] (by
    intro s hs
    simp at hs
    subst hs
    exact ⟨rfl, by decide, by decide⟩)

end runtime

/-! ## Theorems: cleanup forms, condition constructors -/

namespace runtime

/-- C21 fails on the code: `UnwindProtect` answers every escape of a cleanup
form with the control error, also when the protected form has exited normally
and the destination is valid.  In the world where the catch tag `FOO` is
established, `(unwind-protect 1 (throw 'foo 2))` evaluates the protected form
to 1 with no condition, the cleanup form yields the CatchTag escape for `FOO`,
and the result is the control error; so
`(catch 'foo (unwind-protect 1 (throw 'foo 2)))` returns the control error and
not 2. -/
theorem cleanup_exit_is_control_error :
    sampleEval sampleLocal (.integer 1) (emptyWorld.store 2 (sym "FOO") .nil)
      = .ok ((.integer 1, .nil), emptyWorld.store 2 (sym "FOO") .nil) ∧
    Progn sampleEval sampleLocal [list [sym "THROW", quoted (sym "FOO"), .integer 2]]
        (emptyWorld.store 2 (sym "FOO") .nil)
      = .ok ((.nil, NewCatchTag (sym "FOO") (.integer 2)),
          emptyWorld.store 2 (sym "FOO") .nil) ∧
    UnwindProtect sampleEval sampleLocal (.integer 1)
        [list [sym "THROW", quoted (sym "FOO"), .integer 2]]
        (emptyWorld.store 2 (sym "FOO") .nil)
      = .ok ((.nil, NewControlError), emptyWorld.store 2 (sym "FOO") .nil) ∧
    outcome (Eval 8 sampleLocal sampleGlobal cleanupThrowForm emptyWorld)
      = some (.nil, NewControlError) ∧
    outcome (Eval 8 sampleLocal sampleGlobal cleanupThrowForm emptyWorld)
      ≠ some (.integer 2, .nil) :=
  ⟨rfl, rfl, rfl, by rfl, by decide⟩

/-- C22 fails on the code: `NewDomainError` and `NewParseError` write the
expected class under the slot name `EXPECTED-CLASSS`, with three S; the slot
`EXPECTED-CLASS` does not exist in the instances they return, whereas the
DomainErrors built by `Function` and `Apply` have it.  The class and the
slots OBJECT and STRING are as claimed. -/
theorem expected_class_slot_is_misspelt (o c s : Instance) :
    InstanceOf .DomainError (NewDomainError o c) = true ∧
    GetSlotValue (NewDomainError o c) "OBJECT" = (o, true) ∧
    GetSlotValue (NewDomainError o c) "EXPECTED-CLASS" = (.nil, false) ∧
    GetSlotValue (NewDomainError o c) "EXPECTED-CLASSS" = (c, true) ∧
    InstanceOf .ParseError (NewParseError s c) = true ∧
    GetSlotValue (NewParseError s c) "STRING" = (s, true) ∧
    GetSlotValue (NewParseError s c) "EXPECTED-CLASS" = (.nil, false) ∧
    GetSlotValue (NewParseError s c) "EXPECTED-CLASSS" = (c, true) ∧
    GetSlotValue (Function sampleLocal sampleGlobal (.integer 1) emptyWorld).2 "EXPECTED-CLASS"
      = (.classObject .Symbol, true) ∧
    (∃ condition,
      outcome (Apply (applyMethod (Eval 8)) sampleLocal sampleGlobal (.integer 7) [Nil] emptyWorld)
        = some (.nil, condition) ∧
      GetSlotValue condition "EXPECTED-CLASS" = (.classObject .Function, true)) := by
  refine ⟨rfl, ?_, ?_, ?_, rfl, ?_, ?_, ?_, ?_, ⟨_, by rfl, by rfl⟩⟩ <;>
    simp [GetSlotValue, NewDomainError, NewParseError, Function, InstanceOf, Instance.classOf,
      Class.isBelow, Class.super, New, slots, Slots.get]

/-- C29: `NewArityError`, `NewIndexOutOfRange` and `NewImmutableBinding` return
one and the same value, the instance of class ProgramError with no slot; so
whatever an observer computes from a condition, it computes the same from the
three. -/
theorem program_errors_are_indistinguishable :
    NewArityError = NewIndexOutOfRange ∧ NewIndexOutOfRange = NewImmutableBinding ∧
    NewArityError = .standard .ProgramError .nil ∧
    InstanceOf .ProgramError NewArityError = true ∧
    (∀ name, GetSlotValue NewArityError name = (.nil, false)) ∧
    (∀ (α : Type) (observe : Instance → α),
      observe NewArityError = observe NewIndexOutOfRange ∧
      observe NewIndexOutOfRange = observe NewImmutableBinding) :=
  ⟨rfl, rfl, rfl, rfl, fun _ => rfl, fun _ _ => ⟨rfl, rfl⟩⟩

end runtime

/-! ## Theorems: new environments and the operations on them -/

namespace environment

open ilos

theorem New_fst (w : World) :
    (New w).1 = { ThrowTag := [w.next], Macro := [w.next + 1], Function := [w.next + 2],
                  Variable := [w.next + 3], DynamicVariable := [w.next + 4] } := rfl

theorem New_next (w : World) : (New w).2.next = w.next + 5 := rfl

theorem New_maps_new (w : World) (a : Nat) (h1 : w.next ≤ a) (h2 : a < w.next + 5) :
    (New w).2.maps a = Frame.empty := by
  simp only [New, runtime.alloc]
  have h : a = w.next ∨ a = w.next + 1 ∨ a = w.next + 2 ∨ a = w.next + 3 ∨ a = w.next + 4 := by
    omega
  rcases h with rfl | rfl | rfl | rfl | rfl <;> simp

theorem New_maps_old (w : World) (a : Nat) (h : a < w.next) : (New w).2.maps a = w.maps a := by
  simp only [New, runtime.alloc]
  have h0 : a ≠ w.next := by omega
  have h1 : a ≠ w.next + 1 := by omega
  have h2 : a ≠ w.next + 2 := by omega
  have h3 : a ≠ w.next + 3 := by omega
  have h4 : a ≠ w.next + 1 + 1 + 1 + 1 := by omega
  have h5 : a ≠ w.next + 1 + 1 + 1 := by omega
  have h6 : a ≠ w.next + 1 + 1 := by omega
  simp [h0, h1, h2, h3, h4, h5, h6]

theorem scanGet_empty_front (w : World) (a : Nat) (rest : List Nat) (key : Instance)
    (h : w.maps a = Frame.empty) : scanGet w (a :: rest) key = scanGet w rest key :=
  scanGet_cons_none rest (by rw [h]; rfl)

theorem scanSet_empty_single (w : World) (a : Nat) (key value : Instance)
    (h : w.maps a = Frame.empty) : scanSet w [a] key value = (false, w) := by
  have hk : w.maps a key = none := by rw [h]; rfl
  simp [scanSet, hk]

theorem New_allStacksNonEmpty (w : World) : AllStacksNonEmpty (New w).1 := by
  simp [New_fst, AllStacksNonEmpty]

theorem New_separated (w : World) : Separated (New w).1 := by
  simp [New_fst, Separated]

theorem defineFront_ok (w : World) (stack : List Nat) (key value : Instance) (h : stack ≠ []) :
    ∃ w1, defineFront w stack key value = .ok w1 := by
  cases stack with
  | nil => exact absurd rfl h
  | cons a rest => exact ⟨_, rfl⟩

theorem Operation.run_nonEmpty (op : Operation) (s : Environment × World)
    (h : AllStacksNonEmpty s.1) : ∃ s1, op.run s = .ok s1 ∧ AllStacksNonEmpty s1.1 := by
  obtain ⟨e, w⟩ := s
  obtain ⟨hT, hM, hF, hV, hD⟩ := h
  cases op with
  | defineThrowTag key value =>
    obtain ⟨w1, h1⟩ := defineFront_ok w e.ThrowTag key value hT
    exact ⟨(e, w1), by simp [Operation.run, DefineThrowTag, h1, Except.map], hT, hM, hF, hV, hD⟩
  | defineMacro key value =>
    obtain ⟨w1, h1⟩ := defineFront_ok w e.Macro key value hM
    exact ⟨(e, w1), by simp [Operation.run, DefineMacro, h1, Except.map], hT, hM, hF, hV, hD⟩
  | defineFunction key value =>
    obtain ⟨w1, h1⟩ := defineFront_ok w e.Function key value hF
    exact ⟨(e, w1), by simp [Operation.run, DefineFunction, h1, Except.map], hT, hM, hF, hV, hD⟩
  | defineVariable key value =>
    obtain ⟨w1, h1⟩ := defineFront_ok w e.Variable key value hV
    exact ⟨(e, w1), by simp [Operation.run, DefineVariable, h1, Except.map], hT, hM, hF, hV, hD⟩
  | defineDynamicVariable key value =>
    obtain ⟨w1, h1⟩ := defineFront_ok w e.DynamicVariable key value hD
    exact ⟨(e, w1), by simp [Operation.run, DefineDynamicVariable, h1, Except.map],
      hT, hM, hF, hV, hD⟩
  | setThrowTag key value => exact ⟨_, rfl, hT, hM, hF, hV, hD⟩
  | setMacro key value => exact ⟨_, rfl, hT, hM, hF, hV, hD⟩
  | setFunction key value => exact ⟨_, rfl, hT, hM, hF, hV, hD⟩
  | setVariable key value => exact ⟨_, rfl, hT, hM, hF, hV, hD⟩
  | setDynamicVariable key value => exact ⟨_, rfl, hT, hM, hF, hV, hD⟩
  | appendAll f =>
    refine ⟨_, rfl, ?_⟩
    simp [AppendAll, AllStacksNonEmpty, hT, hM, hF, hV, hD]
  | appendDynamicVariable f =>
    refine ⟨_, rfl, ?_⟩
    simp [AppendDynamicVariable, AllStacksNonEmpty, hT, hM, hF, hV, hD]
  | appendThrowTag f =>
    refine ⟨_, rfl, ?_⟩
    simp [AppendThrowTag, AllStacksNonEmpty, hT, hM, hF, hV, hD]

theorem runAll_nonEmpty (ops : List Operation) (s : Environment × World)
    (h : AllStacksNonEmpty s.1) : ∃ s1, runAll ops s = .ok s1 ∧ AllStacksNonEmpty s1.1 := by
  induction ops generalizing s with
  | nil => exact ⟨s, rfl, h⟩
  | cons op rest ih =>
    obtain ⟨s1, h1, hne⟩ := Operation.run_nonEmpty op s h
    obtain ⟨s2, h2, hne2⟩ := ih s1 hne
    exact ⟨s2, by simp [runAll, h1, h2], hne2⟩

/-- C23 fails on the code: on an environment just returned by `New` every
frame is empty, so `SetVariable(s, v)`, `SetFunction(s, v)` and
`SetMacro(s, v)` find no frame that binds `s`, report false and leave the world
as it was, and the lookup of `s` afterwards is `(nil, false)`, not `(v, true)`;
so it is for the symbol PI and the float 3.14 of the test setup. -/
theorem set_on_new_environment_binds_nothing (w : World) (s v : Instance) :
    SetVariable (New w).1 s v (New w).2 = (false, (New w).2) ∧
    GetVariable (New w).1 s (SetVariable (New w).1 s v (New w).2).2 = (.nil, false) ∧
    SetFunction (New w).1 s v (New w).2 = (false, (New w).2) ∧
    GetFunction (New w).1 s (SetFunction (New w).1 s v (New w).2).2 = (.nil, false) ∧
    SetMacro (New w).1 s v (New w).2 = (false, (New w).2) ∧
    GetMacro (New w).1 s (SetMacro (New w).1 s v (New w).2).2 = (.nil, false) ∧
    GetVariable (New w).1 (.symbol "PI")
        (SetVariable (New w).1 (.symbol "PI") pi (New w).2).2 ≠ (pi, true) := by
  have hV : (New w).2.maps (w.next + 3) = Frame.empty := New_maps_new w _ (by omega) (by omega)
  have hF : (New w).2.maps (w.next + 2) = Frame.empty := New_maps_new w _ (by omega) (by omega)
  have hM : (New w).2.maps (w.next + 1) = Frame.empty := New_maps_new w _ (by omega) (by omega)
  have sV : ∀ k u, SetVariable (New w).1 k u (New w).2 = (false, (New w).2) := fun k u =>
    scanSet_empty_single _ _ k u hV
  have sF : SetFunction (New w).1 s v (New w).2 = (false, (New w).2) :=
    scanSet_empty_single _ _ s v hF
  have sM : SetMacro (New w).1 s v (New w).2 = (false, (New w).2) :=
    scanSet_empty_single _ _ s v hM
  have gV : ∀ k, GetVariable (New w).1 k (New w).2 = (.nil, false) := fun k =>
    (scanGet_empty_front _ _ [] k hV).trans rfl
  have gF : GetFunction (New w).1 s (New w).2 = (.nil, false) :=
    (scanGet_empty_front _ _ [] s hF).trans rfl
  have gM : GetMacro (New w).1 s (New w).2 = (.nil, false) :=
    (scanGet_empty_front _ _ [] s hM).trans rfl
  refine ⟨sV s v, ?_, sF, ?_, sM, ?_, ?_⟩
  · rw [sV]; exact gV s
  · rw [sF]; exact gF
  · rw [sM]; exact gM
  · rw [sV, gV]; simp

/-- C28: whatever sequence of `Define*`, `Set*`, `AppendAll`,
`AppendDynamicVariable` and `AppendThrowTag` operations is run on an
environment returned by `New`, no operation panics, all five stacks of the
resulting environment hold a frame, and each of the five `Define*` methods
returns on it. -/
theorem stacks_stay_non_empty (w : World) (ops : List Operation) :
    ∃ e1 w1, runAll ops (New w) = .ok (e1, w1) ∧ AllStacksNonEmpty e1 ∧
      ∀ key value,
        (∃ w2, DefineThrowTag e1 key value w1 = .ok w2) ∧
        (∃ w2, DefineMacro e1 key value w1 = .ok w2) ∧
        (∃ w2, DefineFunction e1 key value w1 = .ok w2) ∧
        (∃ w2, DefineVariable e1 key value w1 = .ok w2) ∧
        (∃ w2, DefineDynamicVariable e1 key value w1 = .ok w2) := by
  obtain ⟨⟨e1, w1⟩, h1, hne⟩ := runAll_nonEmpty ops (New w) (New_allStacksNonEmpty w)
  refine ⟨e1, w1, h1, hne, fun key value => ?_⟩
  obtain ⟨hT, hM, hF, hV, hD⟩ := hne
  exact ⟨defineFront_ok _ _ _ _ hT, defineFront_ok _ _ _ _ hM, defineFront_ok _ _ _ _ hF,
    defineFront_ok _ _ _ _ hV, defineFront_ok _ _ _ _ hD⟩

end environment

/-! ## Theorems: the namespaces of an environment are apart -/

namespace environment

open ilos

theorem scanGet_store_not_mem (w : World) (a : Nat) (key value : Instance) (stack : List Nat)
    (k : Instance) (h : a ∉ stack) :
    scanGet (w.store a key value) stack k = scanGet w stack k :=
  scanGet_congr stack k (fun _ hb =>
    World.store_maps_other_map w key value (fun hba => h (hba ▸ hb)))

theorem defineFront_wroteWithin {w w1 : World} {stack : List Nat} {key value : Instance}
    (h : defineFront w stack key value = .ok w1) : WroteWithin stack w w1 := by
  cases stack with
  | nil => simp [defineFront] at h
  | cons a rest =>
    simp only [defineFront, Except.ok.injEq] at h
    exact Or.inr ⟨a, by simp, key, value, h.symm⟩

theorem scanSet_wroteWithin (w : World) (stack : List Nat) (key value : Instance) :
    WroteWithin stack w (scanSet w stack key value).2 := by
  induction stack with
  | nil => exact Or.inl rfl
  | cons a rest ih =>
    cases hk : w.maps a key with
    | some u =>
      simp only [scanSet, hk]
      exact Or.inr ⟨a, by simp, key, value, rfl⟩
    | none =>
      simp only [scanSet, hk]
      rcases ih with h | ⟨b, hb, k, v, h⟩
      · exact Or.inl h
      · exact Or.inr ⟨b, by simp [hb], k, v, h⟩

theorem scanGet_of_wroteWithin {stack other : List Nat} {w w1 : World}
    (h : WroteWithin stack w w1) (hd : List.Disjoint stack other) (k : Instance) :
    scanGet w1 other k = scanGet w other k := by
  rcases h with rfl | ⟨a, ha, key, value, rfl⟩
  · rfl
  · exact scanGet_store_not_mem w a key value other k (fun hmem => hd ha hmem)

theorem separated_iff (e : Environment) :
    Separated e ↔
      (List.Disjoint e.ThrowTag e.Macro ∧ List.Disjoint e.ThrowTag e.Function ∧
        List.Disjoint e.ThrowTag e.Variable ∧ List.Disjoint e.ThrowTag e.DynamicVariable) ∧
      (List.Disjoint e.Macro e.Function ∧ List.Disjoint e.Macro e.Variable ∧
        List.Disjoint e.Macro e.DynamicVariable) ∧
      (List.Disjoint e.Function e.Variable ∧ List.Disjoint e.Function e.DynamicVariable) ∧
      List.Disjoint e.Variable e.DynamicVariable := by
  simp [Separated, List.pairwise_cons]

end environment

namespace environment

open ilos

theorem sameOutsideThrowTag_of_wrote {e : Environment} (h : Separated e) {w w1 : World}
    (hw : WroteWithin e.ThrowTag w w1) : SameOutsideThrowTag e w w1 := by
  obtain ⟨⟨hTM, hTF, hTV, hTD⟩, -, -, -⟩ := (separated_iff e).1 h
  exact fun k => ⟨scanGet_of_wroteWithin hw hTM k, scanGet_of_wroteWithin hw hTF k,
    scanGet_of_wroteWithin hw hTV k, scanGet_of_wroteWithin hw hTD k⟩

theorem sameOutsideMacro_of_wrote {e : Environment} (h : Separated e) {w w1 : World}
    (hw : WroteWithin e.Macro w w1) : SameOutsideMacro e w w1 := by
  obtain ⟨⟨hTM, -, -, -⟩, ⟨hMF, hMV, hMD⟩, -, -⟩ := (separated_iff e).1 h
  exact fun k => ⟨scanGet_of_wroteWithin hw hMF k, scanGet_of_wroteWithin hw hMV k,
    scanGet_of_wroteWithin hw hMD k, scanGet_of_wroteWithin hw hTM.symm k⟩

theorem sameOutsideFunction_of_wrote {e : Environment} (h : Separated e) {w w1 : World}
    (hw : WroteWithin e.Function w w1) : SameOutsideFunction e w w1 := by
  obtain ⟨⟨-, hTF, -, -⟩, ⟨hMF, -, -⟩, ⟨hFV, hFD⟩, -⟩ := (separated_iff e).1 h
  exact fun k => ⟨scanGet_of_wroteWithin hw hMF.symm k, scanGet_of_wroteWithin hw hFV k,
    scanGet_of_wroteWithin hw hFD k, scanGet_of_wroteWithin hw hTF.symm k⟩

theorem sameOutsideVariable_of_wrote {e : Environment} (h : Separated e) {w w1 : World}
    (hw : WroteWithin e.Variable w w1) : SameOutsideVariable e w w1 := by
  obtain ⟨⟨-, -, hTV, -⟩, ⟨-, hMV, -⟩, ⟨hFV, -⟩, hVD⟩ := (separated_iff e).1 h
  exact fun k => ⟨scanGet_of_wroteWithin hw hMV.symm k, scanGet_of_wroteWithin hw hFV.symm k,
    scanGet_of_wroteWithin hw hVD k, scanGet_of_wroteWithin hw hTV.symm k⟩

theorem sameOutsideDynamicVariable_of_wrote {e : Environment} (h : Separated e) {w w1 : World}
    (hw : WroteWithin e.DynamicVariable w w1) : SameOutsideDynamicVariable e w w1 := by
  obtain ⟨⟨-, -, -, hTD⟩, ⟨-, -, hMD⟩, ⟨-, hFD⟩, hVD⟩ := (separated_iff e).1 h
  exact fun k => ⟨scanGet_of_wroteWithin hw hMD.symm k, scanGet_of_wroteWithin hw hFD.symm k,
    scanGet_of_wroteWithin hw hVD.symm k, scanGet_of_wroteWithin hw hTD.symm k⟩

theorem define_both (e : Environment) (h : Separated e) (s a b : Instance) (w : World)
    (hV : e.Variable ≠ []) (hF : e.Function ≠ []) :
    (∃ w1 w2, DefineVariable e s a w = .ok w1 ∧ DefineFunction e s b w1 = .ok w2 ∧
      GetVariable e s w2 = (a, true) ∧ GetFunction e s w2 = (b, true)) ∧
    (∃ w1 w2, DefineFunction e s b w = .ok w1 ∧ DefineVariable e s a w1 = .ok w2 ∧
      GetVariable e s w2 = (a, true) ∧ GetFunction e s w2 = (b, true)) := by
  obtain ⟨-, -, ⟨hFV, -⟩, -⟩ := (separated_iff _).1 h
  unfold DefineVariable DefineFunction GetVariable GetFunction
  revert hV hF hFV
  generalize e.Variable = vv
  generalize e.Function = ff
  intro hV hF hFV
  cases vv with
  | nil => exact absurd rfl hV
  | cons av vrest =>
  cases ff with
  | nil => exact absurd rfl hF
  | cons af frest =>
  have hav : av ∉ af :: frest := fun hm => hFV hm (by simp)
  have haf : af ∉ av :: vrest := fun hm => hFV (by simp) hm
  constructor
  · refine ⟨w.store av s a, (w.store av s a).store af s b, rfl, rfl, ?_, ?_⟩
    · show scanGet _ (av :: vrest) s = _
      rw [scanGet_store_not_mem _ af s b _ s haf]
      exact scanGet_store_front w av vrest s a
    · exact scanGet_store_front _ af frest s b
  · refine ⟨w.store af s b, (w.store af s b).store av s a, rfl, rfl, ?_, ?_⟩
    · exact scanGet_store_front _ av vrest s a
    · show scanGet _ (af :: frest) s = _
      rw [scanGet_store_not_mem _ av s a _ s hav]
      exact scanGet_store_front w af frest s b

/-- C24: in an environment whose namespaces share no map object, as every
environment built by `New` and the `Append*` functions is, a `Define*` or a
`Set*` in one namespace leaves the result of every lookup in the four other
namespaces as it was; and when the Variable and Function stacks hold a frame,
after `DefineVariable(s, a)` and `DefineFunction(s, b)`, in either order,
`GetVariable(s)` is `(a, true)` and `GetFunction(s)` is `(b, true)`. -/
theorem namespaces_do_not_alias (e : Environment) (hsep : Separated e) (s a b : Instance)
    (w : World) :
    ((∀ w1, DefineVariable e s a w = .ok w1 → SameOutsideVariable e w w1) ∧
      SameOutsideVariable e w (SetVariable e s a w).2) ∧
    ((∀ w1, DefineFunction e s a w = .ok w1 → SameOutsideFunction e w w1) ∧
      SameOutsideFunction e w (SetFunction e s a w).2) ∧
    ((∀ w1, DefineMacro e s a w = .ok w1 → SameOutsideMacro e w w1) ∧
      SameOutsideMacro e w (SetMacro e s a w).2) ∧
    ((∀ w1, DefineDynamicVariable e s a w = .ok w1 → SameOutsideDynamicVariable e w w1) ∧
      SameOutsideDynamicVariable e w (SetDynamicVariable e s a w).2) ∧
    ((∀ w1, DefineThrowTag e s a w = .ok w1 → SameOutsideThrowTag e w w1) ∧
      SameOutsideThrowTag e w (SetThrowTag e s a w).2) ∧
    (e.Variable ≠ [] → e.Function ≠ [] →
      (∃ w1 w2, DefineVariable e s a w = .ok w1 ∧ DefineFunction e s b w1 = .ok w2 ∧
        GetVariable e s w2 = (a, true) ∧ GetFunction e s w2 = (b, true)) ∧
      (∃ w1 w2, DefineFunction e s b w = .ok w1 ∧ DefineVariable e s a w1 = .ok w2 ∧
        GetVariable e s w2 = (a, true) ∧ GetFunction e s w2 = (b, true))) :=
  ⟨⟨fun _ h => sameOutsideVariable_of_wrote hsep (defineFront_wroteWithin h),
      sameOutsideVariable_of_wrote hsep (scanSet_wroteWithin w _ s a)⟩,
    ⟨fun _ h => sameOutsideFunction_of_wrote hsep (defineFront_wroteWithin h),
      sameOutsideFunction_of_wrote hsep (scanSet_wroteWithin w _ s a)⟩,
    ⟨fun _ h => sameOutsideMacro_of_wrote hsep (defineFront_wroteWithin h),
      sameOutsideMacro_of_wrote hsep (scanSet_wroteWithin w _ s a)⟩,
    ⟨fun _ h => sameOutsideDynamicVariable_of_wrote hsep (defineFront_wroteWithin h),
      sameOutsideDynamicVariable_of_wrote hsep (scanSet_wroteWithin w _ s a)⟩,
    ⟨fun _ h => sameOutsideThrowTag_of_wrote hsep (defineFront_wroteWithin h),
      sameOutsideThrowTag_of_wrote hsep (scanSet_wroteWithin w _ s a)⟩,
    fun hV hF => define_both e hsep s a b w hV hF⟩

theorem sampleEnv_separated : Separated sampleEnv := by
  simp [Separated, sampleEnv]

/-- Witness for C24: the sample environment, whose six maps are all different,
with the symbol X, defined as the variable 7 and as the function 8. -/
theorem namespaces_do_not_alias_witness :
    Separated sampleEnv ∧ sampleEnv.Variable ≠ [] ∧ sampleEnv.Function ≠ [] ∧
    SameOutsideVariable sampleEnv sampleWorld
      (SetVariable sampleEnv (.symbol "X") (.integer 7) sampleWorld).2 ∧
    (∃ w1 w2, DefineVariable sampleEnv (.symbol "X") (.integer 7) sampleWorld = .ok w1 ∧
      DefineFunction sampleEnv (.symbol "X") (.integer 8) w1 = .ok w2 ∧
      GetVariable sampleEnv (.symbol "X") w2 = (.integer 7, true) ∧
      GetFunction sampleEnv (.symbol "X") w2 = (.integer 8, true)) :=
  ⟨sampleEnv_separated, by simp [sampleEnv], by simp [sampleEnv],
    (namespaces_do_not_alias sampleEnv sampleEnv_separated (.symbol "X") (.integer 7)
      (.integer 8) sampleWorld).1.2,
    ((namespaces_do_not_alias sampleEnv sampleEnv_separated (.symbol "X") (.integer 7)
      (.integer 8) sampleWorld).2.2.2.2.2 (by simp [sampleEnv]) (by simp [sampleEnv])).1⟩

end environment

namespace environment

theorem coloured_separated {colour : Nat → Nat} {e : Environment} (h : Coloured colour e) :
    Separated e := by
  obtain ⟨hT, hM, hF, hV, hD⟩ := h
  rw [separated_iff]
  refine ⟨⟨?_, ?_, ?_, ?_⟩, ⟨?_, ?_, ?_⟩, ⟨?_, ?_⟩, ?_⟩ <;> intro a h1 h2
  · have := hT a h1; have := hM a h2; omega
  · have := hT a h1; have := hF a h2; omega
  · have := hT a h1; have := hV a h2; omega
  · have := hT a h1; have := hD a h2; omega
  · have := hM a h1; have := hF a h2; omega
  · have := hM a h1; have := hV a h2; omega
  · have := hM a h1; have := hD a h2; omega
  · have := hF a h1; have := hV a h2; omega
  · have := hF a h1; have := hD a h2; omega
  · have := hV a h1; have := hD a h2; omega

theorem coloured_appendAll {colour : Nat → Nat} {e f : Environment} (he : Coloured colour e)
    (hf : Coloured colour f) : Coloured colour (AppendAll e f) := by
  obtain ⟨hT, hM, hF, hV, hD⟩ := he
  obtain ⟨gT, gM, gF, gV, gD⟩ := hf
  refine ⟨?_, ?_, ?_, ?_, ?_⟩ <;> intro a ha <;>
    rcases List.mem_append.1 ha with h | h
  · exact hT a h
  · exact gT a h
  · exact hM a h
  · exact gM a h
  · exact hF a h
  · exact gF a h
  · exact hV a h
  · exact gV a h
  · exact hD a h
  · exact gD a h

theorem coloured_appendDynamicVariable {colour : Nat → Nat} {e f : Environment}
    (he : Coloured colour e) (hf : Coloured colour f) :
    Coloured colour (AppendDynamicVariable e f) := by
  obtain ⟨hT, hM, hF, hV, hD⟩ := he
  refine ⟨hT, hM, hF, hV, fun a ha => ?_⟩
  rcases List.mem_append.1 ha with h | h
  · exact hD a h
  · exact hf.2.2.2.2 a h

theorem coloured_appendThrowTag {colour : Nat → Nat} {e f : Environment}
    (he : Coloured colour e) (hf : Coloured colour f) : Coloured colour (AppendThrowTag e f) := by
  obtain ⟨hT, hM, hF, hV, hD⟩ := he
  refine ⟨fun a ha => ?_, hM, hF, hV, hD⟩
  rcases List.mem_append.1 ha with h | h
  · exact hT a h
  · exact hf.1 a h

theorem coloured_New (colour : Nat → Nat) (w : World) : Coloured (colourNew colour w) (New w).1 := by
  simp [Coloured, New_fst, colourNew]

theorem coloured_after_New {colour : Nat → Nat} {w : World} {e : Environment}
    (h : Coloured colour e) (hold : ∀ a ∈ frames e, a < w.next) :
    Coloured (colourNew colour w) e := by
  have hc : ∀ a ∈ frames e, colourNew colour w a = colour a := by
    intro a ha
    have := hold a ha
    have hn : ¬ (w.next ≤ a ∧ a < w.next + 5) := by omega
    simp [colourNew, hn]
  simp only [frames, List.mem_append] at hc
  obtain ⟨hT, hM, hF, hV, hD⟩ := h
  refine ⟨fun a ha => ?_, fun a ha => ?_, fun a ha => ?_, fun a ha => ?_, fun a ha => ?_⟩
  · rw [hc a (by simp [ha])]; exact hT a ha
  · rw [hc a (by simp [ha])]; exact hM a ha
  · rw [hc a (by simp [ha])]; exact hF a ha
  · rw [hc a (by simp [ha])]; exact hV a ha
  · rw [hc a (by simp [ha])]; exact hD a ha

end environment

/-! ## Theorems: vectors -/

namespace runtime

open ilos

theorem instanceOf_integer (n : Int) : InstanceOf .Integer (.integer n) = true := by
  simp [InstanceOf, Instance.classOf, Class.isBelow]

theorem toList_ofList_length (xs : List Instance) :
    (Instances.ofList xs).toList.length = xs.length := by
  induction xs with
  | nil => rfl
  | cons x xs ih => simp [Instances.ofList, Instances.toList, ih]

theorem toList_ofList_mem (xs : List Instance) (y : Instance) :
    y ∈ (Instances.ofList xs).toList ↔ y ∈ xs := by
  induction xs with
  | nil => simp [Instances.ofList, Instances.toList]
  | cons x xs ih => simp [Instances.ofList, Instances.toList, ih]

/-- C25 fails on the code: `CreateVector` hands the length to `make` without
a guard, so for the non-negative integer 2^62 it panics, where the claim has
it return a vector of that length and its doc comment has it signal an error
(cannot-create-vector).  For a non-negative integer `i` up to `maxSliceLen`
and at most one initial element it returns, with no condition, a general
vector whose slice has length `i` and whose every element is the initial
element, or Nil when none is given; for an `i` that is not an Integer, or is
a negative Integer, it returns no value and the DomainError for `i` and the
class Integer. -/
theorem createVector_panics_beyond_allocation (e : env.Environment) :
    (InstanceOf .Integer (.integer (2 ^ 62)) = true ∧ (0 : Int) ≤ 2 ^ 62 ∧
      CreateVector e (.integer (2 ^ 62)) [] = .error .panic ∧
      ∀ x, CreateVector e (.integer (2 ^ 62)) [x] = .error .panic) ∧
    (∀ (n : Int) (initialElement : List Instance), 0 ≤ n → n ≤ maxSliceLen →
      initialElement.length ≤ 1 →
      ∃ v, CreateVector e (.integer n) initialElement = .ok (.generalVector v, .nil) ∧
        (v.toList.length : Int) = n ∧
        (initialElement = [] → ∀ y ∈ v.toList, y = Nil) ∧
        (∀ x, initialElement = [x] → ∀ y ∈ v.toList, y = x)) ∧
    (∀ (i : Instance) (initialElement : List Instance),
      (InstanceOf .Integer i = false ∨ ∃ n : Int, n < 0 ∧ i = .integer n) →
      CreateVector e i initialElement = .ok (.nil, NewDomainError i (.classObject .Integer)) ∧
      InstanceOf .DomainError (NewDomainError i (.classObject .Integer)) = true) := by
  refine ⟨⟨instanceOf_integer _, by decide, ?_, fun x => ?_⟩, ?_, ?_⟩
  · simp [CreateVector, instanceOf_integer, intOf, maxSliceLen]
  · simp [CreateVector, instanceOf_integer, intOf, maxSliceLen]
  · intro n initialElement hn hmax hlen
    have h1 : ¬ (n < 0) := not_lt.mpr hn
    have h2 : ¬ (initialElement.length > 1) := by omega
    have h3 : ¬ (n.toNat > maxSliceLen) := by omega
    refine ⟨Instances.ofList ((List.range n.toNat).map (fun _ =>
        if initialElement.length = 0 then Nil else initialElement.getD 0 .nil)),
      by simp only [CreateVector, instanceOf_integer, Bool.not_true, Bool.false_or,
        decide_eq_true_eq, intOf, h1, h2, h3, if_false, GeneralVector], ?_, ?_, ?_⟩
    · simp [toList_ofList_length, Int.toNat_of_nonneg hn]
    · intro hnil y hy
      subst hnil
      rw [toList_ofList_mem] at hy
      simp at hy
      exact hy.2
    · intro x hx y hy
      subst hx
      rw [toList_ofList_mem] at hy
      simp at hy
      exact hy.2
  · intro i initialElement h
    have hguard : (!InstanceOf .Integer i || decide (intOf i < 0)) = true := by
      rcases h with h | ⟨n, hn, rfl⟩
      · simp [h]
      · simp [intOf, hn]
    exact ⟨by simp only [CreateVector, hguard, if_true, SignalCondition], rfl⟩

/-- Witness of C25: the lengths 3, with the initial element 7, and 2, with
none, and the length -1. -/
theorem createVector_panics_beyond_allocation_witness :
    ((0 : Int) ≤ 3 ∧ (3 : Int) ≤ maxSliceLen ∧ [Instance.integer 7].length ≤ 1 ∧
      ∃ v, CreateVector sampleLocal (.integer 3) [.integer 7] = .ok (.generalVector v, .nil) ∧
        (v.toList.length : Int) = 3 ∧
        ([Instance.integer 7] = [] → ∀ y ∈ v.toList, y = Nil) ∧
        (∀ x, [Instance.integer 7] = [x] → ∀ y ∈ v.toList, y = x)) ∧
    ((∃ n : Int, n < 0 ∧ Instance.integer (-1) = .integer n) ∧
      CreateVector sampleLocal (.integer (-1)) []
        = .ok (.nil, NewDomainError (.integer (-1)) (.classObject .Integer))) ∧
    CreateVector sampleLocal (.integer 3) [.integer 7]
      = .ok (GeneralVector [.integer 7, .integer 7, .integer 7], .nil) ∧
    CreateVector sampleLocal (.integer 2) [] = .ok (GeneralVector [Nil, Nil], .nil) :=
  ⟨⟨by decide, by decide, by decide,
      (createVector_panics_beyond_allocation sampleLocal).2.1 3 [.integer 7] (by decide)
        (by decide) (by decide)⟩,
    ⟨⟨-1, by decide, rfl⟩,
      ((createVector_panics_beyond_allocation sampleLocal).2.2 (.integer (-1)) []
        (Or.inr ⟨-1, by decide, rfl⟩)).1⟩,
    by rfl, by rfl⟩

end runtime

/-! ## Theorems: the tokenizer -/

namespace tokenizer

theorem readLoop_unfold (token : List Char → Bool) (buf : List Char) (r : TokenReader) :
    readLoop token buf r.pending =
      match loopBody token buf r with
      | .inl result => result
      | .inr (buf1, r1) => readLoop token buf1 r1.pending := by
  obtain ⟨pending⟩ := r
  cases pending with
  | nil =>
    by_cases hb : buf = []
    · simp [readLoop, loopBody, TokenReader.PeekRune, hb]
    · simp [readLoop, loopBody, TokenReader.PeekRune, hb]
  | cons p rest =>
    by_cases hb : buf = []
    · by_cases hp : token [p] = true
      · simp [readLoop, loopBody, TokenReader.PeekRune, TokenReader.ReadRune, hb, hp]
      · simp [readLoop, loopBody, TokenReader.PeekRune, TokenReader.ReadRune, hb, hp]
    · by_cases hp : token (buf ++ [p]) = true
      · simp [readLoop, loopBody, TokenReader.PeekRune, TokenReader.ReadRune, hb, hp]
      · simp [readLoop, loopBody, TokenReader.PeekRune, TokenReader.ReadRune, hb, hp]

theorem allSegmentsMatch_single {token : List Char → Bool} {p : Char} (h : token [p] = true) :
    AllSegmentsMatch token [p] := by
  intro k hk hk1
  have : k = 1 := by simp at hk1; omega
  subst this
  simpa using h

theorem allSegmentsMatch_snoc {token : List Char → Bool} {buf : List Char} {p : Char}
    (hbuf : AllSegmentsMatch token buf) (h : token (buf ++ [p]) = true) :
    AllSegmentsMatch token (buf ++ [p]) := by
  intro k hk hk1
  by_cases hle : k ≤ buf.length
  · rw [List.take_append_of_le_length hle]
    exact hbuf k hk hle
  · have hk2 : k = (buf ++ [p]).length := by simp at hk1 ⊢; omega
    rw [hk2, List.take_length]
    exact h

theorem readLoop_extends (token : List Char → Bool) (pending : List Char) :
    ∀ buf, buf ≠ [] → AllSegmentsMatch token buf →
      ∃ ext rest, pending = ext ++ rest ∧
        readLoop token buf pending = ((buf ++ ext, false), ⟨rest⟩) ∧
        AllSegmentsMatch token (buf ++ ext) ∧
        (rest = [] ∨ ∃ c rest1, rest = c :: rest1 ∧ token (buf ++ ext ++ [c]) = false) := by
  induction pending with
  | nil =>
    intro buf hne hbuf
    exact ⟨[], [], rfl, by simp [readLoop, hne], by simpa using hbuf, Or.inl rfl⟩
  | cons p rest ih =>
    intro buf hne hbuf
    by_cases hp : token (buf ++ [p]) = true
    · obtain ⟨ext, rest1, hsplit, hrun, hseg, hmax⟩ :=
        ih (buf ++ [p]) (by simp) (allSegmentsMatch_snoc hbuf hp)
      refine ⟨p :: ext, rest1, by simp [hsplit], ?_, ?_, ?_⟩
      · simp only [readLoop, hne, if_false, hp, Bool.not_true]
        simpa using hrun
      · simpa using hseg
      · simpa using hmax
    · have hp1 : token (buf ++ [p]) = false := by simpa using hp
      refine ⟨[], p :: rest, rfl, ?_, by simpa using hbuf, Or.inr ⟨p, rest, rfl, by simpa using hp1⟩⟩
      simp [readLoop, hne, hp1]

theorem readLoop_skips (token : List Char → Bool) (s : List Char) :
    ((∀ c ∈ s, token [c] = false) ∧ readLoop token [] s = (([], true), ⟨[]⟩)) ∨
    ∃ skipped t rest, s = skipped ++ t ++ rest ∧
      readLoop token [] s = ((t, false), ⟨rest⟩) ∧
      (∀ c ∈ skipped, token [c] = false) ∧ t ≠ [] ∧ AllSegmentsMatch token t ∧
      (rest = [] ∨ ∃ c rest1, rest = c :: rest1 ∧ token (t ++ [c]) = false) := by
  induction s with
  | nil => exact Or.inl ⟨by simp, rfl⟩
  | cons p rest ih =>
    by_cases hp : token [p] = true
    · obtain ⟨ext, rest1, hsplit, hrun, hseg, hmax⟩ :=
        readLoop_extends token rest [p] (by simp) (allSegmentsMatch_single hp)
      refine Or.inr ⟨[], [p] ++ ext, rest1, by simp [hsplit], ?_, by simp, by simp, hseg, hmax⟩
      simp only [readLoop, if_true, hp]
      exact hrun
    · have hp1 : token [p] = false := by simpa using hp
      rcases ih with ⟨hall, hrun⟩ | ⟨skipped, t, rest1, hsplit, hrun, hskip, hne, hseg, hmax⟩
      · refine Or.inl ⟨?_, ?_⟩
        · intro c hc
          rcases List.mem_cons.1 hc with rfl | hc
          · exact hp1
          · exact hall c hc
        · simp only [readLoop, if_true, hp1]
          simpa using hrun
      · refine Or.inr ⟨p :: skipped, t, rest1, by simp [hsplit], ?_, ?_, hne, hseg, hmax⟩
        · simp only [readLoop, if_true, hp1]
          simpa using hrun
        · intro c hc
          rcases List.mem_cons.1 hc with rfl | hc
          · exact hp1
          · exact hskip c hc

/-- C27: on every finite rune sequence `s`, whatever the token test,
`ReadToken` returns.  It returns the empty string with an error exactly when
no rune of `s` passes the test on its own, and then the input is used up.
Otherwise `s` is `skipped ++ t ++ rest`, where it returns `t` with no error
and leaves the reader at `rest`: no skipped rune passes the test on its own,
`t` is not empty, `t` and each of its non-empty initial segments pass the
test, and `rest` is empty or `t` followed by the first rune of `rest` fails
the test. -/
theorem readToken_maximal_and_lossless (token : List Char → Bool) (s : List Char) :
    (((NewTokenReader s).ReadToken token).1 = ([], true) ↔ ∀ c ∈ s, token [c] = false) ∧
    ((∀ c ∈ s, token [c] = false) →
      (NewTokenReader s).ReadToken token = (([], true), NewTokenReader [])) ∧
    ((∃ c ∈ s, token [c] = true) →
      ∃ skipped t rest, s = skipped ++ t ++ rest ∧
        (NewTokenReader s).ReadToken token = ((t, false), NewTokenReader rest) ∧
        (∀ c ∈ skipped, token [c] = false) ∧ t ≠ [] ∧ AllSegmentsMatch token t ∧
        (rest = [] ∨ ∃ c rest1, rest = c :: rest1 ∧ token (t ++ [c]) = false)) := by
  show ((readLoop token [] s).1 = ([], true) ↔ _) ∧ (_ → readLoop token [] s = _) ∧
    (_ → ∃ skipped t rest, _ ∧ readLoop token [] s = _ ∧ _)
  rcases readLoop_skips token s with ⟨hall, hrun⟩ | ⟨skipped, t, rest, hsplit, hrun, hskip, hne, hseg, hmax⟩
  · refine ⟨⟨fun _ => hall, fun _ => by rw [hrun]⟩, fun _ => hrun, ?_⟩
    rintro ⟨c, hc, hm⟩
    rw [hall c hc] at hm
    exact absurd hm (by simp)
  · have hfirst : ∃ c ∈ s, token [c] = true := by
      cases t with
      | nil => exact absurd rfl hne
      | cons c t1 =>
        refine ⟨c, by simp [hsplit], ?_⟩
        simpa using hseg 1 (by omega) (by simp)
    have hnot : ¬ ∀ c ∈ s, token [c] = false := by
      obtain ⟨c, hc, hm⟩ := hfirst
      intro h
      rw [h c hc] at hm
      exact absurd hm (by simp)
    refine ⟨⟨fun h => ?_, fun h => absurd h hnot⟩, fun h => absurd h hnot,
      fun _ => ⟨skipped, t, rest, hsplit, hrun, hskip, hne, hseg, hmax⟩⟩
    rw [hrun] at h
    simp at h

/-- Witness for C27, with the sample token test: on the runes of ` 12(3` the
blank is skipped, the token is `12`, and the next call returns `(`; on two
blanks the empty string comes back with an error. -/
theorem readToken_maximal_and_lossless_witness :
    (∃ c ∈ [' ', '1', '2', '(', '3'], samplePattern [c] = true) ∧
    (∃ skipped t rest, [' ', '1', '2', '(', '3'] = skipped ++ t ++ rest ∧
        (NewTokenReader [' ', '1', '2', '(', '3']).ReadToken samplePattern
          = ((t, false), NewTokenReader rest) ∧
        (∀ c ∈ skipped, samplePattern [c] = false) ∧ t ≠ [] ∧
        AllSegmentsMatch samplePattern t ∧
        (rest = [] ∨ ∃ c rest1, rest = c :: rest1 ∧ samplePattern (t ++ [c]) = false)) ∧
    (NewTokenReader [' ', '1', '2', '(', '3']).ReadToken samplePattern
      = ((['1', '2'], false), NewTokenReader ['(', '3']) ∧
    (NewTokenReader ['(', '3']).ReadToken samplePattern
      = ((['('], false), NewTokenReader ['3']) ∧
    (NewTokenReader [' ', ' ']).ReadToken samplePattern = (([], true), NewTokenReader []) :=
  ⟨⟨'1', by simp, by decide⟩,
    (readToken_maximal_and_lossless samplePattern [' ', '1', '2', '(', '3']).2.2
      ⟨'1', by simp, by decide⟩,
    by decide, by decide, by decide⟩

end tokenizer

/-! ## Theorems: the maps of the frames and their keys -/

namespace environment

open ilos

theorem plainKey_hashable {key : Instance} (h : plainKey key = true) : hashable key = true := by
  cases key <;> simp_all [plainKey, hashable]

theorem plainKey_not_nan {key : Instance} (h : plainKey key = true) : isNaN key = false := by
  cases key with
  | float bits =>
    simp only [plainKey, Bool.not_eq_true'] at h
    exact h
  | _ => rfl

theorem mapIndex_plain (vars : Frame) {key : Instance} (h : plainKey key = true) :
    mapIndex vars key = .ok (vars (mapKey key)) := by
  simp [mapIndex, plainKey_hashable h, plainKey_not_nan h]

theorem mapAssign_plain (w : World) (a : Nat) {key : Instance} (value : Instance)
    (h : plainKey key = true) :
    mapAssign w a key value = .ok (w.store a (mapKey key) value) := by
  simp [mapAssign, plainKey_hashable h, plainKey_not_nan h]

theorem getLoop_plain (w : World) (stack : List Nat) {key : Instance} (h : plainKey key = true) :
    getLoop w stack key = .ok (scanGet w stack (mapKey key)) := by
  induction stack with
  | nil => rfl
  | cons a rest ih =>
    simp only [getLoop, mapIndex_plain _ h, scanGet]
    cases w.maps a (mapKey key) with
    | none => exact ih
    | some v => rfl

theorem setLoop_plain (w : World) (stack : List Nat) {key : Instance} (value : Instance)
    (h : plainKey key = true) :
    setLoop w stack key value = .ok (scanSet w stack (mapKey key) value) := by
  induction stack with
  | nil => rfl
  | cons a rest ih =>
    simp only [setLoop, mapIndex_plain _ h, scanSet, mapAssign_plain w a value h]
    cases w.maps a (mapKey key) with
    | none => exact ih
    | some v => rfl

theorem defineFirst_plain (w : World) (stack : List Nat) {key : Instance} (value : Instance)
    (h : plainKey key = true) :
    defineFirst w stack key value = defineFront w stack (mapKey key) value := by
  cases stack with
  | nil => rfl
  | cons a rest => exact mapAssign_plain w a value h

theorem getLoop_congr {w w1 : World} (stack : List Nat) (key : Instance)
    (h : ∀ a ∈ stack, w1.maps a = w.maps a) : getLoop w1 stack key = getLoop w stack key := by
  induction stack with
  | nil => rfl
  | cons a rest ih =>
    have ha : w1.maps a = w.maps a := h a (by simp)
    have hrest : ∀ b ∈ rest, w1.maps b = w.maps b := fun b hb => h b (by simp [hb])
    simp only [getLoop, ha, ih hrest]

theorem getLoop_store_not_mem (w : World) (a : Nat) (k value : Instance) (stack : List Nat)
    (key : Instance) (h : a ∉ stack) :
    getLoop (w.store a k value) stack key = getLoop w stack key :=
  getLoop_congr stack key (fun _ hb =>
    World.store_maps_other_map w k value (fun hba => h (hba ▸ hb)))

theorem getLoop_store_key_ne (w : World) (a : Nat) {k key : Instance} (value : Instance)
    (h : mapKey key ≠ k) (stack : List Nat) :
    getLoop (w.store a k value) stack key = getLoop w stack key := by
  induction stack with
  | nil => rfl
  | cons b rest ih =>
    simp only [getLoop, mapIndex, World.store_maps_key_ne w a b value h, ih]

theorem plainLookupSpec_getLoop (stack : List Nat) :
    PlainLookupSpec (fun key w => getLoop w stack key) stack := by
  intro key w hk
  simp only [getLoop_plain w stack hk, Except.ok.injEq]
  exact ⟨fun v => scanGet_true_iff w stack (mapKey key) v, scanGet_false_iff w stack (mapKey key),
    scanGet_dichotomy w stack (mapKey key)⟩

theorem plainDefineSpec_first (stack : List Nat) (h : stack ≠ []) :
    PlainDefineSpec (fun k v w => defineFirst w stack k v) (fun key w => getLoop w stack key)
      stack := by
  intro k v w hk
  cases stack with
  | nil => exact absurd rfl h
  | cons a rest =>
    refine ⟨a, w.store a (mapKey k) v, by simp, mapAssign_plain w a v hk, ?_,
      World.store_maps_same w a (mapKey k) v,
      fun k' hk' => World.store_maps_other_key w a v hk',
      fun b hb => World.store_maps_other_map w (mapKey k) v hb, ?_,
      fun k' hk' => getLoop_store_key_ne w a v hk' (a :: rest), rfl⟩
    · show getLoop _ (a :: rest) k = _
      rw [getLoop_plain _ _ hk]
      exact congrArg Except.ok (scanGet_store_front w a rest (mapKey k) v)
    · intro hnot i b hi hb
      have hmem : b ∈ rest := by
        cases i with
        | zero => exact absurd hi (by omega)
        | succ j =>
          simp only [List.getElem?_cons_succ] at hb
          exact List.mem_iff_getElem?.2 ⟨j, hb⟩
      exact World.store_maps_other_map w (mapKey k) v
        (fun hba => hnot (by simpa [hba] using hmem))

/-- C8 amended: for a plain key (a symbol, an integer, a character or a float
that is a number) each of the five lookups returns, without panic, `(v, true)`
exactly when `v` is the value bound to the key in the lowest-index frame of
its own stack that binds the key, and `(nil, false)` exactly when no frame of
that stack binds it.  A lookup returns no world: the maps are only read. -/
theorem get_returns_innermost_binding_of_plain_key (e : Environment) :
    PlainLookupSpec e.GetVariable e.Variable ∧
    PlainLookupSpec e.GetFunction e.Function ∧
    PlainLookupSpec e.GetMacro e.Macro ∧
    PlainLookupSpec e.GetDynamicVariable e.DynamicVariable ∧
    PlainLookupSpec e.GetThrowTag e.ThrowTag :=
  ⟨plainLookupSpec_getLoop _, plainLookupSpec_getLoop _, plainLookupSpec_getLoop _,
    plainLookupSpec_getLoop _, plainLookupSpec_getLoop _⟩

/-- Witness of C8 amended: in the sample world the variable `X` is found in
frame 1, the lowest frame that binds it, and `Y` in none. -/
theorem get_returns_innermost_binding_of_plain_key_witness :
    plainKey (.symbol "X") = true ∧
    sampleEnv.GetVariable (.symbol "X") sampleWorld = .ok (.integer 1, true) ∧
    (∃ i, InnermostAt sampleWorld sampleEnv.Variable (mapKey (.symbol "X")) i (.integer 1)) ∧
    sampleEnv.GetVariable (.symbol "Y") sampleWorld = .ok (.nil, false) ∧
    Unbound sampleWorld sampleEnv.Variable (mapKey (.symbol "Y")) :=
  ⟨rfl, rfl,
    (((get_returns_innermost_binding_of_plain_key sampleEnv).1 (.symbol "X") sampleWorld
      rfl).1 (.integer 1)).1 rfl,
    rfl,
    ((get_returns_innermost_binding_of_plain_key sampleEnv).1 (.symbol "Y") sampleWorld
      rfl).2.1.1 rfl⟩

/-- C8 as stated fails for keys that are not plain.  With a general vector
for key each of the five lookups panics on the first frame instead of
returning.  With a float that is not a number for key, `DefineVariable`
returns, having put an entry into frame 0, and the lookup of that key still
returns `(nil, false)`. -/
theorem get_panics_or_misses_on_other_keys :
    sampleEnv.GetVariable (GeneralVector []) sampleWorld = .error .panic ∧
    sampleEnv.GetFunction (GeneralVector []) sampleWorld = .error .panic ∧
    sampleEnv.GetMacro (GeneralVector []) sampleWorld = .error .panic ∧
    sampleEnv.GetDynamicVariable (GeneralVector []) sampleWorld = .error .panic ∧
    sampleEnv.GetThrowTag (GeneralVector []) sampleWorld = .error .panic ∧
    (∃ w1, sampleEnv.DefineVariable nan (.integer 1) sampleWorld = .ok w1 ∧
      sampleEnv.GetVariable nan w1 = .ok (.nil, false)) :=
  ⟨rfl, rfl, rfl, rfl, rfl, ⟨_, rfl, rfl⟩⟩

end environment

namespace environment

open ilos

theorem mapKey_symbol (name : String) : mapKey (.symbol name) = .symbol name := rfl

theorem getVariable_symbol (e : Environment) (name : String) (w : World) :
    e.GetVariable (.symbol name) w = .ok (GetVariable e (.symbol name) w) :=
  getLoop_plain w e.Variable rfl

theorem setVariable_symbol (e : Environment) (name : String) (value : Instance) (w : World) :
    e.SetVariable (.symbol name) value w = .ok (SetVariable e (.symbol name) value w) :=
  setLoop_plain w e.Variable value rfl

theorem defineVariable_symbol (e : Environment) (name : String) (value : Instance) (w : World) :
    e.DefineVariable (.symbol name) value w = DefineVariable e (.symbol name) value w :=
  defineFirst_plain w e.Variable value rfl

end environment

/-! ## Theorems: defining and setting under a plain key -/

namespace environment

open ilos

/-- C9 amended: in an environment whose stacks have a frame 0, and for a plain
key `k` (a symbol, an integer, a character or a float that is a number),
`DefineVariable k v` returns and afterwards `GetVariable k` is `(v, true)`
whatever was bound before; only the map of frame 0 is written, and there only
the entry of `k`, so every frame that is another map object is unchanged (all
the frames 1.. when that map does not stand in the stack a second time), and
every key not equal to `k` is looked up as before.  The same holds for
`DefineFunction`, `DefineMacro` and `DefineDynamicVariable` with their
lookups. -/
theorem define_then_get_shadows_for_plain_key (e : Environment) (hV : e.Variable ≠ [])
    (hF : e.Function ≠ []) (hM : e.Macro ≠ []) (hD : e.DynamicVariable ≠ []) :
    PlainDefineSpec e.DefineVariable e.GetVariable e.Variable ∧
    PlainDefineSpec e.DefineFunction e.GetFunction e.Function ∧
    PlainDefineSpec e.DefineMacro e.GetMacro e.Macro ∧
    PlainDefineSpec e.DefineDynamicVariable e.GetDynamicVariable e.DynamicVariable :=
  ⟨plainDefineSpec_first _ hV, plainDefineSpec_first _ hF, plainDefineSpec_first _ hM,
    plainDefineSpec_first _ hD⟩

/-- Witness of C9 amended: on the sample environment, whose Variable frames 0
and 1 are the maps 3 and 4, defining `X` as 2 in the sample world. -/
theorem define_then_get_shadows_for_plain_key_witness :
    (sampleEnv.Variable ≠ [] ∧ sampleEnv.Function ≠ [] ∧ sampleEnv.Macro ≠ [] ∧
      sampleEnv.DynamicVariable ≠ [] ∧ plainKey (.symbol "X") = true) ∧
    (∃ a w', sampleEnv.Variable[0]? = some a ∧
      sampleEnv.DefineVariable (.symbol "X") (.integer 2) sampleWorld = .ok w' ∧
      sampleEnv.GetVariable (.symbol "X") w' = .ok (.integer 2, true) ∧
      w'.maps a (mapKey (.symbol "X")) = some (.integer 2) ∧
      (∀ k', k' ≠ mapKey (.symbol "X") → w'.maps a k' = sampleWorld.maps a k') ∧
      (∀ b, b ≠ a → w'.maps b = sampleWorld.maps b) ∧
      (a ∉ sampleEnv.Variable.tail →
        ∀ i b, 0 < i → sampleEnv.Variable[i]? = some b → w'.maps b = sampleWorld.maps b) ∧
      (∀ k', mapKey k' ≠ mapKey (.symbol "X") →
        sampleEnv.GetVariable k' w' = sampleEnv.GetVariable k' sampleWorld) ∧
      w'.next = sampleWorld.next) :=
  ⟨⟨by simp [sampleEnv], by simp [sampleEnv], by simp [sampleEnv], by simp [sampleEnv], rfl⟩,
    (define_then_get_shadows_for_plain_key sampleEnv (by simp [sampleEnv])
      (by simp [sampleEnv]) (by simp [sampleEnv]) (by simp [sampleEnv])).1
      (.symbol "X") (.integer 2) sampleWorld rfl⟩

/-- C9 as stated fails in three ways.  With a general vector for key,
`DefineVariable` panics.  With a float that is not a number for key it
returns, and the lookup of the key afterwards is `(nil, false)`.  And in the
sample environment appended to itself the frame 2 of the Variable stack is
the map of frame 0, so that `DefineVariable X 2` changes frame 2 too, which
did not bind `X` before. -/
theorem define_panics_misses_or_writes_two_frames :
    sampleEnv.DefineVariable (GeneralVector []) (.integer 1) sampleWorld = .error .panic ∧
    (∃ w1, sampleEnv.DefineVariable nan (.integer 1) sampleWorld = .ok w1 ∧
      sampleEnv.GetVariable nan w1 = .ok (.nil, false)) ∧
    aliasedEnv.Variable[0]? = some 3 ∧ aliasedEnv.Variable[2]? = some 3 ∧
    sampleWorld.maps 3 (.symbol "X") = none ∧
    (∃ w1, aliasedEnv.DefineVariable (.symbol "X") (.integer 2) sampleWorld = .ok w1 ∧
      w1.maps 3 (.symbol "X") = some (.integer 2)) :=
  ⟨rfl, ⟨_, rfl, rfl⟩, rfl, rfl, rfl, ⟨_, rfl, by decide⟩⟩

/-- C10 amended: for a plain key `k` (a symbol, an integer, a character or a
float that is a number), `SetVariable k v` on a stack in which no frame binds
`k` returns false and leaves the world as it was; when some frame binds `k`
it returns true and writes `v` under `k` in the map of the lowest-index frame
binding `k`, so that `GetVariable k` then gives `(v, true)`, while every frame
that is another map object, every other entry of the written map and the
lookup of every key not equal to `k` are unchanged. -/
theorem setVariable_rewrites_innermost_plain_binding (e : Environment) (k : Instance)
    (v : Instance) (w : World) (hk : plainKey k = true) :
    (Unbound w e.Variable (mapKey k) → e.SetVariable k v w = .ok (false, w)) ∧
    (¬ Unbound w e.Variable (mapKey k) →
      ∃ i old a w', InnermostAt w e.Variable (mapKey k) i old ∧ e.Variable[i]? = some a ∧
        e.SetVariable k v w = .ok (true, w') ∧
        e.GetVariable k w' = .ok (v, true) ∧
        w'.maps a (mapKey k) = some v ∧
        (∀ k', k' ≠ mapKey k → w'.maps a k' = w.maps a k') ∧
        (∀ b, b ≠ a → w'.maps b = w.maps b) ∧
        (∀ (j b : Nat), e.Variable[j]? = some b → b ≠ a → w'.maps b = w.maps b) ∧
        (∀ k', mapKey k' ≠ mapKey k → e.GetVariable k' w' = e.GetVariable k' w) ∧
        w'.next = w.next) := by
  have hset : e.SetVariable k v w = .ok (scanSet w e.Variable (mapKey k) v) :=
    setLoop_plain w e.Variable v hk
  refine ⟨fun h => by rw [hset, scanSet_unbound v h], fun h => ?_⟩
  have hget : ∃ old, scanGet w e.Variable (mapKey k) = (old, true) := by
    rcases scanGet_dichotomy w e.Variable (mapKey k) with h0 | h1
    · exact absurd ((scanGet_false_iff w e.Variable (mapKey k)).1 h0) h
    · exact h1
  obtain ⟨old, hold⟩ := hget
  obtain ⟨i, hin⟩ := (scanGet_true_iff w e.Variable (mapKey k) old).1 hold
  obtain ⟨a, ha, hs⟩ := scanSet_innermost v hin
  refine ⟨i, old, a, w.store a (mapKey k) v, hin, ha, by rw [hset, hs], ?_,
    World.store_maps_same w a (mapKey k) v,
    fun k' hk' => World.store_maps_other_key w a v hk',
    fun b hb => World.store_maps_other_map w (mapKey k) v hb,
    fun _ b _ hb => World.store_maps_other_map w (mapKey k) v hb,
    fun k' hk' => getLoop_store_key_ne w a v hk' e.Variable, rfl⟩
  show getLoop _ e.Variable k = _
  rw [getLoop_plain _ _ hk]
  exact congrArg Except.ok (scanGet_after_store_innermost v hin ha)

/-- Witness of C10 amended: in the sample world `X` is bound in frame 1 only,
and `SetVariable X 2` rewrites that frame. -/
theorem setVariable_rewrites_innermost_plain_binding_witness :
    (plainKey (.symbol "X") = true ∧
      ¬ Unbound sampleWorld sampleEnv.Variable (mapKey (.symbol "X"))) ∧
    (∃ i old a w', InnermostAt sampleWorld sampleEnv.Variable (mapKey (.symbol "X")) i old ∧
        sampleEnv.Variable[i]? = some a ∧
        sampleEnv.SetVariable (.symbol "X") (.integer 2) sampleWorld = .ok (true, w') ∧
        sampleEnv.GetVariable (.symbol "X") w' = .ok (.integer 2, true) ∧
        w'.maps a (mapKey (.symbol "X")) = some (.integer 2) ∧
        (∀ k', k' ≠ mapKey (.symbol "X") → w'.maps a k' = sampleWorld.maps a k') ∧
        (∀ b, b ≠ a → w'.maps b = sampleWorld.maps b) ∧
        (∀ (j b : Nat), sampleEnv.Variable[j]? = some b → b ≠ a →
          w'.maps b = sampleWorld.maps b) ∧
        (∀ k', mapKey k' ≠ mapKey (.symbol "X") →
          sampleEnv.GetVariable k' w' = sampleEnv.GetVariable k' sampleWorld) ∧
        w'.next = sampleWorld.next) ∧
    sampleEnv.SetVariable (.symbol "X") (.integer 2) sampleWorld
      = .ok (true, sampleWorld.store 4 (.symbol "X") (.integer 2)) ∧
    sampleEnv.SetVariable (.symbol "Y") (.integer 2) sampleWorld = .ok (false, sampleWorld) :=
  ⟨⟨rfl, sample_X_bound⟩,
    (setVariable_rewrites_innermost_plain_binding sampleEnv (.symbol "X") (.integer 2)
      sampleWorld rfl).2 sample_X_bound,
    rfl, rfl⟩

/-- C10 as stated fails in three ways.  With a general vector for key,
`SetVariable` panics instead of returning false.  With a float that is not a
number for key it returns false although `DefineVariable` has put the key
into frame 0.  And in the sample environment appended to itself the frame 3
of the Variable stack is the map of frame 1, the lowest frame binding `X`,
so that `SetVariable X 2` changes frame 3 too. -/
theorem setVariable_panics_misses_or_writes_two_frames :
    sampleEnv.SetVariable (GeneralVector []) (.integer 1) sampleWorld = .error .panic ∧
    (∃ w1, sampleEnv.DefineVariable nan (.integer 1) sampleWorld = .ok w1 ∧
      sampleEnv.SetVariable nan (.integer 2) w1 = .ok (false, w1)) ∧
    aliasedEnv.Variable[1]? = some 4 ∧ aliasedEnv.Variable[3]? = some 4 ∧
    InnermostAt sampleWorld aliasedEnv.Variable (.symbol "X") 1 (.integer 1) ∧
    (∃ w1, aliasedEnv.SetVariable (.symbol "X") (.integer 2) sampleWorld = .ok (true, w1) ∧
      sampleWorld.maps 4 (.symbol "X") = some (.integer 1) ∧
      w1.maps 4 (.symbol "X") = some (.integer 2)) := by
  refine ⟨rfl, ⟨_, rfl, rfl⟩, rfl, rfl, ⟨⟨4, rfl, by decide⟩, ?_⟩, ⟨_, rfl, by decide, by decide⟩⟩
  intro j b hj hb
  have hj0 : j = 0 := by omega
  subst hj0
  have hb3 : b = 3 := by
    have : aliasedEnv.Variable[0]? = some 3 := rfl
    rw [this] at hb
    exact (Option.some.inj hb).symm
  subst hb3
  rfl

end environment

/-! ## Theorems: a new environment in front of another -/

namespace environment

open ilos

theorem lookupsKept_store (f : Environment) (w : World) (a : Nat) (key value : Instance)
    (h : a ∉ frames f) : LookupsKept f w (w.store a key value) := by
  simp only [frames, List.mem_append, not_or] at h
  obtain ⟨⟨⟨⟨hT, hM⟩, hF⟩, hV⟩, hD⟩ := h
  exact fun k => ⟨getLoop_store_not_mem w a key value _ k hT,
    getLoop_store_not_mem w a key value _ k hM, getLoop_store_not_mem w a key value _ k hF,
    getLoop_store_not_mem w a key value _ k hV, getLoop_store_not_mem w a key value _ k hD⟩

theorem plainShadowsOnly_front (a : Nat) (rest : List Nat) (f : Environment)
    (h : a ∉ frames f) :
    PlainShadowsOnly (fun key value w => defineFirst w (a :: rest) key value)
      (fun key w => getLoop w (a :: rest) key) f := by
  intro key value w1 hk
  refine ⟨w1.store a (mapKey key) value, mapAssign_plain w1 a value hk, ?_,
    lookupsKept_store f w1 a (mapKey key) value h⟩
  show getLoop _ (a :: rest) key = _
  rw [getLoop_plain _ _ hk]
  exact congrArg Except.ok (scanGet_store_front w1 a rest (mapKey key) value)

theorem getLoop_empty_front (w : World) (a : Nat) (rest : List Nat) {key : Instance}
    (hk : plainKey key = true) (h : w.maps a = Frame.empty) :
    getLoop w (a :: rest) key = getLoop w rest key := by
  rw [getLoop_plain _ _ hk, getLoop_plain _ _ hk]
  exact congrArg Except.ok (scanGet_empty_front w a rest (mapKey key) h)

/-- C26 amended: let `e` be the environment `New` has just returned, extended
by `AppendAll(e, f)` with an environment `f` that shares no map with it.
Then every lookup of a plain key (a symbol, an integer, a character or a
float that is a number) in `e`, in each of the five namespaces, returns what
the same lookup returns in `f`; and a `Define*` of a plain key in `e`, in
whatever later world, returns and makes its binding the result of the lookup
of that key in `e`, whatever `f` binds the key to, while every lookup in `f`
returns what it returned before. -/
theorem appendAll_to_new_environment_plain_keys (w : World) (f : Environment)
    (hf : List.Disjoint (frames (New w).1) (frames f)) :
    SamePlainLookups (AppendAll (New w).1 f) (New w).2 f (New w).2 ∧
    PlainShadowsOnly (AppendAll (New w).1 f).DefineThrowTag
      (AppendAll (New w).1 f).GetThrowTag f ∧
    PlainShadowsOnly (AppendAll (New w).1 f).DefineMacro (AppendAll (New w).1 f).GetMacro f ∧
    PlainShadowsOnly (AppendAll (New w).1 f).DefineFunction
      (AppendAll (New w).1 f).GetFunction f ∧
    PlainShadowsOnly (AppendAll (New w).1 f).DefineVariable
      (AppendAll (New w).1 f).GetVariable f ∧
    PlainShadowsOnly (AppendAll (New w).1 f).DefineDynamicVariable
      (AppendAll (New w).1 f).GetDynamicVariable f := by
  have hmem : ∀ a, w.next ≤ a → a < w.next + 5 → a ∉ frames f := by
    intro a h1 h2 hm
    refine hf ?_ hm
    have h : a = w.next ∨ a = w.next + 1 ∨ a = w.next + 2 ∨ a = w.next + 3 ∨ a = w.next + 4 := by
      omega
    simp only [New_fst, frames, List.mem_append, List.mem_singleton]
    rcases h with h | h | h | h | h <;> simp [h]
  refine ⟨fun k hk => ⟨?_, ?_, ?_, ?_, ?_⟩, ?_, ?_, ?_, ?_, ?_⟩
  · exact getLoop_empty_front _ _ _ hk (New_maps_new w _ (by omega) (by omega))
  · exact getLoop_empty_front _ (w.next + 1) _ hk (New_maps_new w _ (by omega) (by omega))
  · exact getLoop_empty_front _ (w.next + 2) _ hk (New_maps_new w _ (by omega) (by omega))
  · exact getLoop_empty_front _ (w.next + 3) _ hk (New_maps_new w _ (by omega) (by omega))
  · exact getLoop_empty_front _ (w.next + 4) _ hk (New_maps_new w _ (by omega) (by omega))
  · exact plainShadowsOnly_front w.next f.ThrowTag f (hmem _ (by omega) (by omega))
  · exact plainShadowsOnly_front (w.next + 1) f.Macro f (hmem _ (by omega) (by omega))
  · exact plainShadowsOnly_front (w.next + 2) f.Function f (hmem _ (by omega) (by omega))
  · exact plainShadowsOnly_front (w.next + 3) f.Variable f (hmem _ (by omega) (by omega))
  · exact plainShadowsOnly_front (w.next + 4) f.DynamicVariable f (hmem _ (by omega) (by omega))

/-- Witness of C26 amended: a new environment made in the sample world, whose
maps 0 to 5 belong to the sample environment, and extended by it: the
variable `X` is 1 in both, and after `X` is defined as 2 in the new
environment it is 2 there and still 1 in the sample environment. -/
theorem appendAll_to_new_environment_plain_keys_witness :
    (List.Disjoint (frames (New sampleWorld).1) (frames sampleEnv) ∧
      plainKey (.symbol "X") = true) ∧
    (AppendAll (New sampleWorld).1 sampleEnv).GetVariable (.symbol "X") (New sampleWorld).2
      = .ok (.integer 1, true) ∧
    sampleEnv.GetVariable (.symbol "X") (New sampleWorld).2 = .ok (.integer 1, true) ∧
    (∃ w2, (AppendAll (New sampleWorld).1 sampleEnv).DefineVariable (.symbol "X") (.integer 2)
        (New sampleWorld).2 = .ok w2 ∧
      (AppendAll (New sampleWorld).1 sampleEnv).GetVariable (.symbol "X") w2
        = .ok (.integer 2, true) ∧
      sampleEnv.GetVariable (.symbol "X") w2 = .ok (.integer 1, true)) := by
  have hd : List.Disjoint (frames (New sampleWorld).1) (frames sampleEnv) := by
    simp [New_fst, frames, sampleEnv, sampleWorld]
  have h := appendAll_to_new_environment_plain_keys sampleWorld sampleEnv hd
  have hX : sampleEnv.GetVariable (.symbol "X") (New sampleWorld).2 = .ok (.integer 1, true) :=
    rfl
  obtain ⟨w2, h1, h2, h3⟩ := h.2.2.2.2.1 (.symbol "X") (.integer 2) (New sampleWorld).2 rfl
  exact ⟨⟨hd, rfl⟩, ((h.1 (.symbol "X") rfl).2.2.2.1).trans hX, hX, w2, h1, h2,
    ((h3 (.symbol "X")).2.2.2.1).trans hX⟩

/-- C26 as stated fails for keys that are not plain, in the new environment
made in the sample world and extended by the sample environment.  With a
general vector for key the lookup and the `Define*` panic.  With a float that
is not a number for key the `Define*` returns and the binding is not visible:
the lookup of the key afterwards is `(nil, false)`. -/
theorem derived_environment_panics_or_misses_on_other_keys :
    (AppendAll (New sampleWorld).1 sampleEnv).GetVariable (GeneralVector [])
      (New sampleWorld).2 = .error .panic ∧
    (AppendAll (New sampleWorld).1 sampleEnv).DefineVariable (GeneralVector []) (.integer 1)
      (New sampleWorld).2 = .error .panic ∧
    (∃ w2, (AppendAll (New sampleWorld).1 sampleEnv).DefineVariable nan (.integer 1)
        (New sampleWorld).2 = .ok w2 ∧
      (AppendAll (New sampleWorld).1 sampleEnv).GetVariable nan w2 = .ok (.nil, false)) :=
  ⟨rfl, rfl, ⟨_, rfl, rfl⟩⟩

end environment
